import Mathlib

/-!
# CollabBoard canvas geometry

A shallow embedding of the geometry utilities of
`src/components/canvas/Canvas.jsx` (shape recognition, lasso containment,
eraser distance helpers) and the properties proved about them.

JavaScript numbers are embedded twice.  The general statements embed them as
elements of a linearly ordered field (exact arithmetic).  `Math.sqrt`-based
primitives of the host language are parameters of that embedding: `sqrt` stands
for the square root behind `Math.hypot`, `pi` for `Math.PI`.  Over the reals
they are instantiated with `Real.sqrt` and `Real.pi`.  Every division of the
embedded functions is guarded in the source by a test that makes the divisor
non-zero, so the convention `x / 0 = 0` of a Lean field is never observable.

The part "Binary64 arithmetic" embeds the same source lines with the rounding
of the host (IEEE 754 binary64, round to nearest, ties to even); the
definitions there carry the suffix `64`.  They are evaluated at the inputs at
which a statement that holds over exact arithmetic fails in the arithmetic of
the host.
-/

namespace CollabBoard

/-- A sampled point `{x, y}` in page-logical coordinates. -/
structure Point (α : Type) where
  x : α
  y : α
deriving DecidableEq, Repr

/-- The object returned by `recognizeShape`: `{type: "circle", cx, cy, radius}`,
`{type: "rect", x, y, width, height}`, `{type: "line", x1, y1, x2, y2}` or
`{type: "arrow", x1, y1, x2, y2}`. -/
inductive Shape (α : Type) where
  | circle (cx cy radius : α)
  | rect (x y width height : α)
  | line (x1 y1 x2 y2 : α)
  | arrow (x1 y1 x2 y2 : α)
deriving DecidableEq, Repr

section Geometry

variable {α : Type} [LinearOrderedField α]

/-- Source: `Math.hypot(a, b)`, the square root of `a*a + b*b`. -/
def hypot (sqrt : α → α) (a b : α) : α := sqrt (a * a + b * b)

/-! ## Shape recognition -/

/-- Source: `points[0]` (read only after the guard `points.length < 5`). -/
def firstPoint (points : List (Point α)) : Point α := points.headD ⟨0, 0⟩

/-- Source: `points[points.length - 1]` (read only after the length guard). -/
def lastPoint (points : List (Point α)) : Point α := points.getLastD ⟨0, 0⟩

/-- Source: `dist = Math.hypot(last.x - first.x, last.y - first.y)`. -/
def closureDist (sqrt : α → α) (points : List (Point α)) : α :=
  hypot sqrt ((lastPoint points).x - (firstPoint points).x)
    ((lastPoint points).y - (firstPoint points).y)

/-- Source: `minX` after the `forEach` loop.  The source starts the loop at `Infinity`;
on the non-empty list the guard leaves, `Math.min(Infinity, p.x) = p.x` at the
first point, so the fold is started at the first point's coordinate. -/
def minX (points : List (Point α)) : α :=
  points.foldl (fun m p => min m p.x) (firstPoint points).x

/-- Source: `minY` after the `forEach` loop (see `minX`). -/
def minY (points : List (Point α)) : α :=
  points.foldl (fun m p => min m p.y) (firstPoint points).y

/-- Source: `maxX` after the `forEach` loop (the source starts at `-Infinity`). -/
def maxX (points : List (Point α)) : α :=
  points.foldl (fun m p => max m p.x) (firstPoint points).x

/-- Source: `maxY` after the `forEach` loop (the source starts at `-Infinity`). -/
def maxY (points : List (Point α)) : α :=
  points.foldl (fun m p => max m p.y) (firstPoint points).y

/-- Source: `w = maxX - minX`. -/
def bboxW (points : List (Point α)) : α := maxX points - minX points

/-- Source: `h = maxY - minY`. -/
def bboxH (points : List (Point α)) : α := maxY points - minY points

/-- Source: `diagonal = Math.hypot(w, h)`. -/
def diagonal (sqrt : α → α) (points : List (Point α)) : α :=
  hypot sqrt (bboxW points) (bboxH points)

/-- The loop `for (i = 1; i < points.length; i++) pathLen += Math.hypot(...)`,
with `prev = points[i-1]` and the remaining points `points[i..]`. -/
def pathLenLoop (sqrt : α → α) : Point α → List (Point α) → α → α
  | _, [], acc => acc
  | prev, q :: rest, acc =>
      pathLenLoop sqrt q rest (acc + hypot sqrt (q.x - prev.x) (q.y - prev.y))

/-- Source: `pathLen`: the sum of the lengths of the segments of the polyline. -/
def pathLen (sqrt : α → α) : List (Point α) → α
  | [] => 0
  | p :: rest => pathLenLoop sqrt p rest 0

/-- Source: `isClosed = dist < diagonal * 0.25`. -/
def isClosed (sqrt : α → α) (points : List (Point α)) : Prop :=
  closureDist sqrt points < diagonal sqrt points * 0.25

instance (sqrt : α → α) (points : List (Point α)) : Decidable (isClosed sqrt points) := by
  unfold isClosed; infer_instance

/-- Source: `cx = (minX + maxX) / 2`. -/
def centreX (points : List (Point α)) : α := (minX points + maxX points) / 2

/-- Source: `cy = (minY + maxY) / 2`. -/
def centreY (points : List (Point α)) : α := (minY points + maxY points) / 2

/-- Source: `avgR = (w + h) / 4`. -/
def avgR (points : List (Point α)) : α := (bboxW points + bboxH points) / 4

/-- Source: `ratio = pathLen / (2 * Math.PI * avgR)`. -/
def circleRatio (sqrt : α → α) (pi : α) (points : List (Point α)) : α :=
  pathLen sqrt points / (2 * pi * avgR points)

/-- Source: `Math.abs(w - h) / Math.max(w, h)`. -/
def aspectImbalance (points : List (Point α)) : α :=
  |bboxW points - bboxH points| / max (bboxW points) (bboxH points)

/-- The circle test
`ratio > 0.75 && ratio < 1.5 && Math.abs(w - h) / Math.max(w, h) < 0.4`. -/
def circleTest (sqrt : α → α) (pi : α) (points : List (Point α)) : Prop :=
  circleRatio sqrt pi points > 0.75 ∧ circleRatio sqrt pi points < 1.5 ∧
    aspectImbalance points < 0.4

instance (sqrt : α → α) (pi : α) (points : List (Point α)) :
    Decidable (circleTest sqrt pi points) := by
  unfold circleTest; infer_instance

/-- Source: `margin = Math.max(w, h) * 0.15`. -/
def edgeMargin (points : List (Point α)) : α := max (bboxW points) (bboxH points) * 0.15

/-- The test of the edge-counting loop: the point is within `margin` of one of
the four bounding-box edges. -/
def nearEdge (points : List (Point α)) (p : Point α) : Prop :=
  |p.x - minX points| < edgeMargin points ∨ |p.x - maxX points| < edgeMargin points ∨
    |p.y - minY points| < edgeMargin points ∨ |p.y - maxY points| < edgeMargin points

instance (points : List (Point α)) (p : Point α) : Decidable (nearEdge points p) := by
  unfold nearEdge; infer_instance

/-- Source: `onEdge` after the loop `points.forEach((p) => { if (...) onEdge++; })`. -/
def onEdge (points : List (Point α)) : Nat :=
  points.foldl (fun n p => if nearEdge points p then n + 1 else n) 0

/-- The rectangle test `onEdge / points.length > 0.7`. -/
def rectTest (points : List (Point α)) : Prop :=
  (onEdge points : α) / (points.length : α) > 0.7

instance (points : List (Point α)) : Decidable (rectTest points) := by
  unfold rectTest; infer_instance

/-- Source: `lineLen = Math.hypot(last.x - first.x, last.y - first.y)`. -/
def lineLen (sqrt : α → α) (points : List (Point α)) : α :=
  hypot sqrt ((lastPoint points).x - (firstPoint points).x)
    ((lastPoint points).y - (firstPoint points).y)

/-- Source: `dev` of the deviation loop: the distance of `p` from the chord line. -/
def deviation (sqrt : α → α) (points : List (Point α)) (p : Point α) : α :=
  |((lastPoint points).y - (firstPoint points).y) * p.x
      - ((lastPoint points).x - (firstPoint points).x) * p.y
      + (lastPoint points).x * (firstPoint points).y
      - (lastPoint points).y * (firstPoint points).x| / lineLen sqrt points

/-- Source: `maxDev` after the loop `points.forEach((p) => { ...; maxDev = Math.max(maxDev, dev); })`. -/
def maxDev (sqrt : α → α) (points : List (Point α)) : α :=
  points.foldl (fun m p => max m (deviation sqrt points p)) 0

/-- The chord part of `recognizeShape` (from `const lineLen = ...` to the final
`return null`). -/
def chordClassify (sqrt : α → α) (points : List (Point α)) : Option (Shape α) :=
  if lineLen sqrt points > 30 then
    if maxDev sqrt points < lineLen sqrt points * 0.08 then
      some (.line (firstPoint points).x (firstPoint points).y
        (lastPoint points).x (lastPoint points).y)
    else if maxDev sqrt points < lineLen sqrt points * 0.12 then
      some (.arrow (firstPoint points).x (firstPoint points).y
        (lastPoint points).x (lastPoint points).y)
    else none
  else none

/-- Source: `recognizeShape(points)`; `none` is the source's `null`. -/
def recognizeShape (sqrt : α → α) (pi : α) (points : List (Point α)) : Option (Shape α) :=
  if points.length < 5 then none
  else if isClosed sqrt points then
    if circleTest sqrt pi points then
      some (.circle (centreX points) (centreY points) (avgR points))
    else if rectTest points then
      some (.rect (minX points) (minY points) (bboxW points) (bboxH points))
    else chordClassify sqrt points
  else chordClassify sqrt points

end Geometry

/-- The result is a `line` or an `arrow`. -/
def Shape.isChord {α : Type} : Shape α → Bool
  | .line _ _ _ _ => true
  | .arrow _ _ _ _ => true
  | _ => false

/-! ## Lasso containment -/

section Lasso

variable {α : Type} [LinearOrderedField α]

/-- The test of the loop body of `pointInPolygon` for `polygon[i] = (xi, yi)` and
`polygon[j] = (xj, yj)`:
`(yi > py) !== (yj > py) && px < ((xj - xi) * (py - yi)) / (yj - yi) + xi`. -/
def edgeCrosses (px py : α) (pi pj : Point α) : Bool :=
  (decide (pi.y > py) != decide (pj.y > py)) &&
    decide (px < ((pj.x - pi.x) * (py - pi.y)) / (pj.y - pi.y) + pi.x)

/-- The loop `for (i = 0, j = polygon.length - 1; i < polygon.length; j = i++)`
of `pointInPolygon`: the first argument is `polygon[j]`, the list holds
`polygon[i..]`, the Boolean is `inside`. -/
def pipLoop (px py : α) : Point α → List (Point α) → Bool → Bool
  | _, [], inside => inside
  | pj, pi :: rest, inside =>
      pipLoop px py pi rest (if edgeCrosses px py pi pj then !inside else inside)

/-- Source: `pointInPolygon(px, py, polygon)`. On the empty polygon the loop body never
runs; otherwise `j` starts at the last vertex. -/
def pointInPolygon (px py : α) (polygon : List (Point α)) : Bool :=
  match polygon.getLast? with
  | none => false
  | some last => pipLoop px py last polygon false

/-- The parity of the edge tests along the chain `pj, l[0], l[1], ...` (used to
reason about `pipLoop`). -/
def chainParity (px py : α) : Point α → List (Point α) → Bool
  | _, [] => false
  | pj, pi :: rest => xor (edgeCrosses px py pi pj) (chainParity px py pi rest)

end Lasso

/-! ## Distance helpers (eraser hit-testing) -/

/-- The `type` field of a stroke: `"pencil"`, `"highlighter"`, `"eraser"`,
`"shape"` (an ink gesture of the shape tool before recognition) or
`"recognized-shape"`. -/
inductive StrokeType where
  | pencil
  | highlighter
  | eraser
  | shape
  | recognizedShape
deriving DecidableEq, Repr

/-- A stroke record.  The field `points` may be missing on a record (the source
tests `!stroke.points`), which is `none`. -/
structure Stroke (α : Type) where
  id : String := ""
  type : StrokeType := .pencil
  penType : String := "ballpoint"
  points : Option (List (Point α)) := some []
  color : String := ""
  brushSize : α
  pageId : Nat := 0
  recognizedShape : Option (Shape α) := none
  userId : String := "self"
  layer : String := "drawingLayer"
  timestamp : Int := 0

section Distance

variable {α : Type} [LinearOrderedField α]

/-- Source: `distToSegment(px, py, x1, y1, x2, y2)`. -/
def distToSegment (sqrt : α → α) (px py x1 y1 x2 y2 : α) : α :=
  let dx := x2 - x1
  let dy := y2 - y1
  let lenSq := dx * dx + dy * dy
  if lenSq = 0 then hypot sqrt (px - x1) (py - y1)
  else
    let t := ((px - x1) * dx + (py - y1) * dy) / lenSq
    let t := max 0 (min 1 t)
    hypot sqrt (px - (x1 + t * dx)) (py - (y1 + t * dy))

/-- The loop `for (let i = 1; i < stroke.points.length; i++)` of `distToStroke`:
the first argument is `points[i-1]`, the list holds `points[i..]`, the last
argument is `minDist` (`⊤` is `Infinity`). -/
def distLoop (sqrt : α → α) (px py : α) : Point α → List (Point α) → WithTop α → WithTop α
  | _, [], minDist => minDist
  | prev, q :: rest, minDist =>
      distLoop sqrt px py q rest
        (min minDist ((distToSegment sqrt px py prev.x prev.y q.x q.y : α) : WithTop α))

/-- Source: `distToStroke(px, py, stroke)`; the result `⊤` is `Infinity`. -/
def distToStroke (sqrt : α → α) (px py : α) (stroke : Stroke α) : WithTop α :=
  match stroke.points with
  | none => ⊤
  | some [] => ⊤
  | some [q] => ((hypot sqrt (px - q.x) (py - q.y) : α) : WithTop α)
  | some (q0 :: q1 :: rest) => distLoop sqrt px py q0 (q1 :: rest) ⊤

end Distance

/-! ## Input and tool state machine -/

/-- The `tool` prop: one of the tool names the toolbar and the keyboard
shortcuts of `Whiteboard.jsx` set. -/
inductive Tool where
  | pencil
  | highlighter
  | eraser
  | text
  | shape
  | lasso
  | pan
  | laser
deriving DecidableEq, Repr

/-- The `type` field of an element of the text layer. -/
inductive ElementType where
  | text
  | box
  | arrow
deriving DecidableEq, Repr

/-- An element of the text layer.  A numeric field that is absent on the record
is falsy like `0`, an absent string is falsy like `""`; `lastClick` is the
field `_lastClick` the pointer-down handler stores on a box. -/
structure Element (α : Type) where
  id : String := ""
  type : ElementType := .box
  x : α
  y : α
  width : α
  height : α
  text : String := ""
  fontSize : α
  lastClick : Option Int := none

/-- The selection bounds `{x, y, w, h}`. -/
structure Bounds (α : Type) where
  x : α
  y : α
  w : α
  h : α

/-- The value of `editingBox`: `{id, x, y, width, height, text}`. -/
structure EditingBox (α : Type) where
  id : String
  x : α
  y : α
  width : α
  height : α
  text : String

/-- The value of `templateGroupDrag.current`: `{prefix, startPos, origPositions}`,
the map `origPositions` as the list of its entries in insertion order. -/
structure GroupDrag (α : Type) where
  groupName : String
  startPos : Point α
  origPositions : List (String × Point α)

/-- The props of the `Canvas` component the input handlers read.  An optional
callback prop is `true` when it is supplied; `canvasRect` is the on-screen
origin `(rect.left, rect.top)` of the canvas element, `none` while
`canvasRef.current` is null. -/
structure CanvasProps (α : Type) where
  tool : Option Tool
  color : String
  brushSize : α
  penType : String
  drawingLayer : List (Stroke α)
  textLayer : List (Element α)
  socket : Bool
  disabled : Bool
  currentPage : Nat
  zoom : α
  panOffset : Option (Point α)
  onEraseStroke : Bool
  onMoveStrokes : Bool
  onDeleteStrokes : Bool
  onTextLayerUpdate : Bool
  onZoomChange : Bool
  onPanChange : Bool
  onLassoSelect : Bool
  canvasRect : Option (Point α)

/-- The refs and React state of the `Canvas` component the input handlers use. -/
structure CanvasState (α : Type) where
  isDrawing : Bool
  currentStroke : Option (Stroke α)
  lastThrottle : Int
  lassoPath : Option (List (Point α))
  selectedIds : List String
  selectionBounds : Option (Bounds α)
  isDraggingSelection : Bool
  dragStart : Point α
  eraserPos : Option (Point α)
  draggingElement : Option (Element α)
  dragElementStart : Point α
  dragOrigPos : Point α
  editingText : Option (Point α)
  editingBox : Option (EditingBox α)
  templateGroupDrag : Option (GroupDrag α)

/-- A mouse or touch event after `getClientPos`, with the values the handler
reads from its environment: `now` is `Date.now()`, `newId` the id string
`Date.now()+"-"+Math.random()...` a new stroke would get. -/
structure PointerEvent (α : Type) where
  clientX : α
  clientY : α
  shiftKey : Bool
  now : Int
  newId : String

/-- A wheel event. -/
structure WheelEvent (α : Type) where
  clientX : α
  clientY : α
  deltaX : α
  deltaY : α
  ctrlKey : Bool

/-- What a handler does to the outside: the callback props it invokes, the
socket events it emits, and `hitEl._lastClick = now` on an element of the text
layer. -/
inductive Effect (α : Type) where
  | preventDefault
  | scheduleRedraw
  | strokeEnd (stroke : Stroke α)
  | eraseStroke (id : String)
  | deleteStrokes (ids : List String)
  | moveStrokes (ids : List String) (dx dy : α)
  | textLayerUpdate (id : String) (x y : α)
  | zoomChange (zoom : α)
  | panChange (pan : Point α)
  | lassoSelect (ids : List String)
  | emitDrawingStart (stroke : Stroke α)
  | emitDrawingMove (id : String) (point : Point α)
  | emitLaserMove (point : Point α)
  | emitLaserStop
  | setLastClick (id : String) (now : Int)

/-- The strokes handed to the commit callback `onStrokeEnd`, in call order. -/
def committed {α : Type} (effects : List (Effect α)) : List (Stroke α) :=
  effects.filterMap fun e => match e with
    | .strokeEnd s => some s
    | _ => none

/-- The ids handed to the erase callback `onEraseStroke`, in call order. -/
def erasedIds {α : Type} (effects : List (Effect α)) : List String :=
  effects.filterMap fun e => match e with
    | .eraseStroke id => some id
    | _ => none

/-- The template id prefixes of `getTemplatePrefix`. -/
def templatePrefixes : List String := ["kanban", "fc", "mm", "swot", "retro"]

/-- Source: `getTemplatePrefix(id)`. -/
def getTemplatePrefix (id : String) : Option String :=
  templatePrefixes.find? fun p => (p ++ "-").isPrefixOf id

section StateMachine

variable {α : Type} [LinearOrderedField α]

/-- The JavaScript `x || d` on a number: `d` when `x` is falsy (zero). -/
def jsOr (x d : α) : α := if x = 0 then d else x

/-- Source: `panOffset?.x || 0`. -/
def panX (props : CanvasProps α) : α :=
  match props.panOffset with
  | none => 0
  | some p => jsOr p.x 0

/-- Source: `panOffset?.y || 0`. -/
def panY (props : CanvasProps α) : α :=
  match props.panOffset with
  | none => 0
  | some p => jsOr p.y 0

/-- Source: `screenToCanvas(clientX, clientY)`. -/
def screenToCanvas (props : CanvasProps α) (clientX clientY : α) : Point α :=
  match props.canvasRect with
  | none => ⟨0, 0⟩
  | some rect =>
    let z := jsOr props.zoom 1
    let ox := panX props
    let oy := panY props
    ⟨((clientX - rect.x) - ox) / z, ((clientY - rect.y) - oy) / z⟩

/-- The transform `redraw` installs with `ctx.translate(ox, oy); ctx.scale(z, z)`
(in CSS pixels within the canvas), written out in the source as
`lp.points[i].x*z+ox` and `editingText.x*z+ox`. -/
def canvasToScreen (props : CanvasProps α) (p : Point α) : Point α :=
  ⟨p.x * jsOr props.zoom 1 + panX props, p.y * jsOr props.zoom 1 + panY props⟩

/-- The `.length` of a JavaScript string: the number of UTF-16 code units, two
for a character above U+FFFF. -/
def utf16Length (s : String) : Nat :=
  s.toList.foldl (fun n c => n + (if c.toNat < 65536 then 1 else 2)) 0

/-- The test of the loop of `hitTestTextLayer` for one element. -/
def hitsElement (pos : Point α) (el : Element α) : Bool :=
  match el.type with
  | .box =>
    let w := jsOr el.width 150
    let h := jsOr el.height 60
    decide (pos.x ≥ el.x ∧ pos.x ≤ el.x + w ∧ pos.y ≥ el.y ∧ pos.y ≤ el.y + h)
  | .text =>
    let tw := (utf16Length el.text : α) * jsOr el.fontSize 18 * 0.55
    let th := jsOr el.fontSize 18 * 1.5
    decide (pos.x ≥ el.x ∧ pos.x ≤ el.x + tw ∧ pos.y ≥ el.y ∧ pos.y ≤ el.y + th)
  | .arrow => false

/-- Source: `hitTestTextLayer(pos)`: the loop runs from the last element to the
first and returns the first element it hits. -/
def hitTestTextLayer (textLayer : List (Element α)) (pos : Point α) : Option (Element α) :=
  textLayer.reverse.find? (hitsElement pos)

/-- Source: `strokeInsideLasso(stroke, lassoPoly)`. -/
def strokeInsideLasso (stroke : Stroke α) (lassoPoly : List (Point α)) : Bool :=
  match stroke.points with
  | none => false
  | some [] => false
  | some pts => pts.any fun p => pointInPolygon p.x p.y lassoPoly

/-- The strokes the eraser removes at `pos`:
`drawingLayer.filter(s => s.type !== "eraser" && distToStroke(pos.x, pos.y, s) < r)`
with `r = (brushSize || 3) * 3`. -/
def eraserHits (sqrt : α → α) (props : CanvasProps α) (pos : Point α) : List (Stroke α) :=
  props.drawingLayer.filter fun s =>
    (s.type != StrokeType.eraser) &&
      decide (distToStroke sqrt pos.x pos.y s < ((jsOr props.brushSize 3 * 3 : α) : WithTop α))

/-- The calls `.forEach(s => { if (onEraseStroke) onEraseStroke(s.id); })`. -/
def eraseEffects (sqrt : α → α) (props : CanvasProps α) (pos : Point α) : List (Effect α) :=
  if props.onEraseStroke then (eraserHits sqrt props pos).map fun s => Effect.eraseStroke s.id
  else []

end StateMachine

section Handlers

variable {α : Type} [LinearOrderedField α]

/-- The test of the lasso branch of `handlePointerDown`: there is a selection and
`pos` lies in its bounds padded by 4. -/
def inSelectionBounds (st : CanvasState α) (pos : Point α) : Bool :=
  match st.selectionBounds with
  | none => false
  | some b =>
    decide (st.selectedIds.length > 0) && decide (pos.x ≥ b.x - 4) &&
      decide (pos.x ≤ b.x + b.w + 4) && decide (pos.y ≥ b.y - 4) &&
      decide (pos.y ≤ b.y + b.h + 4)

/-- The entries of `origPositions` after `groupEls.forEach(el => origPositions.set(...))`:
setting an id that is already a key replaces its value in place. -/
def mapSet {β : Type} (m : List (String × β)) (k : String) (v : β) : List (String × β) :=
  if m.any (fun e => e.1 == k) then m.map (fun e => if e.1 == k then (k, v) else e)
  else m ++ [(k, v)]

/-- The stroke `handlePointerDown` starts on the ink path. -/
def newStroke (props : CanvasProps α) (tool : Tool) (pos : Point α) (e : PointerEvent α) :
    Stroke α :=
  { id := e.newId,
    type := if tool = .shape then .shape else if tool = .highlighter then .highlighter
      else .pencil,
    penType := if props.penType = "" then "ballpoint" else props.penType,
    points := some [pos],
    color := props.color,
    brushSize := props.brushSize,
    userId := "self",
    layer := "drawingLayer",
    timestamp := e.now,
    pageId := props.currentPage }

/-- Source: `handlePointerDown(e)`. -/
def handlePointerDown (sqrt : α → α) (props : CanvasProps α) (st : CanvasState α)
    (e : PointerEvent α) : CanvasState α × List (Effect α) :=
  if props.disabled then (st, [])
  else match props.tool with
  | none => (st, [])
  | some tool =>
    let pos := screenToCanvas props e.clientX e.clientY
    if tool = .pan then
      ({ st with isDrawing := true,
                 dragStart := ⟨e.clientX - panX props, e.clientY - panY props⟩ },
        [.preventDefault])
    else if tool = .laser then
      ({ st with isDrawing := true },
        [.preventDefault] ++ (if props.socket then [.emitLaserMove pos] else []))
    else if tool = .text then
      ({ st with editingText := some pos }, [.preventDefault])
    else if tool = .lasso then
      if inSelectionBounds st pos then
        ({ st with isDraggingSelection := true, dragStart := pos, isDrawing := true },
          [.preventDefault])
      else
        ({ st with selectedIds := [], selectionBounds := none, lassoPath := some [pos],
                   isDrawing := true },
          [.preventDefault])
    else
      match (hitTestTextLayer props.textLayer pos).filter (fun el => el.type = .box) with
      | some hitEl =>
        if (match hitEl.lastClick with
            | none => false
            | some t => decide (t ≠ 0) && decide (e.now - t < 400)) then
          let box : EditingBox α :=
            { id := hitEl.id, x := hitEl.x, y := hitEl.y, width := jsOr hitEl.width 150,
              height := jsOr hitEl.height 60, text := hitEl.text }
          ({ st with editingBox := some box }, [.preventDefault])
        else
          match (getTemplatePrefix hitEl.id).filter (fun _ => e.shiftKey) with
          | some p =>
            let groupEls := props.textLayer.filter fun el =>
              el.id != "" && (p ++ "-").isPrefixOf el.id && (el.type == ElementType.box)
            let gd : GroupDrag α :=
              { groupName := p, startPos := pos,
                origPositions := groupEls.foldl (fun m el => mapSet m el.id ⟨el.x, el.y⟩) [] }
            ({ st with templateGroupDrag := some gd, isDrawing := true },
              [.preventDefault, .setLastClick hitEl.id e.now])
          | none =>
            ({ st with draggingElement := some hitEl, dragElementStart := pos,
                       dragOrigPos := ⟨hitEl.x, hitEl.y⟩, isDrawing := true },
              [.preventDefault, .setLastClick hitEl.id e.now])
      | none =>
        if tool = .eraser then
          ({ st with isDrawing := true, eraserPos := some pos },
            [.preventDefault] ++ eraseEffects sqrt props pos ++ [.scheduleRedraw])
        else
          ({ st with isDrawing := true, currentStroke := some (newStroke props tool pos e) },
            [.preventDefault] ++
              (if props.socket then [.emitDrawingStart (newStroke props tool pos e)] else []))

/-- The update `setSelectionBounds(b => b ? {...b, x: b.x+dx, y: b.y+dy} : b)`. -/
def shiftBounds (b : Option (Bounds α)) (dx dy : α) : Option (Bounds α) :=
  b.map fun b => { b with x := b.x + dx, y := b.y + dy }

/-- Source: `handlePointerMove(e)`. -/
def handlePointerMove (sqrt : α → α) (props : CanvasProps α) (st : CanvasState α)
    (e : PointerEvent α) : CanvasState α × List (Effect α) :=
  if props.disabled then (st, [])
  else
    let st1 : CanvasState α :=
      if props.tool = some .eraser then
        { st with eraserPos := some (screenToCanvas props e.clientX e.clientY) }
      else st
    let eff1 : List (Effect α) :=
      if props.tool = some .eraser ∧ st.isDrawing = false then [.scheduleRedraw] else []
    if st.isDrawing = false then (st1, eff1)
    else if props.tool = some .pan then
      (st1, eff1 ++ [.preventDefault] ++
        (if props.onPanChange then
          [.panChange ⟨e.clientX - st.dragStart.x, e.clientY - st.dragStart.y⟩] else []))
    else
      let pos := screenToCanvas props e.clientX e.clientY
      if props.tool = some .laser then
        if e.now - st.lastThrottle > 30 then
          ({ st1 with lastThrottle := e.now },
            eff1 ++ [.preventDefault] ++ (if props.socket then [.emitLaserMove pos] else []))
        else (st1, eff1 ++ [.preventDefault])
      else match st.templateGroupDrag with
      | some gd =>
        (st1, eff1 ++ [.preventDefault] ++
          (if props.onTextLayerUpdate then
            gd.origPositions.map fun en =>
              Effect.textLayerUpdate en.1 (en.2.x + (pos.x - gd.startPos.x))
                (en.2.y + (pos.y - gd.startPos.y))
          else []) ++ [.scheduleRedraw])
      | none =>
        if props.tool = some .lasso then
          if st.isDraggingSelection then
            ({ st1 with dragStart := pos,
                        selectionBounds := shiftBounds st.selectionBounds
                          (pos.x - st.dragStart.x) (pos.y - st.dragStart.y) },
              eff1 ++ [.preventDefault] ++
                (if props.onMoveStrokes then
                  [.moveStrokes st.selectedIds (pos.x - st.dragStart.x) (pos.y - st.dragStart.y)]
                else []))
          else match st.lassoPath with
          | some path =>
            ({ st1 with lassoPath := some (path ++ [pos]) },
              eff1 ++ [.preventDefault, .scheduleRedraw])
          | none => (st1, eff1 ++ [.preventDefault])
        else match st.draggingElement with
        | some el =>
          (st1, eff1 ++ [.preventDefault] ++
            (if props.onTextLayerUpdate then
              [.textLayerUpdate el.id (st.dragOrigPos.x + (pos.x - st.dragElementStart.x))
                (st.dragOrigPos.y + (pos.y - st.dragElementStart.y))]
            else []) ++ [.scheduleRedraw])
        | none =>
          if props.tool = some .eraser then
            ({ st1 with eraserPos := some pos },
              eff1 ++ [.preventDefault] ++ eraseEffects sqrt props pos ++ [.scheduleRedraw])
          else match st.currentStroke with
          | none => (st1, eff1 ++ [.preventDefault])
          | some s =>
            match s.points with
            | none => (st1, eff1 ++ [.preventDefault])
            | some pts =>
              if e.now - st.lastThrottle > 24 then
                ({ st1 with currentStroke := some { s with points := some (pts ++ [pos]) },
                            lastThrottle := e.now },
                  eff1 ++ [.preventDefault] ++
                    (if props.socket then [.emitDrawingMove s.id pos] else []) ++
                    [.scheduleRedraw])
              else
                ({ st1 with currentStroke := some { s with points := some (pts ++ [pos]) } },
                  eff1 ++ [.preventDefault, .scheduleRedraw])

/-- The ids `drawingLayer.filter(s => strokeInsideLasso(s, polygon)).map(s => s.id)`. -/
def lassoInside (drawingLayer : List (Stroke α)) (polygon : List (Point α)) : List String :=
  (drawingLayer.filter fun s => strokeInsideLasso s polygon).map fun s => s.id

/-- The points the bounds loop `sel.forEach(s => s.points?.forEach(p => ...))`
visits, in order, with `sel = drawingLayer.filter(s => inside.includes(s.id))`. -/
def selectionPoints (drawingLayer : List (Stroke α)) (inside : List String) :
    List (Point α) :=
  (drawingLayer.filter fun s => inside.contains s.id).flatMap fun s => s.points.getD []

/-- The bounds `{x: mnX, y: mnY, w: mxX-mnX, h: mxY-mnY}` of the lasso branch.
The source starts the minima at `Infinity` and the maxima at `-Infinity`; the
branch runs only when `inside` is not empty, when at least one point is visited
(`selectionPoints_ne_nil`), so the folds are started at the first visited point
(see `minX`). -/
def selectionBoundsOf (drawingLayer : List (Stroke α)) (inside : List String) : Bounds α :=
  let pts := selectionPoints drawingLayer inside
  { x := minX pts, y := minY pts, w := maxX pts - minX pts, h := maxY pts - minY pts }

/-- The part of `handlePointerUp` between `const finished = {...}` and
`onStrokeEnd(finished)`: a stroke of type `"shape"` that `recognizeShape`
classifies gets the classification and the type `"recognized-shape"`. -/
def finalizeStroke (sqrt : α → α) (pi : α) (finished : Stroke α) (pts : List (Point α)) :
    Stroke α :=
  if finished.type = .shape then
    match recognizeShape sqrt pi pts with
    | some shape => { finished with recognizedShape := some shape, type := .recognizedShape }
    | none => finished
  else finished

/-- Source: `handlePointerUp(e)`. -/
def handlePointerUp (sqrt : α → α) (pi : α) (props : CanvasProps α) (st : CanvasState α)
    (_e : PointerEvent α) : CanvasState α × List (Effect α) :=
  if props.disabled then (st, [])
  else match st.draggingElement with
  | some _ => ({ st with draggingElement := none, isDrawing := false }, [.preventDefault])
  | none =>
    match st.templateGroupDrag with
    | some _ => ({ st with templateGroupDrag := none, isDrawing := false }, [.preventDefault])
    | none =>
      if st.isDrawing = false then (st, [.preventDefault])
      else if props.tool = some .pan then ({ st with isDrawing := false }, [.preventDefault])
      else if props.tool = some .eraser then
        ({ st with isDrawing := false, eraserPos := none }, [.preventDefault, .scheduleRedraw])
      else if props.tool = some .laser then
        ({ st with isDrawing := false },
          [.preventDefault] ++ (if props.socket then [.emitLaserStop] else []))
      else if props.tool = some .lasso then
        if st.isDraggingSelection then
          ({ st with isDrawing := false, isDraggingSelection := false }, [.preventDefault])
        else match st.lassoPath with
        | none => ({ st with isDrawing := false, lassoPath := none },
            [.preventDefault, .scheduleRedraw])
        | some polygon =>
          if polygon.length > 3 then
            let inside := lassoInside props.drawingLayer polygon
            if inside.length > 0 then
              ({ st with isDrawing := false, lassoPath := none, selectedIds := inside,
                         selectionBounds := some (selectionBoundsOf props.drawingLayer inside) },
                [.preventDefault] ++
                  (if props.onLassoSelect then [.lassoSelect inside] else []) ++
                  [.scheduleRedraw])
            else
              ({ st with isDrawing := false, lassoPath := none, selectedIds := inside },
                [.preventDefault, .scheduleRedraw])
          else
            ({ st with isDrawing := false, lassoPath := none },
              [.preventDefault, .scheduleRedraw])
      else match st.currentStroke with
      | none => ({ st with isDrawing := false }, [.preventDefault])
      | some finished =>
        match finished.points with
        | none => ({ st with isDrawing := false, currentStroke := none }, [.preventDefault])
        | some pts =>
          if pts.length > 1 then
            ({ st with isDrawing := false, currentStroke := none },
              [.preventDefault, .strokeEnd (finalizeStroke sqrt pi finished pts),
                .scheduleRedraw])
          else
            ({ st with isDrawing := false, currentStroke := none },
              [.preventDefault, .scheduleRedraw])

/-- Source: `handleWheel(e)`; with no canvas element the handler is not installed. -/
def handleWheel (props : CanvasProps α) (e : WheelEvent α) : List (Effect α) :=
  match props.canvasRect with
  | none => []
  | some rect =>
    let mx := e.clientX - rect.x
    let my := e.clientY - rect.y
    if e.ctrlKey ∨ |e.deltaY| < 50 then
      let z := jsOr props.zoom 1
      let nz := min 5 (max 0.1 (z - e.deltaY * 0.005))
      let ox := panX props
      let oy := panY props
      let f := nz / z
      [.preventDefault] ++ (if props.onZoomChange then [.zoomChange nz] else []) ++
        (if props.onPanChange then [.panChange ⟨mx - (mx - ox) * f, my - (my - oy) * f⟩]
         else [])
    else
      [.preventDefault] ++
        (if props.onPanChange then [.panChange ⟨panX props - e.deltaX, panY props - e.deltaY⟩]
         else [])

end Handlers

/-! ## Zoom state of the whiteboard page -/

/-- The `zoom` and `panOffset` state of `Whiteboard.jsx`. -/
structure ViewState (α : Type) where
  zoom : α
  panOffset : Point α

section View

variable {α : Type} [LinearOrderedField α]

/-- Source: `handleZoomIn`: `setZoom((z) => Math.min(5, z + 0.2))`. -/
def handleZoomIn (v : ViewState α) : ViewState α := { v with zoom := min 5 (v.zoom + 0.2) }

/-- Source: `handleZoomOut`: `setZoom((z) => Math.max(0.1, z - 0.2))`. -/
def handleZoomOut (v : ViewState α) : ViewState α := { v with zoom := max 0.1 (v.zoom - 0.2) }

/-- Source: `handleZoomReset`: `setZoom(1); setPanOffset({ x: 0, y: 0 })`. -/
def handleZoomReset (_v : ViewState α) : ViewState α := { zoom := 1, panOffset := ⟨0, 0⟩ }

/-- The props `onZoomChange={setZoom}` and `onPanChange={setPanOffset}` applied
to one effect of the canvas. -/
def applyViewEffect (v : ViewState α) : Effect α → ViewState α
  | .zoomChange z => { v with zoom := z }
  | .panChange p => { v with panOffset := p }
  | _ => v

/-- A wheel event on the canvas rendered with the page's current `zoom` and
`panOffset` (`zoom={zoom} panOffset={panOffset} onZoomChange={setZoom}
onPanChange={setPanOffset}`). -/
def wheelView (props : CanvasProps α) (v : ViewState α) (e : WheelEvent α) : ViewState α :=
  (handleWheel { props with zoom := v.zoom, panOffset := some v.panOffset,
                            onZoomChange := true, onPanChange := true } e).foldl
    applyViewEffect v

/-- The operations that change the zoom. -/
inductive ViewOp (α : Type) where
  | zoomIn
  | zoomOut
  | zoomReset
  | wheel (props : CanvasProps α) (e : WheelEvent α)

/-- One zoom operation applied to the view state. -/
def applyViewOp (v : ViewState α) : ViewOp α → ViewState α
  | .zoomIn => handleZoomIn v
  | .zoomOut => handleZoomOut v
  | .zoomReset => handleZoomReset v
  | .wheel props e => wheelView props v e

end View

/-- The point `p` belongs to a stroke of the layer that has at least one point
inside the lasso polygon (a point of the selected strokes). -/
def IsSelectedPoint {α : Type} [LinearOrderedField α] (drawingLayer : List (Stroke α))
    (polygon : List (Point α)) (p : Point α) : Prop :=
  ∃ s ∈ drawingLayer, strokeInsideLasso s polygon = true ∧
    ∃ pts, s.points = some pts ∧ p ∈ pts

section Gesture

variable {α : Type} [LinearOrderedField α]

/-- The tool is one of the ink tools `pencil`, `highlighter`, `shape`. -/
def Tool.isInk : Tool → Bool
  | .pencil => true
  | .highlighter => true
  | .shape => true
  | _ => false

/-- A sequence of pointer-move events handled one after the other under the same
props: the final state and all effects in order. -/
def runMoves (sqrt : α → α) (props : CanvasProps α) :
    CanvasState α → List (PointerEvent α) → CanvasState α × List (Effect α)
  | st, [] => (st, [])
  | st, e :: rest =>
    ((runMoves sqrt props (handlePointerMove sqrt props st e).1 rest).1,
      (handlePointerMove sqrt props st e).2
        ++ (runMoves sqrt props (handlePointerMove sqrt props st e).1 rest).2)

/-- A gesture: a pointer-down, pointer-moves and a pointer-up handled one after
the other under the same props: the final state and all effects in order. -/
def runGesture (sqrt : α → α) (pi : α) (props : CanvasProps α) (st : CanvasState α)
    (down : PointerEvent α) (moves : List (PointerEvent α)) (up : PointerEvent α) :
    CanvasState α × List (Effect α) :=
  let r1 := handlePointerDown sqrt props st down
  let r2 := runMoves sqrt props r1.1 moves
  let r3 := handlePointerUp sqrt pi props r2.1 up
  (r3.1, r1.2 ++ r2.2 ++ r3.2)

/-- The logical positions of a list of pointer events. -/
def eventPositions (props : CanvasProps α) (events : List (PointerEvent α)) : List (Point α) :=
  events.map fun e => screenToCanvas props e.clientX e.clientY

/-- The in-progress stroke at the end of an ink gesture. -/
def inkStroke (props : CanvasProps α) (tool : Tool)
    (down : PointerEvent α) (moves : List (PointerEvent α)) : Stroke α :=
  { newStroke props tool (screenToCanvas props down.clientX down.clientY) down with
    points := some (eventPositions props (down :: moves)) }

end Gesture

section CircleScenario

variable {α : Type} [LinearOrderedField α]

/-- The sample at `10*k` degrees (`k*pi/18` radians) of the circle of radius 50
centred at (100,100); `cos` and `sin` stand for `Math.cos` and `Math.sin`. -/
def circlePoint (cos sin : α → α) (pi : α) (k : ℕ) : Point α :=
  ⟨100 + 50 * cos ((k : α) * pi / 18), 100 + 50 * sin ((k : α) * pi / 18)⟩

/-- The 36 samples `p_0, ..., p_35` of the circle scenario. -/
def circlePoints (cos sin : α → α) (pi : α) : List (Point α) :=
  (List.range 36).map (circlePoint cos sin pi)

end CircleScenario

/-! ## Keyboard shortcuts of the canvas -/

/-- A keydown event, with the ids `Date.now()+"-"+Math.random()...` the handler
would generate: `freshId k` is the id generated for the `k`-th clone. -/
structure KeyEvent where
  key : String
  ctrlKey : Bool
  metaKey : Bool
  freshId : Nat → String

section Keyboard

variable {α : Type} [LinearOrderedField α]

/-- The clone `{...s, id: <fresh id>, points: s.points.map(p => ({x: p.x+20, y: p.y+20}))}`
of a stroke with the point list `pts`. -/
def cloneStroke (s : Stroke α) (id : String) (pts : List (Point α)) : Stroke α :=
  { s with id := id, points := some (pts.map fun p => ⟨p.x + 20, p.y + 20⟩) }

/-- The `.map(s => ({...}))` of the duplicate shortcut over the selected strokes,
the `k`-th clone getting the id `freshId k`; `none` when a stroke has no
`points` field (`s.points.map` throws a TypeError and the handler stops). -/
def cloneAll (freshId : Nat → String) : Nat → List (Stroke α) → Option (List (Stroke α))
  | _, [] => some []
  | k, s :: rest =>
    match s.points with
    | none => none
    | some pts =>
      match cloneAll freshId (k + 1) rest with
      | none => none
      | some clones => some (cloneStroke s (freshId k) pts :: clones)

/-- Source: `handleKey(e)`, the keydown handler of the canvas. -/
def handleKey (props : CanvasProps α) (st : CanvasState α) (e : KeyEvent) :
    CanvasState α × List (Effect α) :=
  if st.selectedIds.length = 0 then (st, [])
  else
    let st1 : CanvasState α :=
      if e.key = "Delete" ∨ e.key = "Backspace" then
        { st with selectedIds := [], selectionBounds := none }
      else st
    let eff1 : List (Effect α) :=
      if (e.key = "Delete" ∨ e.key = "Backspace") ∧ props.onDeleteStrokes = true then
        [.deleteStrokes st.selectedIds]
      else []
    if e.key = "d" ∧ (e.ctrlKey = true ∨ e.metaKey = true) then
      match cloneAll e.freshId 0
          (props.drawingLayer.filter fun s => st.selectedIds.contains s.id) with
      | none => (st1, eff1 ++ [.preventDefault])
      | some dupes =>
        ({ st1 with selectedIds := dupes.map fun d => d.id },
          eff1 ++ [.preventDefault] ++ dupes.map fun d => Effect.strokeEnd d)
    else (st1, eff1)

/-- A change of the `tool` prop.  The component re-renders with the new prop; no
effect of the component has `tool` in its dependency list and no state setter
runs, so the refs and the React state are kept as they are. -/
def switchTool (props : CanvasProps α) (st : CanvasState α) (tool : Option Tool) :
    CanvasProps α × CanvasState α :=
  ({ props with tool := tool }, st)

end Keyboard

/-! ## Drawing layer of the whiteboard page -/

/-- The `drawingLayer` and `undoStack` state of `Whiteboard.jsx`. -/
structure BoardState (α : Type) where
  drawingLayer : List (Stroke α)
  undoStack : List (Stroke α)

section Board

variable {α : Type} [LinearOrderedField α]

/-- Source: `handleStrokeEnd(stroke)`: `setDrawingLayer((prev) => [...prev, stroke]);
setUndoStack([])`. -/
def handleStrokeEnd (b : BoardState α) (stroke : Stroke α) : BoardState α :=
  { drawingLayer := b.drawingLayer ++ [stroke], undoStack := [] }

/-- Source: `handleUndo()`. -/
def handleUndo (b : BoardState α) : BoardState α :=
  match b.drawingLayer.getLast? with
  | none => b
  | some last => { drawingLayer := b.drawingLayer.dropLast, undoStack := b.undoStack ++ [last] }

/-- Source: `handleRedo()`. -/
def handleRedo (b : BoardState α) : BoardState α :=
  match b.undoStack.getLast? with
  | none => b
  | some last => { drawingLayer := b.drawingLayer ++ [last], undoStack := b.undoStack.dropLast }

/-- Source: `handleDeleteStrokes(ids)`: `prev.filter((s) => !ids.includes(s.id))`. -/
def handleDeleteStrokes (b : BoardState α) (ids : List String) : BoardState α :=
  { b with drawingLayer := b.drawingLayer.filter fun s => !ids.contains s.id }

/-- The stroke `{ ...s, points: s.points.map((p) => ({ x: p.x + dx, y: p.y + dy })) }`;
`none` when the stroke has no `points` field (`s.points.map` throws a
TypeError).  The argument `add` is the addition of the host's numbers. -/
def translateStroke (add : α → α → α) (dx dy : α) (s : Stroke α) : Option (Stroke α) :=
  match s.points with
  | none => none
  | some pts => some { s with points := some (pts.map fun p => ⟨add p.x dx, add p.y dy⟩) }

/-- The `prev.map((s) => ids.includes(s.id) ? {...} : s)` of `handleMoveStrokes`;
`none` when the translation of a stroke throws. -/
def moveAll (add : α → α → α) (ids : List String) (dx dy : α) :
    List (Stroke α) → Option (List (Stroke α))
  | [] => some []
  | s :: rest =>
    match (if ids.contains s.id then translateStroke add dx dy s else some s) with
    | none => none
    | some s' =>
      match moveAll add ids dx dy rest with
      | none => none
      | some moved => some (s' :: moved)

/-- Source: `handleMoveStrokes(ids, dx, dy)`; `none` when the state updater
throws. -/
def handleMoveStrokes (add : α → α → α) (b : BoardState α) (ids : List String) (dx dy : α) :
    Option (BoardState α) :=
  (moveAll add ids dx dy b.drawingLayer).map fun layer => { b with drawingLayer := layer }

/-- Source: `handleEraseStroke(strokeId)`: `prev.filter((s) => s.id !== strokeId)`. -/
def handleEraseStroke (b : BoardState α) (strokeId : String) : BoardState α :=
  { b with drawingLayer := b.drawingLayer.filter fun s => s.id != strokeId }

/-- The props `onStrokeEnd={handleStrokeEnd}`, `onEraseStroke={handleEraseStroke}`,
`onDeleteStrokes={handleDeleteStrokes}`, `onMoveStrokes={handleMoveStrokes}`
applied to one effect of the canvas; `none` when the handler throws. -/
def applyBoardEffect (add : α → α → α) (b : BoardState α) : Effect α → Option (BoardState α)
  | .strokeEnd s => some (handleStrokeEnd b s)
  | .eraseStroke id => some (handleEraseStroke b id)
  | .deleteStrokes ids => some (handleDeleteStrokes b ids)
  | .moveStrokes ids dx dy => handleMoveStrokes add b ids dx dy
  | _ => some b

/-- The effects of the canvas applied to the board one after the other; `none`
as soon as a handler throws. -/
def applyBoardEffects (add : α → α → α) : BoardState α → List (Effect α) → Option (BoardState α)
  | b, [] => some b
  | b, e :: rest =>
    match applyBoardEffect add b e with
    | none => none
    | some b' => applyBoardEffects add b' rest

/-- The operations on the drawing layer. -/
inductive BoardOp (α : Type) where
  | commit (stroke : Stroke α)
  | erase (strokeId : String)
  | delete (ids : List String)
  | translate (ids : List String) (dx dy : α)
  | undo
  | redo

/-- One drawing-layer operation applied to the board state; `none` when the
handler throws. -/
def applyBoardOp (add : α → α → α) (b : BoardState α) : BoardOp α → Option (BoardState α)
  | .commit s => some (handleStrokeEnd b s)
  | .erase id => some (handleEraseStroke b id)
  | .delete ids => some (handleDeleteStrokes b ids)
  | .translate ids dx dy => handleMoveStrokes add b ids dx dy
  | .undo => some (handleUndo b)
  | .redo => some (handleRedo b)

/-- The stroke with every point shifted by `(dx, dy)`. -/
def shiftStroke (dx dy : α) (s : Stroke α) : Stroke α :=
  { s with points := s.points.map fun pts => pts.map fun p => ⟨p.x + dx, p.y + dy⟩ }

end Board

/-! ## Stroke renderer -/

/-- A pen profile `{ pressureMin, pressureMax, widthMult, alpha }`. -/
structure PenProfile (α : Type) where
  pressureMin : α
  pressureMax : α
  widthMult : α
  alpha : α

/-- A path command issued between `ctx.beginPath()` and `ctx.stroke()`. -/
inductive PathCmd (α : Type) where
  | moveTo (p : Point α)
  | lineTo (p : Point α)
  | quadraticCurveTo (control target : Point α)

/-- One `ctx.stroke()` call with the context settings in force. -/
structure StrokeCall (α : Type) where
  globalAlpha : α
  strokeStyle : String
  lineWidth : α
  path : List (PathCmd α)

section Renderer

variable {α : Type} [LinearOrderedField α]

/-- Source: `PEN_PROFILES.fine`. -/
def penFine : PenProfile α := ⟨0.85, 1.0, 0.6, 1.0⟩

/-- Source: `PEN_PROFILES.ballpoint`. -/
def penBallpoint : PenProfile α := ⟨0.6, 1.1, 1.0, 1.0⟩

/-- Source: `PEN_PROFILES.fountain`. -/
def penFountain : PenProfile α := ⟨0.3, 1.4, 1.3, 1.0⟩

/-- Source: `PEN_PROFILES.calligraphy`. -/
def penCalligraphy : PenProfile α := ⟨0.2, 2.0, 1.6, 1.0⟩

/-- Source: `PEN_PROFILES.marker`. -/
def penMarker : PenProfile α := ⟨0.9, 1.1, 2.5, 0.75⟩

/-- Source: `PEN_PROFILES[stroke.penType] || PEN_PROFILES.ballpoint`. -/
def penProfileOf (penType : String) : PenProfile α :=
  if penType = "fine" then penFine
  else if penType = "ballpoint" then penBallpoint
  else if penType = "fountain" then penFountain
  else if penType = "calligraphy" then penCalligraphy
  else if penType = "marker" then penMarker
  else penBallpoint

/-- Source: `pf = Math.max(pen.pressureMin, Math.min(pen.pressureMax, 1.0 - speed / 200))`. -/
def pressureFactor (pen : PenProfile α) (speed : α) : α :=
  max pen.pressureMin (min pen.pressureMax (1.0 - speed / 200))

/-- Source: `bw = stroke.type === "highlighter" ? stroke.brushSize * 3 :
stroke.brushSize * pen.widthMult`. -/
def baseWidth (stroke : Stroke α) (pen : PenProfile α) : α :=
  if stroke.type = .highlighter then stroke.brushSize * 3 else stroke.brushSize * pen.widthMult

/-- The value of `ctx.globalAlpha` that `drawSmoothStroke` sets. -/
def strokeAlpha (stroke : Stroke α) (pen : PenProfile α) : α :=
  if stroke.type = .highlighter then 0.3 else pen.alpha

/-- The midpoint `((a.x+b.x)/2, (a.y+b.y)/2)`. -/
def midPoint (a b : Point α) : Point α := ⟨(a.x + b.x) / 2, (a.y + b.y) / 2⟩

/-- The loop `for (let i = 1; i < pts.length; i++)` of the branch
`pts.length >= 3` of `drawSmoothStroke`: `pp` is `pts[i-2]` (absent when
`i = 1`), `prev` is `pts[i-1]`, the list holds `pts[i..]`. -/
def smoothLoop (sqrt : α → α) (stroke : Stroke α) (pen : PenProfile α) :
    Option (Point α) → Point α → List (Point α) → List (StrokeCall α)
  | _, _, [] => []
  | pp, prev, curr :: rest =>
    { globalAlpha := strokeAlpha stroke pen
      strokeStyle := stroke.color
      lineWidth := baseWidth stroke pen
        * pressureFactor pen (hypot sqrt (curr.x - prev.x) (curr.y - prev.y))
      path := match pp with
        | none => [.moveTo prev, .lineTo curr]
        | some pp => [.moveTo (midPoint pp prev), .quadraticCurveTo prev (midPoint prev curr)] }
      :: smoothLoop sqrt stroke pen (some prev) curr rest

/-- The path of the branch `pts.length < 3`: `moveTo(pts[0])` followed by one
`quadraticCurveTo(pts[i-1], mid(pts[i-1], pts[i]))` per segment. -/
def shortPath : Point α → List (Point α) → List (PathCmd α)
  | _, [] => []
  | prev, curr :: rest => .quadraticCurveTo prev (midPoint prev curr) :: shortPath curr rest

/-- Source: `drawSmoothStroke(ctx, stroke)`, as the list of its `ctx.stroke()` calls
(with a drawing context present). -/
def drawSmoothStroke (sqrt : α → α) (stroke : Stroke α) : List (StrokeCall α) :=
  match stroke.points with
  | none => []
  | some pts =>
    if pts.length < 2 then []
    else if stroke.type = .eraser then []
    else
      let pen : PenProfile α := penProfileOf stroke.penType
      match pts with
      | [] => []
      | p0 :: rest =>
        if pts.length ≥ 3 then smoothLoop sqrt stroke pen none p0 rest
        else
          [{ globalAlpha := strokeAlpha stroke pen
             strokeStyle := stroke.color
             lineWidth := if stroke.type = .highlighter then stroke.brushSize * 3
               else stroke.brushSize * pen.widthMult
             path := .moveTo p0 :: shortPath p0 rest }]

end Renderer

/-! ## Remote stroke buffer -/

/-- An event of a remote peer: `drawing:start` with its payload (the stroke
metadata, whose `userId` is the key and whose `points` may be absent), or
`drawing:move` with the user id and the point, which may be absent. -/
inductive RemoteEvent (α : Type) where
  | start (data : Stroke α)
  | move (userId : String) (point : Option (Point α))

section Remote

variable {α : Type} [LinearOrderedField α]

/-- Source: `handleRemoteStart(data)`:
`remoteStrokes.current.set(data.userId, { ...data, points: data.points || [] })`. -/
def handleRemoteStart (buffer : List (String × Stroke α)) (data : Stroke α) :
    List (String × Stroke α) :=
  mapSet buffer data.userId { data with points := some (data.points.getD []) }

/-- Source: `handleRemoteMove(data)`:
`if (existing && data.point) { existing.points.push(data.point); ... }`. -/
def handleRemoteMove (buffer : List (String × Stroke α)) (userId : String)
    (point : Option (Point α)) : List (String × Stroke α) :=
  match buffer.lookup userId, point with
  | some existing, some p =>
    mapSet buffer userId { existing with points := some (existing.points.getD [] ++ [p]) }
  | _, _ => buffer

/-- One remote event applied to the buffer. -/
def applyRemoteEvent (buffer : List (String × Stroke α)) : RemoteEvent α →
    List (String × Stroke α)
  | .start data => handleRemoteStart buffer data
  | .move userId point => handleRemoteMove buffer userId point

/-- The buffer after a sequence of remote events, starting from the empty map. -/
def runRemote (events : List (RemoteEvent α)) : List (String × Stroke α) :=
  events.foldl applyRemoteEvent []

/-- The event is a `drawing:start` of user `u`. -/
def RemoteEvent.isStartOf (u : String) : RemoteEvent α → Bool
  | .start data => data.userId == u
  | .move _ _ => false

/-- The points that the `drawing:move` events of user `u` in the list carry, in
receipt order. -/
def movePointsOf (u : String) (events : List (RemoteEvent α)) : List (Point α) :=
  events.filterMap fun e => match e with
    | .move userId (some p) => if userId = u then some p else none
    | _ => none

end Remote

/-! ## Translation of a recognized shape -/

section Translate

variable {α : Type} [LinearOrderedField α]

/-- The point shifted by `(dx, dy)`. -/
def shiftPoint (dx dy : α) (p : Point α) : Point α := ⟨p.x + dx, p.y + dy⟩

/-- The classification with its position parameters shifted by `(dx, dy)` and
`radius`, `width`, `height` unchanged. -/
def Shape.translate (dx dy : α) : Shape α → Shape α
  | .circle cx cy radius => .circle (cx + dx) (cy + dy) radius
  | .rect x y width height => .rect (x + dx) (y + dy) width height
  | .line x1 y1 x2 y2 => .line (x1 + dx) (y1 + dy) (x2 + dx) (y2 + dy)
  | .arrow x1 y1 x2 y2 => .arrow (x1 + dx) (y1 + dy) (x2 + dx) (y2 + dy)

end Translate

/-- The user id an event of a remote peer carries. -/
def RemoteEvent.user {α : Type} : RemoteEvent α → String
  | .start data => data.userId
  | .move userId _ => userId

/-- The five entries of `PEN_PROFILES`. -/
def penProfiles {α : Type} [LinearOrderedField α] : List (PenProfile α) :=
  [penFine, penBallpoint, penFountain, penCalligraphy, penMarker]

/-- The arguments of the calls of the move callback `onMoveStrokes(ids, dx, dy)`,
in call order. -/
def moveCalls {α : Type} (effects : List (Effect α)) : List (List String × α × α) :=
  effects.filterMap fun e => match e with
    | .moveStrokes ids dx dy => some (ids, dx, dy)
    | _ => none

/-- The differences `p_i - p_(i-1)` of a path that starts at `q` and goes on
through the points of the list. -/
def deltas {α : Type} [LinearOrderedField α] :
    Point α → List (Point α) → List (α × α)
  | _, [] => []
  | q, p :: rest => (p.x - q.x, p.y - q.y) :: deltas p rest

/-! ## Binary64 arithmetic

The numbers of the source are IEEE 754 binary64 values.  The definitions of this
part evaluate the arithmetic of the source as the host does: every operation
returns the binary64 value nearest to the exact result, ties to even.  A finite
binary64 value is represented by the rational number it denotes.  Subnormal
numbers are represented (least exponent -1074); the exponent is not bounded
above, so an overflow to `Infinity` is not represented and the results are those
of the host while they stay below `2^1024`.  The functions below never divide by
zero on the path that is evaluated. -/

/-- The nearest integer to `a / b`, ties to even (`b > 0`). -/
def roundNearestEven (a b : Nat) : Nat :=
  let q := a / b
  let r := a % b
  if 2 * r < b then q
  else if b < 2 * r then q + 1
  else if q % 2 = 0 then q else q + 1

/-- The halvings of `n` counted until the value is below 2, at most `fuel` of
them. -/
def natLog2Loop : Nat → Nat → Nat → Nat
  | 0, _, acc => acc
  | fuel + 1, n, acc => if n < 2 then acc else natLog2Loop fuel (n / 2) (acc + 1)

/-- The exponent `floor(log2 n)` of `n > 0`. -/
def natLog2 (n : Nat) : Nat := natLog2Loop n n 0

/-- The exponent `floor(log2(n/d))` of the positive rational `n/d`. -/
def floorLog2 (n d : Nat) : Int :=
  let l : Int := (natLog2 n : Int) - (natLog2 d : Int)
  if l ≥ 0 then (if d * 2 ^ l.toNat ≤ n then l else l - 1)
  else (if d ≤ n * 2 ^ (-l).toNat then l else l - 1)

/-- The value `m * 2^e`. -/
def scale2 (m : Nat) (e : Int) : ℚ :=
  if e ≥ 0 then ((m * 2 ^ e.toNat : Nat) : ℚ) else mkRat m (2 ^ (-e).toNat)

/-- The binary64 value nearest to `q`, ties to even: 53 significant bits, least
exponent `-1074`. -/
def round64 (q : ℚ) : ℚ :=
  let n := q.num.natAbs
  let d := q.den
  if n = 0 then 0
  else
    let e : Int := max (floorLog2 n d - 52) (-1074)
    let m : Nat :=
      if e ≥ 0 then roundNearestEven n (d * 2 ^ e.toNat)
      else roundNearestEven (n * 2 ^ (-e).toNat) d
    if q.num < 0 then -scale2 m e else scale2 m e

/-- The sum `a + b` of the host. -/
def add64 (a b : ℚ) : ℚ := round64 (a + b)

/-- The difference `a - b` of the host. -/
def sub64 (a b : ℚ) : ℚ := round64 (a - b)

/-- The product `a * b` of the host. -/
def mul64 (a b : ℚ) : ℚ := round64 (a * b)

/-- The quotient `a / b` of the host, for `b` other than zero. -/
def div64 (a b : ℚ) : ℚ := round64 (a / b)

/-- Newton's iteration for the integer square root of `n`, from a start `x` above
it, at most `fuel` steps. -/
def isqrtLoop : Nat → Nat → Nat → Nat
  | 0, _, x => x
  | fuel + 1, n, x => if (x + n / x) / 2 < x then isqrtLoop fuel n ((x + n / x) / 2) else x

/-- The integer square root `floor(sqrt n)`. -/
def isqrt (n : Nat) : Nat :=
  if n = 0 then 0 else isqrtLoop n n (2 ^ (natLog2 n / 2 + 1))

/-- The binary64 value nearest to the square root of `q`, ties to even
(zero for `q ≤ 0`). -/
def sqrt64 (q : ℚ) : ℚ :=
  if q.num ≤ 0 then 0
  else
    let n := q.num.natAbs
    let d := q.den
    let e : Int := max (Int.fdiv (floorLog2 n d) 2 - 52) (-1074)
    let a : Nat := if e ≥ 0 then n else n * 4 ^ (-e).toNat
    let b : Nat := if e ≥ 0 then d * 4 ^ e.toNat else d
    let s := isqrt (a / b)
    let m : Nat :=
      if 4 * a < (4 * s * s + 4 * s + 1) * b then s
      else if (4 * s * s + 4 * s + 1) * b < 4 * a then s + 1
      else if s % 2 = 0 then s else s + 1
    scale2 m e

/-- Source: `Math.hypot(a, b)` of the host, as the binary64 value nearest to the
square root of `a*a + b*b`.  The host's result is implementation-approximated;
it is this value whenever one of the arguments is zero. -/
def hypot64 (a b : ℚ) : ℚ := sqrt64 (a * a + b * b)

/-- The test of the loop body of `pointInPolygon` in binary64 arithmetic:
`(yi > py) !== (yj > py) && px < ((xj - xi) * (py - yi)) / (yj - yi) + xi`.
When the first operand of `&&` holds, `yj - yi` is not zero. -/
def edgeCrosses64 (px py : ℚ) (pi pj : Point ℚ) : Bool :=
  (decide (pi.y > py) != decide (pj.y > py)) &&
    decide (px < add64 (div64 (mul64 (sub64 pj.x pi.x) (sub64 py pi.y)) (sub64 pj.y pi.y)) pi.x)

/-- The loop of `pointInPolygon` in binary64 arithmetic (see `pipLoop`). -/
def pipLoop64 (px py : ℚ) : Point ℚ → List (Point ℚ) → Bool → Bool
  | _, [], inside => inside
  | pj, pi :: rest, inside =>
      pipLoop64 px py pi rest (if edgeCrosses64 px py pi pj then !inside else inside)

/-- Source: `pointInPolygon(px, py, polygon)` in binary64 arithmetic. -/
def pointInPolygon64 (px py : ℚ) (polygon : List (Point ℚ)) : Bool :=
  match polygon.getLast? with
  | none => false
  | some last => pipLoop64 px py last polygon false

/-- Source: `distToSegment(px, py, x1, y1, x2, y2)` in binary64 arithmetic. -/
def distToSegment64 (px py x1 y1 x2 y2 : ℚ) : ℚ :=
  let dx := sub64 x2 x1
  let dy := sub64 y2 y1
  let lenSq := add64 (mul64 dx dx) (mul64 dy dy)
  if lenSq = 0 then hypot64 (sub64 px x1) (sub64 py y1)
  else
    let t := div64 (add64 (mul64 (sub64 px x1) dx) (mul64 (sub64 py y1) dy)) lenSq
    let t := max 0 (min 1 t)
    hypot64 (sub64 px (add64 x1 (mul64 t dx))) (sub64 py (add64 y1 (mul64 t dy)))

/-- The loop of `distToStroke` in binary64 arithmetic (see `distLoop`). -/
def distLoop64 (px py : ℚ) : Point ℚ → List (Point ℚ) → WithTop ℚ → WithTop ℚ
  | _, [], minDist => minDist
  | prev, q :: rest, minDist =>
      distLoop64 px py q rest
        (min minDist ((distToSegment64 px py prev.x prev.y q.x q.y : ℚ) : WithTop ℚ))

/-- Source: `distToStroke(px, py, stroke)` in binary64 arithmetic; the result `⊤`
is `Infinity`. -/
def distToStroke64 (px py : ℚ) (stroke : Stroke ℚ) : WithTop ℚ :=
  match stroke.points with
  | none => ⊤
  | some [] => ⊤
  | some [q] => ((hypot64 (sub64 px q.x) (sub64 py q.y) : ℚ) : WithTop ℚ)
  | some (q0 :: q1 :: rest) => distLoop64 px py q0 (q1 :: rest) ⊤

/-- Source: `strokeInsideLasso(stroke, lassoPoly)` in binary64 arithmetic. -/
def strokeInsideLasso64 (stroke : Stroke ℚ) (lassoPoly : List (Point ℚ)) : Bool :=
  match stroke.points with
  | none => false
  | some [] => false
  | some pts => pts.any fun p => pointInPolygon64 p.x p.y lassoPoly

/-- The ids `drawingLayer.filter(s => strokeInsideLasso(s, polygon)).map(s => s.id)`
in binary64 arithmetic. -/
def lassoInside64 (drawingLayer : List (Stroke ℚ)) (polygon : List (Point ℚ)) : List String :=
  (drawingLayer.filter fun s => strokeInsideLasso64 s polygon).map fun s => s.id

/-- The bounds `{x: mnX, y: mnY, w: mxX-mnX, h: mxY-mnY}` of the lasso branch of
`handlePointerUp` in binary64 arithmetic: the minima and maxima are exact, the
two differences are rounded (see `selectionBoundsOf`). -/
def selectionBoundsOf64 (drawingLayer : List (Stroke ℚ)) (inside : List String) : Bounds ℚ :=
  let pts := selectionPoints drawingLayer inside
  { x := minX pts, y := minY pts, w := sub64 (maxX pts) (minX pts),
    h := sub64 (maxY pts) (minY pts) }

/-- Source: `screenToCanvas(clientX, clientY)` in binary64 arithmetic. -/
def screenToCanvas64 (props : CanvasProps ℚ) (clientX clientY : ℚ) : Point ℚ :=
  match props.canvasRect with
  | none => ⟨0, 0⟩
  | some rect =>
    let z := jsOr props.zoom 1
    let ox := panX props
    let oy := panY props
    ⟨div64 (sub64 (sub64 clientX rect.x) ox) z, div64 (sub64 (sub64 clientY rect.y) oy) z⟩

/-- The render transform `x*z+ox`, `y*z+oy` in binary64 arithmetic (see
`canvasToScreen`). -/
def canvasToScreen64 (props : CanvasProps ℚ) (p : Point ℚ) : Point ℚ :=
  ⟨add64 (mul64 p.x (jsOr props.zoom 1)) (panX props),
    add64 (mul64 p.y (jsOr props.zoom 1)) (panY props)⟩

/-- Source: `handleWheel(e)` in binary64 arithmetic; the literals `0.1` and
`0.005` are the binary64 values nearest to 1/10 and 5/1000. -/
def handleWheel64 (props : CanvasProps ℚ) (e : WheelEvent ℚ) : List (Effect ℚ) :=
  match props.canvasRect with
  | none => []
  | some rect =>
    let mx := sub64 e.clientX rect.x
    let my := sub64 e.clientY rect.y
    if e.ctrlKey ∨ |e.deltaY| < 50 then
      let z := jsOr props.zoom 1
      let nz := min 5 (max (round64 (1 / 10)) (sub64 z (mul64 e.deltaY (round64 (5 / 1000)))))
      let ox := panX props
      let oy := panY props
      let f := div64 nz z
      [.preventDefault] ++ (if props.onZoomChange then [.zoomChange nz] else []) ++
        (if props.onPanChange then
          [.panChange ⟨sub64 mx (mul64 (sub64 mx ox) f), sub64 my (mul64 (sub64 my oy) f)⟩]
         else [])
    else
      [.preventDefault] ++
        (if props.onPanChange then
          [.panChange ⟨sub64 (panX props) e.deltaX, sub64 (panY props) e.deltaY⟩]
         else [])

/-- The test `pos.x>=b.x-4 && pos.x<=b.x+b.w+4 && pos.y>=b.y-4 && pos.y<=b.y+b.h+4`
(with a selection present) of the lasso branch of `handlePointerDown` in binary64
arithmetic (see `inSelectionBounds`). -/
def inSelectionBounds64 (st : CanvasState ℚ) (pos : Point ℚ) : Bool :=
  match st.selectionBounds with
  | none => false
  | some b =>
    decide (st.selectedIds.length > 0) && decide (pos.x ≥ sub64 b.x 4) &&
      decide (pos.x ≤ add64 (add64 b.x b.w) 4) && decide (pos.y ≥ sub64 b.y 4) &&
      decide (pos.y ≤ add64 (add64 b.y b.h) 4)

/-- The branch `if (tool==="lasso") { ... }` of `handlePointerDown` in binary64
arithmetic: the branch the handler takes with input enabled and the lasso
tool. -/
def lassoDown64 (props : CanvasProps ℚ) (st : CanvasState ℚ) (e : PointerEvent ℚ) :
    CanvasState ℚ × List (Effect ℚ) :=
  let pos := screenToCanvas64 props e.clientX e.clientY
  if inSelectionBounds64 st pos then
    ({ st with isDraggingSelection := true, dragStart := pos, isDrawing := true },
      [.preventDefault])
  else
    ({ st with selectedIds := [], selectionBounds := none, lassoPath := some [pos],
               isDrawing := true },
      [.preventDefault])

/-- The branch `if (isDraggingSelection.current) { ... }` of `handlePointerMove`
in binary64 arithmetic: the branch the handler takes with input enabled, the
lasso tool, a gesture in progress, no group drag and a selection drag under way
(see `handlePointerMove_drag`). -/
def dragSelection64 (props : CanvasProps ℚ) (st : CanvasState ℚ) (e : PointerEvent ℚ) :
    CanvasState ℚ × List (Effect ℚ) :=
  let pos := screenToCanvas64 props e.clientX e.clientY
  let dx := sub64 pos.x st.dragStart.x
  let dy := sub64 pos.y st.dragStart.y
  ({ st with dragStart := pos,
             selectionBounds := st.selectionBounds.map fun b =>
               { b with x := add64 b.x dx, y := add64 b.y dy } },
    [.preventDefault] ++
      (if props.onMoveStrokes then [.moveStrokes st.selectedIds dx dy] else []))

/-- The zoom values handed to the zoom-change callback `onZoomChange`, in call
order. -/
def zoomCalls {α : Type} (effects : List (Effect α)) : List α :=
  effects.filterMap fun e => match e with
    | .zoomChange z => some z
    | _ => none

/-- The pan offsets handed to the pan-change callback `onPanChange`, in call
order. -/
def panCalls {α : Type} (effects : List (Effect α)) : List (Point α) :=
  effects.filterMap fun e => match e with
    | .panChange p => some p
    | _ => none

/-- The point lists of the strokes of a layer. -/
def layerPoints {α : Type} (layer : List (Stroke α)) : List (Option (List (Point α))) :=
  layer.map fun s => s.points

/-! ## Concrete inputs -/

/-- A square outline drawn as a closed five-point polyline. -/
def squareLoop : List (Point ℝ) := [⟨0, 0⟩, ⟨10, 0⟩, ⟨10, 10⟩, ⟨0, 10⟩, ⟨0, 0⟩]

/-- A closed ten-point polyline on a 100 x 50 box with exactly seven points
within the edge margin (15) of a bounding-box edge. -/
def rectSeventy : List (Point ℝ) :=
  [⟨0, 0⟩, ⟨100, 0⟩, ⟨50, 25⟩, ⟨100, 50⟩, ⟨50, 25⟩, ⟨0, 50⟩, ⟨50, 0⟩, ⟨50, 25⟩, ⟨50, 50⟩,
    ⟨0, 0⟩]

/-- The outline of a 100 x 50 box drawn as a closed five-point polyline. -/
def boxLoop : List (Point ℝ) := [⟨0, 0⟩, ⟨100, 0⟩, ⟨100, 50⟩, ⟨0, 50⟩, ⟨0, 0⟩]

/-- Five points on the horizontal segment from (0,0) to (40,0). -/
def straightStroke : List (Point ℝ) := [⟨0, 0⟩, ⟨10, 0⟩, ⟨20, 0⟩, ⟨30, 0⟩, ⟨40, 0⟩]

/-- A stroke that runs along the line through (0,0) and (240,100) and comes back
to (36,15): its end points are 39 apart, its bounding-box diagonal is 260. -/
def closedLine : List (Point ℝ) := [⟨0, 0⟩, ⟨120, 50⟩, ⟨240, 100⟩, ⟨120, 50⟩, ⟨36, 15⟩]

/-- The square with corners (0,0) and (4,4) as a lasso polygon, over the
rationals. -/
def squarePolygon : List (Point ℚ) := [⟨0, 0⟩, ⟨4, 0⟩, ⟨4, 4⟩, ⟨0, 4⟩]

/-- A three-point stroke along the x axis, over the reals. -/
def sampleStroke : Stroke ℝ :=
  { points := some [⟨0, 0⟩, ⟨10, 0⟩, ⟨20, 0⟩], brushSize := 3 }

/-- Props of a canvas at the origin of the screen with zoom 1 and no pan, all
callbacks supplied, empty layers. -/
def baseProps : CanvasProps ℝ :=
  { tool := some .pencil, color := "#ffffff", brushSize := 3, penType := "ballpoint",
    drawingLayer := [], textLayer := [], socket := true, disabled := false, currentPage := 0,
    zoom := 1, panOffset := some ⟨0, 0⟩, onEraseStroke := true, onMoveStrokes := true,
    onDeleteStrokes := true, onTextLayerUpdate := true, onZoomChange := true,
    onPanChange := true, onLassoSelect := true, canvasRect := some ⟨0, 0⟩ }

/-- The state of a canvas with no gesture in progress and no selection. -/
def idleState : CanvasState ℝ :=
  { isDrawing := false, currentStroke := none, lastThrottle := 0, lassoPath := none,
    selectedIds := [], selectionBounds := none, isDraggingSelection := false,
    dragStart := ⟨0, 0⟩, eraserPos := none, draggingElement := none,
    dragElementStart := ⟨0, 0⟩, dragOrigPos := ⟨0, 0⟩, editingText := none,
    editingBox := none, templateGroupDrag := none }

/-- The props `baseProps` with zoom 2, pan (10,20) and canvas origin (5,5). -/
def zoomedProps : CanvasProps ℝ :=
  { baseProps with zoom := 2, panOffset := some ⟨10, 20⟩, canvasRect := some ⟨5, 5⟩ }

/-- A one-point stroke at the origin. -/
def dotStroke : Stroke ℝ := { id := "dot", points := some [⟨0, 0⟩], brushSize := 3 }

/-- A one-point stroke at (9,0), at distance exactly `3 * 3` from the origin. -/
def rimStroke : Stroke ℝ := { id := "rim", points := some [⟨9, 0⟩], brushSize := 3 }

/-- A one-point stroke at (100,0). -/
def farStroke : Stroke ℝ := { id := "far", points := some [⟨100, 0⟩], brushSize := 3 }

/-- A box element of the text layer that covers the origin. -/
def coverBox : Element ℝ :=
  { id := "box-1", type := .box, x := -10, y := -10, width := 150, height := 60, fontSize := 0 }

/-- The eraser tool with brush size 3 over a layer of three one-point strokes. -/
def eraserProps : CanvasProps ℝ :=
  { baseProps with tool := some .eraser, drawingLayer := [dotStroke, rimStroke, farStroke] }

/-- The props `eraserProps` with a box element under the origin. -/
def eraserOverBoxProps : CanvasProps ℝ := { eraserProps with textLayer := [coverBox] }

/-- A pointer event at the client position (0,0). -/
def originEvent : PointerEvent ℝ :=
  { clientX := 0, clientY := 0, shiftKey := false, now := 1000, newId := "1000-abc" }

/-- The lasso polygon of the scenario: a 200 x 200 square. -/
def lassoSquare : List (Point ℝ) := [⟨0, 0⟩, ⟨200, 0⟩, ⟨200, 200⟩, ⟨0, 200⟩]

/-- Three strokes with a point inside `lassoSquare` (the third only partly
inside) and a fourth stroke outside it. -/
def lassoLayer : List (Stroke ℝ) :=
  [{ id := "a", points := some [⟨10, 10⟩, ⟨20, 20⟩], brushSize := 3 },
   { id := "b", points := some [⟨50, 60⟩], brushSize := 3 },
   { id := "c", points := some [⟨150, 190⟩, ⟨250, 300⟩], brushSize := 3 },
   { id := "d", points := some [⟨300, 300⟩], brushSize := 3 }]

/-- The lasso tool over `lassoLayer`. -/
def lassoProps : CanvasProps ℝ :=
  { baseProps with tool := some .lasso, drawingLayer := lassoLayer }

/-- The state at the end of a lasso gesture that accumulated `lassoSquare`. -/
def lassoState : CanvasState ℝ :=
  { idleState with isDrawing := true, lassoPath := some lassoSquare }

/-- The state at the end of a pencil gesture whose in-progress stroke is
`sampleStroke`. -/
def pencilState : CanvasState ℝ :=
  { idleState with isDrawing := true, currentStroke := some sampleStroke }

/-- A pointer event at the client position `(x, y)`. -/
def eventAt (x y : ℝ) : PointerEvent ℝ :=
  { clientX := x, clientY := y, shiftKey := false, now := 1000, newId := "1000-abc" }

/-- The props `baseProps` with the shape tool. -/
def shapeProps : CanvasProps ℝ := { baseProps with tool := some .shape }

/-- A highlighter stroke of three points 100 apart, brush size 3, pen type
ballpoint. -/
def hlStroke : Stroke ℝ :=
  { type := .highlighter, points := some [⟨0, 0⟩, ⟨100, 0⟩, ⟨200, 0⟩], brushSize := 3 }

/-- A pencil stroke of three points 100 apart, brush size 3, pen type
ballpoint. -/
def penStroke : Stroke ℝ :=
  { type := .pencil, points := some [⟨0, 0⟩, ⟨100, 0⟩, ⟨200, 0⟩], brushSize := 3 }

/-- A state with the strokes `"a"` and `"b"` of `lassoLayer` selected. -/
def selectedState : CanvasState ℝ :=
  { idleState with selectedIds := ["a", "b"], selectionBounds := some ⟨10, 10, 40, 50⟩ }

/-- The props of the canvas during replay: `tool={null}` and `disabled={true}`. -/
def replayProps : CanvasProps ℝ :=
  { lassoProps with tool := none, disabled := true }

/-- A wheel event with the control key held and `deltaY = -100`. -/
def zoomWheel : WheelEvent ℝ :=
  { clientX := 0, clientY := 0, deltaX := 0, deltaY := -100, ctrlKey := true }

/-- The Delete key. -/
def deleteKey : KeyEvent :=
  { key := "Delete", ctrlKey := false, metaKey := false, freshId := fun k => "dup-" ++ toString k }

/-- The duplicate shortcut Ctrl+D. -/
def duplicateKey : KeyEvent :=
  { key := "d", ctrlKey := true, metaKey := false, freshId := fun k => "dup-" ++ toString k }

/-- The binary64 value of the literal `0.9999999999999999`, one unit in the last
place below 1. -/
def belowOne : ℚ := round64 (9999999999999999 / 10000000000000000)

/-- The triangle (1, 0.8), (1.6, 2.6), (1.6, 0.2) in binary64 values. -/
def triangle64 : List (Point ℚ) :=
  [⟨1, round64 (8 / 10)⟩, ⟨round64 (16 / 10), round64 (26 / 10)⟩,
   ⟨round64 (16 / 10), round64 (2 / 10)⟩]

/-- The two-vertex polygon (0, 0), (1, 3). -/
def twoGon : List (Point ℚ) := [⟨0, 0⟩, ⟨1, 3⟩]

/-- The stroke with the points (-3, 0) and (0.1, 0) in binary64 values. -/
def flatStroke64 : Stroke ℚ :=
  { id := "s", points := some [⟨-3, 0⟩, ⟨round64 (1 / 10), 0⟩], brushSize := 3 }

/-- The lasso polygon (0,0), (2,0), (2,2), (0,2). -/
def lassoSquare64 : List (Point ℚ) := [⟨0, 0⟩, ⟨2, 0⟩, ⟨2, 2⟩, ⟨0, 2⟩]

/-- A layer of one stroke with the points (0.2, 0.2) and (0.9, 0.9) in binary64
values. -/
def diagonalLayer64 : List (Stroke ℚ) :=
  [{ id := "s", brushSize := 3,
     points := some [⟨round64 (2 / 10), round64 (2 / 10)⟩,
       ⟨round64 (9 / 10), round64 (9 / 10)⟩] }]

/-- Props of a canvas at the origin of the screen with zoom `z` and pan offset
`pan`, all callbacks supplied, the lasso tool and the drawing layer `layer`. -/
def props64 (z : ℚ) (pan : Point ℚ) (layer : List (Stroke ℚ)) : CanvasProps ℚ :=
  { tool := some .lasso, color := "#ffffff", brushSize := 3, penType := "ballpoint",
    drawingLayer := layer, textLayer := [], socket := false, disabled := false,
    currentPage := 0, zoom := z, panOffset := some pan, onEraseStroke := true,
    onMoveStrokes := true, onDeleteStrokes := true, onTextLayerUpdate := true,
    onZoomChange := true, onPanChange := true, onLassoSelect := true,
    canvasRect := some ⟨0, 0⟩ }

/-- A wheel event at the client position (100, 100) with `deltaY = 20`. -/
def wheel64 : WheelEvent ℚ :=
  { clientX := 100, clientY := 100, deltaX := 0, deltaY := 20, ctrlKey := false }

/-- A layer of one stroke with the points (10.1, 5) and (30, 30) in binary64
values. -/
def dragLayer64 : List (Stroke ℚ) :=
  [{ id := "s", brushSize := 3, points := some [⟨round64 (101 / 10), 5⟩, ⟨30, 30⟩] }]

/-- The state with the stroke `"s"` of `dragLayer64` selected and the bounds the
lasso branch of `handlePointerUp` stores for it. -/
def selectedState64 : CanvasState ℚ :=
  { isDrawing := false, currentStroke := none, lastThrottle := 0, lassoPath := none,
    selectedIds := ["s"], selectionBounds := some (selectionBoundsOf64 dragLayer64 ["s"]),
    isDraggingSelection := false, dragStart := ⟨0, 0⟩, eraserPos := none,
    draggingElement := none, dragElementStart := ⟨0, 0⟩, dragOrigPos := ⟨0, 0⟩,
    editingText := none, editingBox := none, templateGroupDrag := none }

/-- A pointer event at the client position `(x, y)`. -/
def eventAt64 (x y : ℚ) : PointerEvent ℚ :=
  { clientX := x, clientY := y, shiftKey := false, now := 1000, newId := "1000-abc" }

/-- The pointer-down of the drag, at the client position (20, 20). -/
def dragDown : CanvasState ℚ × List (Effect ℚ) :=
  lassoDown64 (props64 1 ⟨0, 0⟩ dragLayer64) selectedState64 (eventAt64 20 20)

/-- The first move of the drag, to the client position (30.3, 20). -/
def dragMove1 : CanvasState ℚ × List (Effect ℚ) :=
  dragSelection64 (props64 1 ⟨0, 0⟩ dragLayer64) dragDown.1 (eventAt64 (round64 (303 / 10)) 20)

/-- The second move of the drag, to the client position (50.7, 20). -/
def dragMove2 : CanvasState ℚ × List (Effect ℚ) :=
  dragSelection64 (props64 1 ⟨0, 0⟩ dragLayer64) dragMove1.1 (eventAt64 (round64 (507 / 10)) 20)

/-! ## Theorems -/

section Theorems

variable {α : Type} [LinearOrderedField α]

theorem real_sqrt_of_sq {x c : ℝ} (hc : 0 ≤ c) (h : x = c * c) : Real.sqrt x = c := by
  rw [h, Real.sqrt_mul_self hc]

omit [LinearOrderedField α] in
theorem foldl_count_eq (P : Point α → Prop) [DecidablePred P] (l : List (Point α)) (k : Nat) :
    l.foldl (fun n p => if P p then n + 1 else n) k = k + l.countP (fun p => decide (P p)) := by
  induction l generalizing k with
  | nil => simp
  | cons a t ih =>
    rw [List.foldl_cons, ih, List.countP_cons]
    by_cases h : P a
    · simp [h]; omega
    · simp [h]

/-- The counter `onEdge` is the number of points within the margin of an edge. -/
theorem onEdge_eq_countP (points : List (Point α)) :
    onEdge points = points.countP (fun p => decide (nearEdge points p)) := by
  unfold onEdge
  rw [foldl_count_eq (nearEdge points) points 0, Nat.zero_add]

/-- C1: a closed polyline of at least 5 points whose ratio
`pathLen / (2*pi*(w+h)/4)` lies strictly between 0.75 and 1.5 and whose aspect
imbalance `|w-h| / max(w,h)` is below 0.4 is classified `circle`, with the
bounding-box centre as centre and `(w+h)/4` as radius. -/
theorem recognizeShape_circle (sqrt : α → α) (pi : α) (points : List (Point α))
    (hlen : 5 ≤ points.length)
    (hclosed : closureDist sqrt points < 0.25 * diagonal sqrt points)
    (hlo : 0.75 < pathLen sqrt points / (2 * pi * ((bboxW points + bboxH points) / 4)))
    (hhi : pathLen sqrt points / (2 * pi * ((bboxW points + bboxH points) / 4)) < 1.5)
    (hasp : |bboxW points - bboxH points| / max (bboxW points) (bboxH points) < 0.4) :
    recognizeShape sqrt pi points
      = some (.circle ((minX points + maxX points) / 2) ((minY points + maxY points) / 2)
          ((bboxW points + bboxH points) / 4)) := by
  have h1 : ¬ points.length < 5 := by omega
  have h2 : isClosed sqrt points := by unfold isClosed; linarith
  have h3 : circleTest sqrt pi points := ⟨hlo, hhi, hasp⟩
  simp only [recognizeShape, if_neg h1, if_pos h2, if_pos h3, centreX, centreY, avgR]

/-- C1 at the square outline `squareLoop`: it is classified as the circle of
centre (5,5) and radius 5. -/
theorem recognizeShape_circle_witness :
    recognizeShape Real.sqrt Real.pi squareLoop = some (.circle 5 5 5) := by
  have e100 : Real.sqrt 100 = 10 := real_sqrt_of_sq (by norm_num) (by norm_num)
  have hw : bboxW squareLoop = 10 := by
    norm_num [bboxW, maxX, minX, firstPoint, squareLoop]
  have hh : bboxH squareLoop = 10 := by
    norm_num [bboxH, maxY, minY, firstPoint, squareLoop]
  have hp : pathLen Real.sqrt squareLoop = 40 := by
    norm_num [pathLen, pathLenLoop, hypot, squareLoop, e100]
  have h3 := Real.pi_gt_three
  have h4 := Real.pi_le_four
  have h := recognizeShape_circle Real.sqrt Real.pi squareLoop (by simp [squareLoop])
    (by norm_num [closureDist, diagonal, hypot, hw, hh]
        norm_num [squareLoop, firstPoint, lastPoint])
    (by rw [hw, hh, hp, lt_div_iff₀ (by positivity)]; linarith)
    (by rw [hw, hh, hp, div_lt_iff₀ (by positivity)]; linarith)
    (by rw [hw, hh]; norm_num)
  rw [h, hw, hh]
  norm_num [maxX, minX, maxY, minY, firstPoint, squareLoop]

/-- C2 (as stated) fails at `rectSeventy`: the polyline has 10 points, is closed,
fails the circle test and has exactly 7 of its 10 points (70%) within the
margin of a bounding-box edge, yet `recognizeShape` returns no classification. -/
theorem recognizeShape_rect_seventy_counterexample :
    5 ≤ rectSeventy.length ∧
      closureDist Real.sqrt rectSeventy < 0.25 * diagonal Real.sqrt rectSeventy ∧
      ¬ circleTest Real.sqrt Real.pi rectSeventy ∧
      ((rectSeventy.countP (fun p => decide (nearEdge rectSeventy p)) : ℝ)
        = 0.7 * (rectSeventy.length : ℝ)) ∧
      recognizeShape Real.sqrt Real.pi rectSeventy = none := by
  have h5 : ¬ rectSeventy.length < 5 := by simp [rectSeventy]
  have hc : isClosed Real.sqrt rectSeventy := by
    norm_num [isClosed, closureDist, diagonal, hypot, rectSeventy, bboxW, bboxH, maxX, minX,
      maxY, minY, firstPoint, lastPoint]
  have hn : ¬ circleTest Real.sqrt Real.pi rectSeventy := by
    intro h
    have h2 := h.2.2
    norm_num [aspectImbalance, rectSeventy, bboxW, bboxH, maxX, minX, maxY, minY,
      firstPoint] at h2
  have hcount : onEdge rectSeventy = 7 := by
    norm_num [onEdge, rectSeventy, nearEdge, edgeMargin, bboxW, bboxH, maxX, minX, maxY, minY,
      firstPoint]
  have hr : ¬ rectTest rectSeventy := by
    rw [rectTest, hcount]
    norm_num [rectSeventy]
  have hl : chordClassify Real.sqrt rectSeventy = none := by
    norm_num [chordClassify, lineLen, hypot, rectSeventy, firstPoint, lastPoint]
  refine ⟨by simp [rectSeventy], ?_, hn, ?_, ?_⟩
  · unfold isClosed at hc; linarith
  · rw [← onEdge_eq_countP, hcount]; norm_num [rectSeventy]
  · rw [recognizeShape, if_neg h5, if_pos hc, if_neg hn, if_neg hr, hl]

/-- C2 (amended): a closed polyline of at least 5 points that fails the circle
test and has strictly more than 70% of its points within the margin
(15% of `max(w,h)`) of one of the four bounding-box edges is classified `rect`
with `x = minX`, `y = minY`, `width = w`, `height = h`. -/
theorem recognizeShape_rect (sqrt : α → α) (pi : α) (points : List (Point α))
    (hlen : 5 ≤ points.length)
    (hclosed : closureDist sqrt points < 0.25 * diagonal sqrt points)
    (hnc : ¬ (0.75 < circleRatio sqrt pi points ∧ circleRatio sqrt pi points < 1.5 ∧
      |bboxW points - bboxH points| / max (bboxW points) (bboxH points) < 0.4))
    (hedge : 0.7 * (points.length : α)
      < (points.countP (fun p => decide (nearEdge points p)) : α)) :
    recognizeShape sqrt pi points
      = some (.rect (minX points) (minY points) (bboxW points) (bboxH points)) := by
  have h1 : ¬ points.length < 5 := by omega
  have h2 : isClosed sqrt points := by unfold isClosed; linarith
  have h3 : ¬ circleTest sqrt pi points := hnc
  have hpos : (0 : α) < (points.length : α) := by
    have : 0 < points.length := by omega
    exact_mod_cast this
  have h4 : rectTest points := by
    unfold rectTest
    rw [onEdge_eq_countP, gt_iff_lt, lt_div_iff₀ hpos]
    exact hedge
  simp only [recognizeShape, if_neg h1, if_pos h2, if_neg h3, if_pos h4]

/-- C2 (amended) at the box outline `boxLoop`: all five points lie on the
bounding box, and the polyline is classified as the rectangle 100 x 50 at (0,0). -/
theorem recognizeShape_rect_witness :
    recognizeShape Real.sqrt Real.pi boxLoop = some (.rect 0 0 100 50) := by
  have hw : bboxW boxLoop = 100 := by
    norm_num [bboxW, maxX, minX, firstPoint, boxLoop]
  have hh : bboxH boxLoop = 50 := by
    norm_num [bboxH, maxY, minY, firstPoint, boxLoop]
  have hcount : onEdge boxLoop = 5 := by
    norm_num [onEdge, boxLoop, nearEdge, edgeMargin, bboxW, bboxH, maxX, minX, maxY, minY,
      firstPoint]
  have h := recognizeShape_rect Real.sqrt Real.pi boxLoop (by simp [boxLoop])
    (by norm_num [closureDist, diagonal, hypot, hw, hh]
        norm_num [boxLoop, firstPoint, lastPoint])
    (by rw [hw, hh]; norm_num)
    (by rw [← onEdge_eq_countP, hcount]; norm_num [boxLoop])
  rw [h, hw, hh]
  norm_num [minX, minY, firstPoint, boxLoop]

omit [LinearOrderedField α] in
theorem foldl_max_ge_init {β : Type} [LinearOrder β] (f : Point α → β) (l : List (Point α))
    (m : β) : m ≤ l.foldl (fun a p => max a (f p)) m := by
  induction l generalizing m with
  | nil => exact le_refl m
  | cons a t ih => exact le_trans (le_max_left m (f a)) (ih (max m (f a)))

omit [LinearOrderedField α] in
theorem foldl_max_ge_mem {β : Type} [LinearOrder β] (f : Point α → β) (l : List (Point α))
    (m : β) (p : Point α) (hp : p ∈ l) : f p ≤ l.foldl (fun a p => max a (f p)) m := by
  induction l generalizing m with
  | nil => cases hp
  | cons a t ih =>
    rcases List.mem_cons.mp hp with h | h
    · subst h
      exact le_trans (le_max_right m (f p)) (foldl_max_ge_init f t (max m (f p)))
    · exact ih (max m (f a)) h

omit [LinearOrderedField α] in
theorem foldl_max_attained {β : Type} [LinearOrder β] (f : Point α → β) (l : List (Point α))
    (m : β) :
    l.foldl (fun a p => max a (f p)) m = m ∨ ∃ p ∈ l, l.foldl (fun a p => max a (f p)) m = f p := by
  induction l generalizing m with
  | nil => exact Or.inl rfl
  | cons a t ih =>
    rcases ih (max m (f a)) with h | ⟨p, hp, h⟩
    · rcases max_choice m (f a) with hm | hm
      · left; rw [List.foldl_cons, h, hm]
      · right; exact ⟨a, List.mem_cons_self a t, by rw [List.foldl_cons, h, hm]⟩
    · right; exact ⟨p, List.mem_cons_of_mem a hp, by rw [List.foldl_cons, h]⟩

/-- The value `maxDev` bounds the deviation of every point of the polyline. -/
theorem deviation_le_maxDev (sqrt : α → α) (points : List (Point α)) (p : Point α)
    (hp : p ∈ points) : deviation sqrt points p ≤ maxDev sqrt points :=
  foldl_max_ge_mem (deviation sqrt points) points 0 p hp

/-- The value `maxDev` is 0 or the deviation of one of the points. -/
theorem maxDev_attained (sqrt : α → α) (points : List (Point α)) :
    maxDev sqrt points = 0 ∨ ∃ p ∈ points, maxDev sqrt points = deviation sqrt points p :=
  foldl_max_attained (deviation sqrt points) points 0

/-- The chord length is the closure distance. -/
theorem lineLen_eq_closureDist (sqrt : α → α) (points : List (Point α)) :
    lineLen sqrt points = closureDist sqrt points := rfl

/-- C3: for a polyline of at least 5 points that is not closed, with chord
length `L` and maximum deviation `d` from the chord line: when `L > 30` the
result is `line` (from the first to the last point) if `d < 0.08*L`, `arrow`
if `0.08*L <= d < 0.12*L`, and no classification if `d > 0.12*L`; when
`L <= 30` there is no classification. -/
theorem recognizeShape_open (sqrt : α → α) (pi : α) (points : List (Point α))
    (hlen : 5 ≤ points.length)
    (hopen : 0.25 * diagonal sqrt points ≤ closureDist sqrt points) :
    (30 < lineLen sqrt points →
      (maxDev sqrt points < 0.08 * lineLen sqrt points →
        recognizeShape sqrt pi points
          = some (.line (firstPoint points).x (firstPoint points).y
              (lastPoint points).x (lastPoint points).y)) ∧
      (0.08 * lineLen sqrt points ≤ maxDev sqrt points →
        maxDev sqrt points < 0.12 * lineLen sqrt points →
        recognizeShape sqrt pi points
          = some (.arrow (firstPoint points).x (firstPoint points).y
              (lastPoint points).x (lastPoint points).y)) ∧
      (0.12 * lineLen sqrt points < maxDev sqrt points →
        recognizeShape sqrt pi points = none)) ∧
    (lineLen sqrt points ≤ 30 → recognizeShape sqrt pi points = none) := by
  have h1 : ¬ points.length < 5 := by omega
  have h2 : ¬ isClosed sqrt points := by unfold isClosed; intro h; linarith
  have hrec : recognizeShape sqrt pi points = chordClassify sqrt points := by
    rw [recognizeShape, if_neg h1, if_neg h2]
  rw [hrec]
  refine ⟨fun hL => ⟨fun hd => ?_, fun hd1 hd2 => ?_, fun hd => ?_⟩, fun hL => ?_⟩
  · have hd' : maxDev sqrt points < lineLen sqrt points * 0.08 := by linarith
    rw [chordClassify, if_pos hL, if_pos hd']
  · have hd1' : ¬ maxDev sqrt points < lineLen sqrt points * 0.08 := by
      intro h; linarith
    have hd2' : maxDev sqrt points < lineLen sqrt points * 0.12 := by linarith
    rw [chordClassify, if_pos hL, if_neg hd1', if_pos hd2']
  · have hd1' : ¬ maxDev sqrt points < lineLen sqrt points * 0.08 := by
      intro h; linarith
    have hd2' : ¬ maxDev sqrt points < lineLen sqrt points * 0.12 := by
      intro h; linarith
    rw [chordClassify, if_pos hL, if_neg hd1', if_neg hd2']
  · have hL' : ¬ lineLen sqrt points > 30 := not_lt.mpr hL
    rw [chordClassify, if_neg hL']

/-- C3 at `straightStroke`: the open five-point stroke from (0,0) to (40,0) has
chord length 40 and deviation 0, and is classified as the line from (0,0) to
(40,0). -/
theorem recognizeShape_open_witness :
    lineLen Real.sqrt straightStroke = 40 ∧ maxDev Real.sqrt straightStroke = 0 ∧
      recognizeShape Real.sqrt Real.pi straightStroke = some (.line 0 0 40 0) := by
  have e : Real.sqrt 1600 = 40 := real_sqrt_of_sq (by norm_num) (by norm_num)
  have hL : lineLen Real.sqrt straightStroke = 40 := by
    norm_num [lineLen, hypot, straightStroke, firstPoint, lastPoint, e]
  have hd : maxDev Real.sqrt straightStroke = 0 := by
    norm_num [maxDev, deviation, straightStroke, firstPoint, lastPoint]
  have h := (recognizeShape_open Real.sqrt Real.pi straightStroke (by simp [straightStroke])
    (by rw [← lineLen_eq_closureDist, hL]
        norm_num [diagonal, hypot, bboxW, bboxH, maxX, minX, maxY, minY, straightStroke,
          firstPoint, e])).1 (by rw [hL]; norm_num)
  refine ⟨hL, hd, ?_⟩
  rw [h.1 (by rw [hL, hd]; norm_num)]
  norm_num [straightStroke, firstPoint, lastPoint]

/-- The quantities `recognizeShape` computes on `closedLine`: chord 39, diagonal
260, both closed-shape tests fail, deviation 0. -/
theorem closedLine_eval :
    lineLen Real.sqrt closedLine = 39 ∧ diagonal Real.sqrt closedLine = 260 ∧
      ¬ circleTest Real.sqrt Real.pi closedLine ∧ ¬ rectTest closedLine ∧
      maxDev Real.sqrt closedLine = 0 := by
  have e1 : Real.sqrt 1521 = 39 := real_sqrt_of_sq (by norm_num) (by norm_num)
  have e2 : Real.sqrt 67600 = 260 := real_sqrt_of_sq (by norm_num) (by norm_num)
  have hw : bboxW closedLine = 240 := by
    norm_num [bboxW, maxX, minX, firstPoint, closedLine]
  have hh : bboxH closedLine = 100 := by
    norm_num [bboxH, maxY, minY, firstPoint, closedLine]
  have hcount : onEdge closedLine = 3 := by
    norm_num [onEdge, closedLine, nearEdge, edgeMargin, bboxW, bboxH, maxX, minX, maxY, minY,
      firstPoint]
  refine ⟨?_, ?_, ?_, ?_, ?_⟩
  · norm_num [lineLen, hypot, closedLine, firstPoint, lastPoint, e1]
  · rw [diagonal, hw, hh]
    norm_num [hypot, e2]
  · intro h
    have h2 := h.2.2
    rw [aspectImbalance, hw, hh] at h2
    norm_num at h2
  · rw [rectTest, hcount]
    norm_num [closedLine]
  · norm_num [maxDev, deviation, closedLine, firstPoint, lastPoint]

/-- The result of `recognizeShape` on `closedLine`, in terms of its end points. -/
theorem closedLine_result :
    recognizeShape Real.sqrt Real.pi closedLine
      = some (.line (firstPoint closedLine).x (firstPoint closedLine).y
          (lastPoint closedLine).x (lastPoint closedLine).y) := by
  obtain ⟨hL, hD, hn, hr, hd⟩ := closedLine_eval
  have h5 : ¬ closedLine.length < 5 := by simp [closedLine]
  have hc : isClosed Real.sqrt closedLine := by
    rw [isClosed, ← lineLen_eq_closureDist, hL, hD]; norm_num
  rw [recognizeShape, if_neg h5, if_pos hc, if_neg hn, if_neg hr, chordClassify,
    if_pos (by rw [hL]; norm_num), if_pos (by rw [hL, hd]; norm_num)]

/-- C4 (as stated) fails at `closedLine`: the stroke is closed (its end points
are 39 apart, less than a quarter of the bounding-box diagonal 260), and it is
classified `line`. -/
theorem recognizeShape_closed_line_counterexample :
    closureDist Real.sqrt closedLine < 0.25 * diagonal Real.sqrt closedLine ∧
      recognizeShape Real.sqrt Real.pi closedLine = some (.line 0 0 36 15) := by
  obtain ⟨hL, hD, -, -, -⟩ := closedLine_eval
  refine ⟨?_, ?_⟩
  · rw [← lineLen_eq_closureDist, hL, hD]; norm_num
  · rw [closedLine_result]
    norm_num [closedLine, firstPoint, lastPoint]

/-- C4 (amended): a closed polyline is classified `line` or `arrow` only if it
fails both the circle test and the rectangle test, its chord is longer than 30
and its maximum deviation is below 12% of the chord; in every other case the
result for a closed polyline is `circle`, `rect` or no classification. -/
theorem recognizeShape_closed_chord (sqrt : α → α) (pi : α) (points : List (Point α))
    (s : Shape α)
    (hclosed : closureDist sqrt points < 0.25 * diagonal sqrt points)
    (hres : recognizeShape sqrt pi points = some s) (hs : s.isChord = true) :
    ¬ circleTest sqrt pi points ∧ ¬ rectTest points ∧ 30 < lineLen sqrt points ∧
      maxDev sqrt points < 0.12 * lineLen sqrt points := by
  have h2 : isClosed sqrt points := by unfold isClosed; linarith
  unfold recognizeShape at hres
  by_cases h1 : points.length < 5
  · rw [if_pos h1] at hres; cases hres
  rw [if_neg h1, if_pos h2] at hres
  by_cases h3 : circleTest sqrt pi points
  · rw [if_pos h3] at hres
    cases hres
    simp [Shape.isChord] at hs
  rw [if_neg h3] at hres
  by_cases h4 : rectTest points
  · rw [if_pos h4] at hres
    cases hres
    simp [Shape.isChord] at hs
  rw [if_neg h4] at hres
  unfold chordClassify at hres
  by_cases hL : lineLen sqrt points > 30
  · rw [if_pos hL] at hres
    refine ⟨h3, h4, hL, ?_⟩
    by_cases hd1 : maxDev sqrt points < lineLen sqrt points * 0.08
    · have hLpos : 0 < lineLen sqrt points := lt_trans (by norm_num) hL
      nlinarith
    · rw [if_neg hd1] at hres
      by_cases hd2 : maxDev sqrt points < lineLen sqrt points * 0.12
      · linarith
      · rw [if_neg hd2] at hres; cases hres
  · rw [if_neg hL] at hres; cases hres

/-- C4 (amended) at `closedLine`, the closed stroke that is classified `line`:
it fails the circle and rectangle tests, its chord is longer than 30 and its
deviation is below 12% of the chord. -/
theorem recognizeShape_closed_chord_witness :
    ¬ circleTest Real.sqrt Real.pi closedLine ∧ ¬ rectTest closedLine ∧
      30 < lineLen Real.sqrt closedLine ∧
      maxDev Real.sqrt closedLine < 0.12 * lineLen Real.sqrt closedLine :=
  recognizeShape_closed_chord Real.sqrt Real.pi closedLine
    (.line (firstPoint closedLine).x (firstPoint closedLine).y
      (lastPoint closedLine).x (lastPoint closedLine).y)
    (by rw [← lineLen_eq_closureDist, closedLine_eval.1, closedLine_eval.2.1]; norm_num)
    closedLine_result rfl

/-! ### pointInPolygon -/

theorem pipLoop_eq_chainParity (px py : α) (pj : Point α) (l : List (Point α)) (b : Bool) :
    pipLoop px py pj l b = xor b (chainParity px py pj l) := by
  induction l generalizing pj b with
  | nil => simp [pipLoop, chainParity]
  | cons a t ih =>
    rw [pipLoop, ih, chainParity]
    cases edgeCrosses px py a pj <;> cases b <;> simp

/-- On a non-empty polygon, `pointInPolygon` is the parity of the edge tests
around the chain that starts at the last vertex. -/
theorem pointInPolygon_concat (px py : α) (l : List (Point α)) (z : Point α) :
    pointInPolygon px py (l ++ [z]) = chainParity px py z (l ++ [z]) := by
  simp [pointInPolygon, pipLoop_eq_chainParity]

/-- The edge test does not depend on the direction of the edge. -/
theorem edgeCrosses_comm (px py : α) (a b : Point α) :
    edgeCrosses px py a b = edgeCrosses px py b a := by
  unfold edgeCrosses
  by_cases ha : a.y > py <;> by_cases hb : b.y > py
  · simp [ha, hb]
  · have hne : b.y - a.y ≠ 0 := by intro h; apply hb; linarith
    have hne' : a.y - b.y ≠ 0 := by intro h; apply hb; linarith
    have hx : (b.x - a.x) * (py - a.y) / (b.y - a.y) + a.x
        = (a.x - b.x) * (py - b.y) / (a.y - b.y) + b.x := by
      field_simp
      ring
    simp [ha, hb, hx]
  · have hne : b.y - a.y ≠ 0 := by intro h; apply ha; linarith
    have hne' : a.y - b.y ≠ 0 := by intro h; apply ha; linarith
    have hx : (b.x - a.x) * (py - a.y) / (b.y - a.y) + a.x
        = (a.x - b.x) * (py - b.y) / (a.y - b.y) + b.x := by
      field_simp
      ring
    simp [ha, hb, hx]
  · simp [ha, hb]

theorem chainParity_concat (px py : α) (a b : Point α) (l : List (Point α)) :
    chainParity px py a (l ++ [b])
      = xor (chainParity px py a l) (edgeCrosses px py b (l.getLastD a)) := by
  induction l generalizing a with
  | nil => simp [chainParity]
  | cons c t ih =>
    rw [List.cons_append, chainParity, ih c, chainParity, List.getLastD_cons, Bool.xor_assoc]

/-- The parity along a chain equals the parity along the reversed chain. -/
theorem chainParity_reverse (px py : α) (a b : Point α) (l : List (Point α)) :
    chainParity px py a (l ++ [b]) = chainParity px py b (l.reverse ++ [a]) := by
  induction l generalizing a with
  | nil => simp [chainParity, edgeCrosses_comm px py b a]
  | cons c t ih =>
    rw [List.cons_append, chainParity, ih c, List.reverse_cons,
      chainParity_concat px py b a (t.reverse ++ [c])]
    simp [edgeCrosses_comm px py a c, Bool.xor_comm]

/-- C5: `pointInPolygon` is invariant under reversal of the vertex order. -/
theorem pointInPolygon_reverse (px py : α) (polygon : List (Point α)) :
    pointInPolygon px py polygon.reverse = pointInPolygon px py polygon := by
  rcases polygon with _ | ⟨a, t⟩
  · rfl
  rcases List.eq_nil_or_concat t with rfl | ⟨m, z, rfl⟩
  · rfl
  have h1 : (a :: m.concat z).reverse = (z :: m.reverse) ++ [a] := by simp
  have h2 : a :: m.concat z = (a :: m) ++ [z] := by simp
  rw [h1, pointInPolygon_concat, h2, pointInPolygon_concat, List.cons_append, chainParity,
    List.cons_append, chainParity, chainParity_reverse px py a z m,
    edgeCrosses_comm px py z a]

/-- C7 (amended): over exact arithmetic, on a polygon with fewer than 3 vertices
`pointInPolygon` is false. -/
theorem pointInPolygon_degenerate (px py : α) (polygon : List (Point α))
    (h : polygon.length < 3) : pointInPolygon px py polygon = false := by
  rcases polygon with _ | ⟨a, _ | ⟨b, _ | ⟨c, t⟩⟩⟩
  · rfl
  · simp [pointInPolygon, pipLoop, edgeCrosses]
  · have e : pointInPolygon px py [a, b] = chainParity px py b [a, b] :=
      pointInPolygon_concat px py [a] b
    rw [e, chainParity, chainParity, chainParity, edgeCrosses_comm px py b a]
    simp
  · simp only [List.length_cons] at h
    omega

/-- C7 at the two-vertex polygon (0,0), (0,2) and the point (-1,1), over the
rationals. -/
theorem pointInPolygon_degenerate_witness :
    pointInPolygon (-1 : ℚ) 1 [⟨0, 0⟩, ⟨0, 2⟩] = false :=
  pointInPolygon_degenerate (-1) 1 [⟨0, 0⟩, ⟨0, 2⟩] (by decide)

omit [LinearOrderedField α] in
theorem foldl_min_le_init {β : Type} [LinearOrder β] (f : Point α → β) (l : List (Point α))
    (m : β) : l.foldl (fun a p => min a (f p)) m ≤ m := by
  induction l generalizing m with
  | nil => exact le_refl m
  | cons a t ih => exact le_trans (ih (min m (f a))) (min_le_left m (f a))

omit [LinearOrderedField α] in
theorem foldl_min_le_mem {β : Type} [LinearOrder β] (f : Point α → β) (l : List (Point α))
    (m : β) (p : Point α) (hp : p ∈ l) : l.foldl (fun a p => min a (f p)) m ≤ f p := by
  induction l generalizing m with
  | nil => cases hp
  | cons a t ih =>
    rcases List.mem_cons.mp hp with h | h
    · subst h
      exact le_trans (foldl_min_le_init f t (min m (f p))) (min_le_right m (f p))
    · exact ih (min m (f a)) h

/-- The value `minX` is a lower bound of the x coordinates. -/
theorem minX_le (points : List (Point α)) (p : Point α) (hp : p ∈ points) :
    minX points ≤ p.x := foldl_min_le_mem (fun q => q.x) points _ p hp

/-- The value `minY` is a lower bound of the y coordinates. -/
theorem minY_le (points : List (Point α)) (p : Point α) (hp : p ∈ points) :
    minY points ≤ p.y := foldl_min_le_mem (fun q => q.y) points _ p hp

/-- The value `maxX` is an upper bound of the x coordinates. -/
theorem le_maxX (points : List (Point α)) (p : Point α) (hp : p ∈ points) :
    p.x ≤ maxX points := foldl_max_ge_mem (fun q => q.x) points _ p hp

/-- The value `maxY` is an upper bound of the y coordinates. -/
theorem le_maxY (points : List (Point α)) (p : Point α) (hp : p ∈ points) :
    p.y ≤ maxY points := foldl_max_ge_mem (fun q => q.y) points _ p hp

/-- When every edge test along a chain is false, the parity is false. -/
theorem chainParity_false (px py : α) (P : Point α → Prop)
    (hP : ∀ u v, P u → P v → edgeCrosses px py u v = false)
    (a : Point α) (l : List (Point α)) (ha : P a) (hl : ∀ q ∈ l, P q) :
    chainParity px py a l = false := by
  induction l generalizing a with
  | nil => rfl
  | cons c t ih =>
    have hc : P c := hl c (List.mem_cons_self c t)
    rw [chainParity, hP c a hc ha, ih c hc (fun q hq => hl q (List.mem_cons_of_mem c hq))]
    rfl

/-- An edge whose end points are both to the right of `px` passes the edge test
exactly when its end points are on different sides of the height `py`. -/
theorem edgeCrosses_of_left (px py : α) (a b : Point α) (ha : px < a.x) (hb : px < b.x) :
    edgeCrosses px py a b = (decide (a.y > py) != decide (b.y > py)) := by
  unfold edgeCrosses
  by_cases h1 : a.y > py <;> by_cases h2 : b.y > py
  · simp [h1, h2]
  · have hd : b.y - a.y < 0 := by linarith [not_lt.mp h2]
    have hx : px < (b.x - a.x) * (py - a.y) / (b.y - a.y) + a.x := by
      have e : (b.x - a.x) * (py - a.y) / (b.y - a.y) + a.x - px
          = ((a.x - px) * (py - b.y) + (b.x - px) * (a.y - py)) / (a.y - b.y) := by
        field_simp [ne_of_lt hd, ne_of_gt (show 0 < a.y - b.y by linarith)]
        ring
      have hpos : 0 < ((a.x - px) * (py - b.y) + (b.x - px) * (a.y - py)) / (a.y - b.y) := by
        apply div_pos _ (by linarith)
        have t1 : 0 ≤ (a.x - px) * (py - b.y) :=
          mul_nonneg (by linarith) (by linarith [not_lt.mp h2])
        have t2 : 0 < (b.x - px) * (a.y - py) := mul_pos (by linarith) (by linarith)
        linarith
      linarith
    simp [h1, h2, hx]
  · have hd : 0 < b.y - a.y := by linarith [not_lt.mp h1]
    have hx : px < (b.x - a.x) * (py - a.y) / (b.y - a.y) + a.x := by
      have e : (b.x - a.x) * (py - a.y) / (b.y - a.y) + a.x - px
          = ((a.x - px) * (b.y - py) + (b.x - px) * (py - a.y)) / (b.y - a.y) := by
        field_simp [ne_of_gt hd]
        ring
      have hpos : 0 < ((a.x - px) * (b.y - py) + (b.x - px) * (py - a.y)) / (b.y - a.y) := by
        apply div_pos _ hd
        have t1 : 0 < (a.x - px) * (b.y - py) := mul_pos (by linarith) (by linarith)
        have t2 : 0 ≤ (b.x - px) * (py - a.y) :=
          mul_nonneg (by linarith) (by linarith [not_lt.mp h1])
        linarith
      linarith
    simp [h1, h2, hx]
  · simp [h1, h2]

/-- An edge whose end points are both to the left of `px` fails the edge test. -/
theorem edgeCrosses_of_right (px py : α) (a b : Point α) (ha : a.x < px) (hb : b.x < px) :
    edgeCrosses px py a b = false := by
  unfold edgeCrosses
  by_cases h1 : a.y > py <;> by_cases h2 : b.y > py
  · simp [h1, h2]
  · have hd : b.y - a.y < 0 := by linarith [not_lt.mp h2]
    have hx : ¬ px < (b.x - a.x) * (py - a.y) / (b.y - a.y) + a.x := by
      have e : px - ((b.x - a.x) * (py - a.y) / (b.y - a.y) + a.x)
          = ((px - a.x) * (py - b.y) + (px - b.x) * (a.y - py)) / (a.y - b.y) := by
        field_simp [ne_of_lt hd, ne_of_gt (show 0 < a.y - b.y by linarith)]
        ring
      have hpos : 0 < ((px - a.x) * (py - b.y) + (px - b.x) * (a.y - py)) / (a.y - b.y) := by
        apply div_pos _ (by linarith)
        have t1 : 0 ≤ (px - a.x) * (py - b.y) :=
          mul_nonneg (by linarith) (by linarith [not_lt.mp h2])
        have t2 : 0 < (px - b.x) * (a.y - py) := mul_pos (by linarith) (by linarith)
        linarith
      intro h; linarith
    simp [h1, h2, hx]
  · have hd : 0 < b.y - a.y := by linarith [not_lt.mp h1]
    have hx : ¬ px < (b.x - a.x) * (py - a.y) / (b.y - a.y) + a.x := by
      have e : px - ((b.x - a.x) * (py - a.y) / (b.y - a.y) + a.x)
          = ((px - a.x) * (b.y - py) + (px - b.x) * (py - a.y)) / (b.y - a.y) := by
        field_simp [ne_of_gt hd]
        ring
      have hpos : 0 < ((px - a.x) * (b.y - py) + (px - b.x) * (py - a.y)) / (b.y - a.y) := by
        apply div_pos _ hd
        have t1 : 0 < (px - a.x) * (b.y - py) := mul_pos (by linarith) (by linarith)
        have t2 : 0 ≤ (px - b.x) * (py - a.y) :=
          mul_nonneg (by linarith) (by linarith [not_lt.mp h1])
        linarith
      intro h; linarith
    simp [h1, h2, hx]
  · simp [h1, h2]

/-- Along a chain of points to the right of `px` the parity compares the side
(above `py` or not) of the first and of the last point. -/
theorem chainParity_of_left (px py : α) (a : Point α) (l : List (Point α))
    (ha : px < a.x) (hl : ∀ q ∈ l, px < q.x) :
    chainParity px py a l = (decide (a.y > py) != decide ((l.getLastD a).y > py)) := by
  induction l generalizing a with
  | nil => simp [chainParity]
  | cons c t ih =>
    have hc : px < c.x := hl c (List.mem_cons_self c t)
    rw [chainParity, edgeCrosses_of_left px py c a hc ha,
      ih c hc (fun q hq => hl q (List.mem_cons_of_mem c hq)), List.getLastD_cons]
    cases decide (c.y > py) <;> cases decide (a.y > py) <;>
      cases decide ((t.getLastD c).y > py) <;> rfl

/-- A point strictly on one side of all vertices is outside the polygon. -/
theorem pointInPolygon_of_separated (px py : α) (polygon : List (Point α))
    (h : (∀ q ∈ polygon, px < q.x) ∨ (∀ q ∈ polygon, q.x < px) ∨
      (∀ q ∈ polygon, py < q.y) ∨ (∀ q ∈ polygon, q.y < py)) :
    pointInPolygon px py polygon = false := by
  rcases List.eq_nil_or_concat polygon with rfl | ⟨m, z, rfl⟩
  · rfl
  have hcc : m.concat z = m ++ [z] := by simp
  rw [hcc] at h ⊢
  rw [pointInPolygon_concat]
  have hz : z ∈ m ++ [z] := by simp
  rcases h with h | h | h | h
  · rw [chainParity_of_left px py z (m ++ [z]) (h z hz) h]
    simp
  · exact chainParity_false px py (fun q => q.x < px)
      (fun u v hu hv => edgeCrosses_of_right px py u v hu hv) z (m ++ [z]) (h z hz) h
  · refine chainParity_false px py (fun q => py < q.y) (fun u v hu hv => ?_) z (m ++ [z])
      (h z hz) h
    simp only [edgeCrosses, gt_iff_lt]
    simp [show py < u.y from hu, show py < v.y from hv]
  · refine chainParity_false px py (fun q => q.y < py) (fun u v hu hv => ?_) z (m ++ [z])
      (h z hz) h
    simp only [edgeCrosses, gt_iff_lt]
    simp [not_lt.mpr (le_of_lt (show u.y < py from hu)),
      not_lt.mpr (le_of_lt (show v.y < py from hv))]

/-- C6 (amended): over exact arithmetic, for every polygon (convex or not) and
every point outside its axis-aligned bounding box (`px < minX`, `px > maxX`,
`py < minY` or `py > maxY`), `pointInPolygon` is false. -/
theorem pointInPolygon_outside_bbox (px py : α) (polygon : List (Point α))
    (h : px < minX polygon ∨ maxX polygon < px ∨ py < minY polygon ∨ maxY polygon < py) :
    pointInPolygon px py polygon = false := by
  apply pointInPolygon_of_separated
  rcases h with h | h | h | h
  · exact Or.inl fun q hq => lt_of_lt_of_le h (minX_le polygon q hq)
  · exact Or.inr (Or.inl fun q hq => lt_of_le_of_lt (le_maxX polygon q hq) h)
  · exact Or.inr (Or.inr (Or.inl fun q hq => lt_of_lt_of_le h (minY_le polygon q hq)))
  · exact Or.inr (Or.inr (Or.inr fun q hq => lt_of_le_of_lt (le_maxY polygon q hq) h))

/-! ### distToSegment -/

/-- The squared distance from `p` to the point `a + t*(b-a)` as a polynomial in `t`. -/
theorem sqDist_param (px py x1 y1 dx dy t : ℝ) :
    (px - (x1 + t * dx)) * (px - (x1 + t * dx)) + (py - (y1 + t * dy)) * (py - (y1 + t * dy))
      = ((px - x1) * (px - x1) + (py - y1) * (py - y1))
        - 2 * t * ((px - x1) * dx + (py - y1) * dy) + t * t * (dx * dx + dy * dy) := by
  ring

/-- The clamped parameter minimises the squared distance over `[0,1]`. -/
theorem sqDist_clamp_le (A D L t : ℝ) (hL : 0 < L) (ht0 : 0 ≤ t) (ht1 : t ≤ 1) :
    A - 2 * (max 0 (min 1 (D / L))) * D + (max 0 (min 1 (D / L))) * (max 0 (min 1 (D / L))) * L
      ≤ A - 2 * t * D + t * t * L := by
  have hD : D = D / L * L := by field_simp
  rcases le_total (D / L) 0 with h0 | h0
  · have e : max 0 (min 1 (D / L)) = 0 := by
      rw [max_eq_left]; exact le_trans (min_le_right _ _) h0
    rw [e]
    have hD0 : D ≤ 0 := by
      rw [hD]; exact mul_nonpos_of_nonpos_of_nonneg h0 (le_of_lt hL)
    nlinarith [mul_nonneg ht0 (neg_nonneg.mpr hD0), mul_nonneg (mul_nonneg ht0 ht0) (le_of_lt hL)]
  · rcases le_total 1 (D / L) with h1 | h1
    · have e : max 0 (min 1 (D / L)) = 1 := by
        rw [min_eq_left h1, max_eq_right zero_le_one]
      rw [e]
      have hDL : L ≤ D := by
        rw [hD]; nlinarith
      nlinarith [mul_nonneg (sub_nonneg.mpr ht1) (sub_nonneg.mpr hDL),
        mul_nonneg (mul_nonneg (sub_nonneg.mpr ht1) (sub_nonneg.mpr ht1)) (le_of_lt hL)]
    · have e : max 0 (min 1 (D / L)) = D / L := by
        rw [min_eq_right h1, max_eq_right h0]
      rw [e]
      have key : A - 2 * t * D + t * t * L - (A - 2 * (D / L) * D + D / L * (D / L) * L)
          = L * ((t - D / L) * (t - D / L)) := by
        field_simp
        ring
      nlinarith [mul_nonneg (le_of_lt hL) (mul_self_nonneg (t - D / L))]

/-- The value of `distToSegment` on a segment of non-zero length. -/
theorem distToSegment_of_pos (px py x1 y1 x2 y2 : ℝ)
    (hz : ¬ (x2 - x1) * (x2 - x1) + (y2 - y1) * (y2 - y1) = 0) :
    distToSegment Real.sqrt px py x1 y1 x2 y2
      = Real.sqrt ((px - (x1 + max 0 (min 1 (((px - x1) * (x2 - x1) + (py - y1) * (y2 - y1))
            / ((x2 - x1) * (x2 - x1) + (y2 - y1) * (y2 - y1)))) * (x2 - x1))) ^ 2
          + (py - (y1 + max 0 (min 1 (((px - x1) * (x2 - x1) + (py - y1) * (y2 - y1))
            / ((x2 - x1) * (x2 - x1) + (y2 - y1) * (y2 - y1)))) * (y2 - y1))) ^ 2) := by
  simp only [distToSegment, if_neg hz, hypot, sq]

/-- The value of `distToSegment` on a segment of zero length. -/
theorem distToSegment_of_zero (px py x1 y1 x2 y2 : ℝ)
    (hz : (x2 - x1) * (x2 - x1) + (y2 - y1) * (y2 - y1) = 0) :
    distToSegment Real.sqrt px py x1 y1 x2 y2 = Real.sqrt ((px - x1) ^ 2 + (py - y1) ^ 2) := by
  simp only [distToSegment, if_pos hz, hypot, sq]

/-- The value `distToSegment(p, a, b)` is at most the distance from `p` to every
point `a + t*(b-a)` of the segment. -/
theorem distToSegment_le_param (px py x1 y1 x2 y2 t : ℝ) (ht0 : 0 ≤ t) (ht1 : t ≤ 1) :
    distToSegment Real.sqrt px py x1 y1 x2 y2
      ≤ Real.sqrt ((px - (x1 + t * (x2 - x1))) ^ 2 + (py - (y1 + t * (y2 - y1))) ^ 2) := by
  by_cases hz : (x2 - x1) * (x2 - x1) + (y2 - y1) * (y2 - y1) = 0
  · have hdx : x2 - x1 = 0 := by nlinarith [mul_self_nonneg (x2 - x1), mul_self_nonneg (y2 - y1)]
    have hdy : y2 - y1 = 0 := by nlinarith [mul_self_nonneg (x2 - x1), mul_self_nonneg (y2 - y1)]
    rw [distToSegment_of_zero px py x1 y1 x2 y2 hz, hdx, hdy]; simp
  · have hL : 0 < (x2 - x1) * (x2 - x1) + (y2 - y1) * (y2 - y1) :=
      lt_of_le_of_ne (add_nonneg (mul_self_nonneg _) (mul_self_nonneg _)) (Ne.symm hz)
    rw [distToSegment_of_pos px py x1 y1 x2 y2 hz]
    apply Real.sqrt_le_sqrt
    simp only [sq]
    rw [sqDist_param, sqDist_param]
    exact sqDist_clamp_le _ _ _ t hL ht0 ht1

/-- C8 (amended): over exact arithmetic (the reals, with the exact square root),
`distToSegment(p, a, b)` is the minimum over `t` in `[0,1]` of the
Euclidean distance from `p` to `a + t*(b-a)`: it is attained at some `t` in
`[0,1]` and is at most the distance at every `t` in `[0,1]`; when `a = b` it
is the Euclidean distance from `p` to `a`. -/
theorem distToSegment_min (px py x1 y1 x2 y2 : ℝ) :
    (∃ t : ℝ, 0 ≤ t ∧ t ≤ 1 ∧ distToSegment Real.sqrt px py x1 y1 x2 y2
        = Real.sqrt ((px - (x1 + t * (x2 - x1))) ^ 2 + (py - (y1 + t * (y2 - y1))) ^ 2)) ∧
    (∀ t : ℝ, 0 ≤ t → t ≤ 1 → distToSegment Real.sqrt px py x1 y1 x2 y2
        ≤ Real.sqrt ((px - (x1 + t * (x2 - x1))) ^ 2 + (py - (y1 + t * (y2 - y1))) ^ 2)) ∧
    (x1 = x2 → y1 = y2 → distToSegment Real.sqrt px py x1 y1 x2 y2
        = Real.sqrt ((px - x1) ^ 2 + (py - y1) ^ 2)) := by
  refine ⟨?_, fun t ht0 ht1 => distToSegment_le_param px py x1 y1 x2 y2 t ht0 ht1, ?_⟩
  · by_cases hz : (x2 - x1) * (x2 - x1) + (y2 - y1) * (y2 - y1) = 0
    · refine ⟨0, le_refl 0, zero_le_one, ?_⟩
      rw [distToSegment_of_zero px py x1 y1 x2 y2 hz]; simp
    · exact ⟨_, le_max_left _ _, max_le zero_le_one (min_le_left _ _),
        distToSegment_of_pos px py x1 y1 x2 y2 hz⟩
  · intro h1 h2
    exact distToSegment_of_zero px py x1 y1 x2 y2 (by rw [h1, h2]; ring)

/-! ### distToStroke -/

theorem distLoop_le_init (sqrt : α → α) (px py : α) (prev : Point α) (l : List (Point α))
    (m : WithTop α) : distLoop sqrt px py prev l m ≤ m := by
  induction l generalizing prev m with
  | nil => exact le_refl m
  | cons q rest ih => exact le_trans (ih q _) (min_le_left _ _)

theorem distLoop_le_segment (sqrt : α → α) (px py : α) (prev : Point α) (l : List (Point α))
    (m : WithTop α) (i : Nat) (h : i + 1 < (prev :: l).length) :
    distLoop sqrt px py prev l m
      ≤ ((distToSegment sqrt px py ((prev :: l)[i]).x ((prev :: l)[i]).y
          ((prev :: l)[i + 1]).x ((prev :: l)[i + 1]).y : α) : WithTop α) := by
  induction l generalizing prev m i with
  | nil => simp at h
  | cons q rest ih =>
    cases i with
    | zero =>
      exact le_trans (distLoop_le_init sqrt px py q rest _) (min_le_right _ _)
    | succ k =>
      have hk : k + 1 < (q :: rest).length := by
        simp only [List.length_cons] at h ⊢; omega
      exact ih q _ k hk

theorem distLoop_attained (sqrt : α → α) (px py : α) (prev : Point α) (l : List (Point α))
    (m : WithTop α) :
    distLoop sqrt px py prev l m = m ∨
      ∃ i, ∃ h : i + 1 < (prev :: l).length, distLoop sqrt px py prev l m
        = ((distToSegment sqrt px py ((prev :: l)[i]).x ((prev :: l)[i]).y
            ((prev :: l)[i + 1]).x ((prev :: l)[i + 1]).y : α) : WithTop α) := by
  induction l generalizing prev m with
  | nil => exact Or.inl rfl
  | cons q rest ih =>
    rcases ih q (min m ((distToSegment sqrt px py prev.x prev.y q.x q.y : α) : WithTop α))
      with h | ⟨i, hi, h⟩
    · rcases min_choice m ((distToSegment sqrt px py prev.x prev.y q.x q.y : α) : WithTop α)
        with hm | hm
      · left; rw [distLoop, h, hm]
      · right
        refine ⟨0, by simp, ?_⟩
        rw [distLoop, h, hm]
        rfl
    · right
      refine ⟨i + 1, by simp only [List.length_cons] at hi ⊢; omega, ?_⟩
      rw [distLoop, h]
      rfl

/-- The value of `distToStroke` on a stroke with at least two points. -/
theorem distToStroke_cons_cons (sqrt : α → α) (px py : α) (stroke : Stroke α)
    (q0 q1 : Point α) (rest : List (Point α)) (hpts : stroke.points = some (q0 :: q1 :: rest)) :
    distToStroke sqrt px py stroke = distLoop sqrt px py q0 (q1 :: rest) ⊤ := by
  simp [distToStroke, hpts]

/-- The value `distToStroke(p, stroke)` is at most the distance from `p` to every
segment of the stroke. -/
theorem distToStroke_le_segment (sqrt : α → α) (px py : α) (stroke : Stroke α)
    (pts : List (Point α)) (hpts : stroke.points = some pts) (i : Nat)
    (h : i + 1 < pts.length) :
    distToStroke sqrt px py stroke
      ≤ ((distToSegment sqrt px py (pts[i]).x (pts[i]).y (pts[i + 1]).x (pts[i + 1]).y : α)
          : WithTop α) := by
  rcases pts with _ | ⟨q0, _ | ⟨q1, rest⟩⟩
  · simp at h
  · simp at h
  · rw [distToStroke_cons_cons sqrt px py stroke q0 q1 rest hpts]
    exact distLoop_le_segment sqrt px py q0 (q1 :: rest) ⊤ i h

/-- C9: `distToStroke` is `Infinity` when the stroke has no points (field absent
or empty list), the distance to the single point when it has exactly one, and
otherwise the minimum of `distToSegment(p, points[i], points[i+1])` over all
consecutive pairs: the value is attained at one pair and is at most the value
at every pair. -/
theorem distToStroke_spec (sqrt : α → α) (px py : α) (stroke : Stroke α) :
    ((stroke.points = none ∨ stroke.points = some []) →
      distToStroke sqrt px py stroke = ⊤) ∧
    (∀ q : Point α, stroke.points = some [q] →
      distToStroke sqrt px py stroke = ((hypot sqrt (px - q.x) (py - q.y) : α) : WithTop α)) ∧
    (∀ pts : List (Point α), stroke.points = some pts → 2 ≤ pts.length →
      (∃ i, ∃ h : i + 1 < pts.length, distToStroke sqrt px py stroke
        = ((distToSegment sqrt px py (pts[i]).x (pts[i]).y (pts[i + 1]).x (pts[i + 1]).y : α)
            : WithTop α)) ∧
      (∀ i, ∀ h : i + 1 < pts.length, distToStroke sqrt px py stroke
        ≤ ((distToSegment sqrt px py (pts[i]).x (pts[i]).y (pts[i + 1]).x (pts[i + 1]).y : α)
            : WithTop α))) := by
  refine ⟨?_, ?_, ?_⟩
  · rintro (h | h) <;> simp [distToStroke, h]
  · intro q h
    simp [distToStroke, h]
  · intro pts hpts hlen
    refine ⟨?_, fun i h => distToStroke_le_segment sqrt px py stroke pts hpts i h⟩
    rcases pts with _ | ⟨q0, _ | ⟨q1, rest⟩⟩
    · simp at hlen
    · simp at hlen
    · rw [distToStroke_cons_cons sqrt px py stroke q0 q1 rest hpts]
      rcases distLoop_attained sqrt px py q0 (q1 :: rest) ⊤ with h | h
      · exfalso
        have h0 := distLoop_le_segment sqrt px py q0 (q1 :: rest) ⊤ 0 (by simp)
        rw [h] at h0
        exact WithTop.coe_ne_top (top_le_iff.mp h0)
      · exact h

/-- The distance to a segment is at most the distance to each of its end points. -/
theorem distToSegment_le_endpoints (px py x1 y1 x2 y2 : ℝ) :
    distToSegment Real.sqrt px py x1 y1 x2 y2 ≤ Real.sqrt ((px - x1) ^ 2 + (py - y1) ^ 2) ∧
    distToSegment Real.sqrt px py x1 y1 x2 y2 ≤ Real.sqrt ((px - x2) ^ 2 + (py - y2) ^ 2) := by
  constructor
  · have h0 := distToSegment_le_param px py x1 y1 x2 y2 0 (le_refl 0) zero_le_one
    simpa using h0
  · have h1 := distToSegment_le_param px py x1 y1 x2 y2 1 zero_le_one (le_refl 1)
    simpa using h1

/-- C10 (amended): over exact arithmetic (the reals, with the exact square
root), for a stroke with at least 2 points, `distToStroke(p, stroke)` is at
most the Euclidean distance from `p` to each point `points[k]` of the stroke. -/
theorem distToStroke_le_point (px py : ℝ) (stroke : Stroke ℝ) (pts : List (Point ℝ))
    (hpts : stroke.points = some pts) (hlen : 2 ≤ pts.length) (k : Nat) (hk : k < pts.length) :
    distToStroke Real.sqrt px py stroke
      ≤ ((Real.sqrt ((px - (pts[k]).x) ^ 2 + (py - (pts[k]).y) ^ 2) : ℝ) : WithTop ℝ) := by
  cases k with
  | zero =>
    refine le_trans (distToStroke_le_segment Real.sqrt px py stroke pts hpts 0 (by omega)) ?_
    exact WithTop.coe_le_coe.mpr (distToSegment_le_endpoints px py _ _ _ _).1
  | succ j =>
    refine le_trans (distToStroke_le_segment Real.sqrt px py stroke pts hpts j (by omega)) ?_
    exact WithTop.coe_le_coe.mpr (distToSegment_le_endpoints px py _ _ _ _).2

/-- C10 at `sampleStroke` and the point (10,5): the distance to the stroke is at
most the distance to its last point (20,0). -/
theorem distToStroke_le_point_witness :
    distToStroke Real.sqrt 10 5 sampleStroke
      ≤ ((Real.sqrt ((10 - 20) ^ 2 + (5 - 0) ^ 2) : ℝ) : WithTop ℝ) :=
  distToStroke_le_point 10 5 sampleStroke [⟨0, 0⟩, ⟨10, 0⟩, ⟨20, 0⟩] rfl (by simp) 2 (by simp)

/-- C6 at `squarePolygon` and the point (5,1), to the right of the bounding box. -/
theorem pointInPolygon_outside_bbox_witness :
    pointInPolygon (5 : ℚ) 1 squarePolygon = false :=
  pointInPolygon_outside_bbox 5 1 squarePolygon
    (Or.inr (Or.inl (by norm_num [maxX, squarePolygon, firstPoint])))

/-- The point (1,1) is inside `squarePolygon`: the containment test is not
constantly false. -/
theorem pointInPolygon_square_inside : pointInPolygon (1 : ℚ) 1 squarePolygon = true := by
  norm_num [pointInPolygon, pipLoop, edgeCrosses, squarePolygon]

/-- The distance from (10,5) to `sampleStroke` is 5. -/
theorem distToStroke_sample : distToStroke Real.sqrt 10 5 sampleStroke = ((5 : ℝ) : WithTop ℝ) := by
  have e25 : Real.sqrt 25 = 5 := real_sqrt_of_sq (by norm_num) (by norm_num)
  have e1 : distToSegment Real.sqrt 10 5 0 0 10 0 = 5 := by
    norm_num [distToSegment, hypot, e25]
  have e2 : distToSegment Real.sqrt 10 5 10 0 20 0 = 5 := by
    norm_num [distToSegment, hypot, e25]
  simp [distToStroke, sampleStroke, distLoop, e1, e2]

/-! ### Viewport transform and zoom -/

theorem jsOr_of_ne (x d : α) (h : x ≠ 0) : jsOr x d = x := by
  simp [jsOr, h]

theorem jsOr_zero (x : α) : jsOr x 0 = x := by
  unfold jsOr
  split_ifs with h
  · exact h.symm
  · rfl

theorem panX_of_some (props : CanvasProps α) (o : Point α) (ho : props.panOffset = some o) :
    panX props = o.x := by
  simp [panX, ho, jsOr_zero]

theorem panY_of_some (props : CanvasProps α) (o : Point α) (ho : props.panOffset = some o) :
    panY props = o.y := by
  simp [panY, ho, jsOr_zero]

/-- C14 (amended): over exact arithmetic, in the wheel-zoom branch, with old zoom
`z > 0`, old pan `o` and cursor `m` (relative to the canvas), the handler reports the new zoom
`nz = min(5, max(0.1, z - deltaY*0.005))` and a new pan under which the
logical point `(m - o)/z` maps back to `m`, in both axes. -/
theorem handleWheel_zoom_anchor (props : CanvasProps α) (e : WheelEvent α) (rect o : Point α)
    (hrect : props.canvasRect = some rect) (ho : props.panOffset = some o)
    (hz : 0 < props.zoom) (hbranch : e.ctrlKey = true ∨ |e.deltaY| < 50)
    (hzoom : props.onZoomChange = true) (hpan : props.onPanChange = true) :
    ∃ nz : α, ∃ newPan : Point α,
      handleWheel props e = [.preventDefault, .zoomChange nz, .panChange newPan] ∧
      nz = min 5 (max 0.1 (props.zoom - e.deltaY * 0.005)) ∧
      ((e.clientX - rect.x) - o.x) / props.zoom * nz + newPan.x = e.clientX - rect.x ∧
      ((e.clientY - rect.y) - o.y) / props.zoom * nz + newPan.y = e.clientY - rect.y := by
  have hz0 : props.zoom ≠ 0 := ne_of_gt hz
  refine ⟨min 5 (max 0.1 (props.zoom - e.deltaY * 0.005)),
    ⟨(e.clientX - rect.x) - ((e.clientX - rect.x) - o.x)
        * (min 5 (max 0.1 (props.zoom - e.deltaY * 0.005)) / props.zoom),
      (e.clientY - rect.y) - ((e.clientY - rect.y) - o.y)
        * (min 5 (max 0.1 (props.zoom - e.deltaY * 0.005)) / props.zoom)⟩, ?_, rfl, ?_, ?_⟩
  · simp only [handleWheel, hrect, if_pos hbranch, hzoom, hpan, if_true,
      panX_of_some props o ho, panY_of_some props o ho, jsOr_of_ne props.zoom 1 hz0]
    rfl
  · field_simp
  · field_simp

/-- C14 at zoom 1, pan (0,0), cursor (100,50) and wheel delta -20. -/
theorem handleWheel_zoom_anchor_witness :
    ∃ nz : ℝ, ∃ newPan : Point ℝ,
      handleWheel baseProps ⟨100, 50, 0, -20, false⟩
        = [.preventDefault, .zoomChange nz, .panChange newPan] ∧
      nz = min 5 (max 0.1 (baseProps.zoom - (-20) * 0.005)) ∧
      ((100 - 0) - 0) / baseProps.zoom * nz + newPan.x = 100 - 0 ∧
      ((50 - 0) - 0) / baseProps.zoom * nz + newPan.y = 50 - 0 :=
  handleWheel_zoom_anchor baseProps ⟨100, 50, 0, -20, false⟩ ⟨0, 0⟩ ⟨0, 0⟩ rfl rfl
    (by norm_num [baseProps]) (Or.inr (by norm_num)) rfl rfl

/-- The clamp of the wheel-zoom branch lies in `[0.1, 5]`. -/
theorem zoom_clamp_bounds (x : α) : (0.1 : α) ≤ min 5 (max 0.1 x) ∧ min 5 (max 0.1 x) ≤ 5 :=
  ⟨le_min (by norm_num) (le_max_left _ _), min_le_left _ _⟩

/-- The zoom after a wheel event on the page is the old zoom or a clamped value. -/
theorem wheelView_zoom (props : CanvasProps α) (v : ViewState α) (e : WheelEvent α) :
    (wheelView props v e).zoom = v.zoom ∨
      ∃ x : α, (wheelView props v e).zoom = min 5 (max 0.1 x) := by
  unfold wheelView handleWheel
  cases hrect : props.canvasRect with
  | none => left; simp [hrect]
  | some rect =>
    by_cases hb : e.ctrlKey = true ∨ |e.deltaY| < 50
    · right
      exact ⟨jsOr v.zoom 1 - e.deltaY * 0.005, by simp [hrect, hb, applyViewEffect]⟩
    · left
      simp [hrect, hb, applyViewEffect]

/-- C15: every zoom value a wheel-zoom reports lies in `[0.1, 5]`, and from a
zoom in `[0.1, 5]` every sequence of zoom-in, zoom-out, zoom-reset and wheel
operations leaves the zoom in `[0.1, 5]`. -/
theorem zoom_stays_in_bounds :
    (∀ (props : CanvasProps α) (e : WheelEvent α) (z : α),
      Effect.zoomChange z ∈ handleWheel props e → 0.1 ≤ z ∧ z ≤ 5) ∧
    (∀ (ops : List (ViewOp α)) (v : ViewState α), 0.1 ≤ v.zoom → v.zoom ≤ 5 →
      0.1 ≤ (ops.foldl applyViewOp v).zoom ∧ (ops.foldl applyViewOp v).zoom ≤ 5) := by
  constructor
  · intro props e z hmem
    unfold handleWheel at hmem
    cases hrect : props.canvasRect with
    | none => simp [hrect] at hmem
    | some rect =>
      by_cases hb : e.ctrlKey = true ∨ |e.deltaY| < 50
      · by_cases hzc : props.onZoomChange = true <;> by_cases hpc : props.onPanChange = true <;>
          simp [hrect, hb, hzc, hpc] at hmem
        all_goals (subst hmem; exact zoom_clamp_bounds _)
      · by_cases hpc : props.onPanChange = true <;> simp [hrect, hb, hpc] at hmem
  · intro ops
    induction ops with
    | nil => intro v h1 h2; exact ⟨h1, h2⟩
    | cons op rest ih =>
      intro v h1 h2
      rw [List.foldl_cons]
      apply ih
      · cases op with
        | zoomIn =>
          show (0.1 : α) ≤ min 5 (v.zoom + 0.2)
          exact le_min (by norm_num) (by linarith)
        | zoomOut => exact le_max_left _ _
        | zoomReset => simp only [applyViewOp, handleZoomReset]; norm_num
        | wheel props e =>
          rcases wheelView_zoom props v e with h | ⟨x, h⟩
          · simp only [applyViewOp]; rw [h]; exact h1
          · simp only [applyViewOp]; rw [h]; exact (zoom_clamp_bounds x).1
      · cases op with
        | zoomIn => exact min_le_left _ _
        | zoomOut =>
          show max 0.1 (v.zoom - 0.2) ≤ (5 : α)
          exact max_le (by norm_num) (by linarith)
        | zoomReset => simp only [applyViewOp, handleZoomReset]; norm_num
        | wheel props e =>
          rcases wheelView_zoom props v e with h | ⟨x, h⟩
          · simp only [applyViewOp]; rw [h]; exact h2
          · simp only [applyViewOp]; rw [h]; exact (zoom_clamp_bounds x).2

/-- C16 (amended): over exact arithmetic, with canvas origin `rect`, pan offset
`o` and zoom `z > 0`, `screenToCanvas` is `((client - rect) - o) / z`; it is the inverse of the render
transform `logical * z + o`: a pointer position mapped to logical coordinates
and back gives the same position within the canvas, and a logical point mapped
to the screen and back gives the same logical point. -/
theorem screenToCanvas_inverse (props : CanvasProps α) (rect o : Point α)
    (hrect : props.canvasRect = some rect) (ho : props.panOffset = some o)
    (hz : 0 < props.zoom) :
    (∀ cx cy : α, screenToCanvas props cx cy
      = ⟨((cx - rect.x) - o.x) / props.zoom, ((cy - rect.y) - o.y) / props.zoom⟩) ∧
    (∀ p : Point α, canvasToScreen props p = ⟨p.x * props.zoom + o.x, p.y * props.zoom + o.y⟩) ∧
    (∀ cx cy : α, canvasToScreen props (screenToCanvas props cx cy)
      = ⟨cx - rect.x, cy - rect.y⟩) ∧
    (∀ p : Point α, screenToCanvas props ((canvasToScreen props p).x + rect.x)
      ((canvasToScreen props p).y + rect.y) = p) := by
  have hz0 : props.zoom ≠ 0 := ne_of_gt hz
  have h1 : ∀ cx cy : α, screenToCanvas props cx cy
      = ⟨((cx - rect.x) - o.x) / props.zoom, ((cy - rect.y) - o.y) / props.zoom⟩ := by
    intro cx cy
    simp only [screenToCanvas, hrect, panX_of_some props o ho, panY_of_some props o ho,
      jsOr_of_ne props.zoom 1 hz0]
  have h2 : ∀ p : Point α, canvasToScreen props p
      = ⟨p.x * props.zoom + o.x, p.y * props.zoom + o.y⟩ := by
    intro p
    simp only [canvasToScreen, panX_of_some props o ho, panY_of_some props o ho,
      jsOr_of_ne props.zoom 1 hz0]
  refine ⟨h1, h2, fun cx cy => ?_, fun p => ?_⟩
  · rw [h1, h2]
    congr 1 <;> field_simp
  · rw [h2, h1]
    cases p with
    | mk px py =>
      congr 1 <;> field_simp

/-- C16 at `zoomedProps` (zoom 2, pan (10,20), canvas origin (5,5)) and the
pointer at (105,65): the logical position is (45,20). -/
theorem screenToCanvas_inverse_witness : screenToCanvas zoomedProps 105 65 = ⟨45, 20⟩ := by
  rw [(screenToCanvas_inverse zoomedProps ⟨5, 5⟩ ⟨10, 20⟩ rfl rfl
    (by norm_num [zoomedProps, baseProps])).1 105 65]
  norm_num [zoomedProps, baseProps]

/-! ### Eraser hit-test -/

omit [LinearOrderedField α] in
theorem erasedIds_append (a b : List (Effect α)) :
    erasedIds (a ++ b) = erasedIds a ++ erasedIds b := by
  simp [erasedIds, List.filterMap_append]

omit [LinearOrderedField α] in
theorem erasedIds_map_eraseStroke (l : List (Stroke α)) :
    erasedIds (l.map fun s => (Effect.eraseStroke s.id : Effect α)) = l.map fun s => s.id := by
  induction l with
  | nil => rfl
  | cons a t ih =>
    simp only [List.map_cons]
    rw [← ih]
    rfl

/-- The erase calls of one eraser hit-test, in terms of the radius `3 * brushSize`. -/
theorem erasedIds_eraseEffects (sqrt : α → α) (props : CanvasProps α) (pos : Point α)
    (hcb : props.onEraseStroke = true) (hb : 0 < props.brushSize) :
    erasedIds (eraseEffects sqrt props pos)
      = (props.drawingLayer.filter fun s =>
          decide (s.type ≠ StrokeType.eraser ∧
            distToStroke sqrt pos.x pos.y s < ((3 * props.brushSize : α) : WithTop α))).map
          fun s => s.id := by
  have hr : jsOr props.brushSize 3 * 3 = 3 * props.brushSize := by
    rw [jsOr_of_ne props.brushSize 3 (ne_of_gt hb), mul_comm]
  simp only [eraseEffects, hcb, if_true, eraserHits, hr]
  rw [erasedIds_map_eraseStroke]
  congr 2
  funext s
  by_cases h1 : s.type = StrokeType.eraser <;> simp [h1]

/-- The eraser branch of `handlePointerDown` is reached when no box is hit. -/
theorem handlePointerDown_eraser (sqrt : α → α) (props : CanvasProps α) (st : CanvasState α)
    (e : PointerEvent α) (hen : props.disabled = false) (htool : props.tool = some .eraser)
    (hbox : ∀ el, hitTestTextLayer props.textLayer (screenToCanvas props e.clientX e.clientY)
      = some el → el.type ≠ .box) :
    (handlePointerDown sqrt props st e).2
      = [.preventDefault] ++ eraseEffects sqrt props (screenToCanvas props e.clientX e.clientY)
          ++ [.scheduleRedraw] := by
  have hf : (hitTestTextLayer props.textLayer (screenToCanvas props e.clientX e.clientY)).filter
      (fun el => el.type = .box) = none := by
    cases h : hitTestTextLayer props.textLayer (screenToCanvas props e.clientX e.clientY) with
    | none => rfl
    | some el => simp [Option.filter, hbox el h]
  simp [handlePointerDown, hen, htool, hf]

/-- The eraser branch of `handlePointerMove` is reached while a gesture is
active and no element or group drag is in progress. -/
theorem handlePointerMove_eraser (sqrt : α → α) (props : CanvasProps α) (st : CanvasState α)
    (e : PointerEvent α) (hen : props.disabled = false) (htool : props.tool = some .eraser)
    (hdraw : st.isDrawing = true) (hgroup : st.templateGroupDrag = none)
    (hdrag : st.draggingElement = none) :
    (handlePointerMove sqrt props st e).2
      = [.preventDefault] ++ eraseEffects sqrt props (screenToCanvas props e.clientX e.clientY)
          ++ [.scheduleRedraw] := by
  simp [handlePointerMove, hen, htool, hdraw, hgroup, hdrag]

/-- A pointer-down with the eraser tool that lands on a box element does not
invoke the erase callback. -/
theorem handlePointerDown_on_box (sqrt : α → α) (props : CanvasProps α) (st : CanvasState α)
    (e : PointerEvent α) (el : Element α) (htool : props.tool = some .eraser)
    (hhit : hitTestTextLayer props.textLayer (screenToCanvas props e.clientX e.clientY)
      = some el) (hbox : el.type = .box) :
    erasedIds (handlePointerDown sqrt props st e).2 = [] := by
  have hf : (hitTestTextLayer props.textLayer (screenToCanvas props e.clientX e.clientY)).filter
      (fun el => el.type = .box) = some el := by
    simp [hhit, Option.filter, hbox]
  unfold handlePointerDown
  by_cases hd : props.disabled = true
  · simp [hd, erasedIds]
  · simp only [hd, htool, hf]
    split_ifs <;> first | rfl | (split <;> rfl)

/-- C11 (amended): with the eraser tool, input enabled, the erase callback
supplied and brush size `b > 0`: a pointer-down that does not land on a box
element of the text layer, and a pointer-move during an active gesture with no
element or group drag in progress, invoke the erase callback exactly for the
strokes of the drawing layer (in layer order) that are not eraser-typed and
whose `distToStroke` from the pointer position is strictly less than `3*b`. -/
theorem eraser_hit_test (sqrt : α → α) (props : CanvasProps α) (st : CanvasState α)
    (e : PointerEvent α) (hen : props.disabled = false) (htool : props.tool = some .eraser)
    (hcb : props.onEraseStroke = true) (hb : 0 < props.brushSize) :
    ((∀ el, hitTestTextLayer props.textLayer (screenToCanvas props e.clientX e.clientY)
        = some el → el.type ≠ .box) →
      erasedIds (handlePointerDown sqrt props st e).2
        = (props.drawingLayer.filter fun s =>
            decide (s.type ≠ StrokeType.eraser ∧
              distToStroke sqrt (screenToCanvas props e.clientX e.clientY).x
                (screenToCanvas props e.clientX e.clientY).y s
                < ((3 * props.brushSize : α) : WithTop α))).map fun s => s.id) ∧
    (st.isDrawing = true → st.templateGroupDrag = none → st.draggingElement = none →
      erasedIds (handlePointerMove sqrt props st e).2
        = (props.drawingLayer.filter fun s =>
            decide (s.type ≠ StrokeType.eraser ∧
              distToStroke sqrt (screenToCanvas props e.clientX e.clientY).x
                (screenToCanvas props e.clientX e.clientY).y s
                < ((3 * props.brushSize : α) : WithTop α))).map fun s => s.id) := by
  constructor
  · intro hbox
    rw [handlePointerDown_eraser sqrt props st e hen htool hbox, erasedIds_append,
      erasedIds_append, erasedIds_eraseEffects sqrt props _ hcb hb]
    simp [erasedIds]
  · intro hdraw hgroup hdrag
    rw [handlePointerMove_eraser sqrt props st e hen htool hdraw hgroup hdrag, erasedIds_append,
      erasedIds_append, erasedIds_eraseEffects sqrt props _ hcb hb]
    simp [erasedIds]

/-- The pointer position of `originEvent` under `eraserProps` is the origin, and
the distances of the three strokes of the layer from it are 0, 9 and 100. -/
theorem eraserProps_eval :
    screenToCanvas eraserProps originEvent.clientX originEvent.clientY = ⟨0, 0⟩ ∧
      distToStroke Real.sqrt 0 0 dotStroke = ((0 : ℝ) : WithTop ℝ) ∧
      distToStroke Real.sqrt 0 0 rimStroke = ((9 : ℝ) : WithTop ℝ) ∧
      distToStroke Real.sqrt 0 0 farStroke = ((100 : ℝ) : WithTop ℝ) := by
  have e81 : Real.sqrt 81 = 9 := real_sqrt_of_sq (by norm_num) (by norm_num)
  have e10000 : Real.sqrt 10000 = 100 := real_sqrt_of_sq (by norm_num) (by norm_num)
  refine ⟨?_, ?_, ?_, ?_⟩
  · norm_num [screenToCanvas, eraserProps, baseProps, originEvent, panX, panY, jsOr]
  · simp [distToStroke, dotStroke, hypot]
  · norm_num [distToStroke, rimStroke, hypot, e81]
  · norm_num [distToStroke, farStroke, hypot, e10000]

/-- C11 (amended) at `eraserProps` (brush size 3, radius 9) and a pointer-down at
the origin: only the stroke at distance 0 is erased; the stroke at distance
exactly 9 and the stroke at distance 100 are not. -/
theorem eraser_hit_test_witness :
    erasedIds (handlePointerDown Real.sqrt eraserProps idleState originEvent).2 = ["dot"] := by
  obtain ⟨hpos, h0, h9, h100⟩ := eraserProps_eval
  have h := (eraser_hit_test Real.sqrt eraserProps idleState originEvent rfl rfl rfl
    (by norm_num [eraserProps, baseProps])).1
    (by intro el hel; simp [hitTestTextLayer, eraserProps, baseProps] at hel)
  have hb : eraserProps.brushSize = 3 := rfl
  have hl : eraserProps.drawingLayer = [dotStroke, rimStroke, farStroke] := rfl
  rw [h]
  have hA : dotStroke.type ≠ StrokeType.eraser ∧
      ((0 : ℝ) : WithTop ℝ) < ((3 * 3 : ℝ) : WithTop ℝ) :=
    ⟨by simp [dotStroke], WithTop.coe_lt_coe.mpr (by norm_num)⟩
  have hB : ¬ (rimStroke.type ≠ StrokeType.eraser ∧
      ((9 : ℝ) : WithTop ℝ) < ((3 * 3 : ℝ) : WithTop ℝ)) := by
    intro hh
    have h' := WithTop.coe_lt_coe.mp hh.2
    norm_num at h'
  have hC : ¬ (farStroke.type ≠ StrokeType.eraser ∧
      ((100 : ℝ) : WithTop ℝ) < ((3 * 3 : ℝ) : WithTop ℝ)) := by
    intro hh
    have h' := WithTop.coe_lt_coe.mp hh.2
    norm_num at h'
  simp only [hpos, hb, hl, List.filter_cons, List.filter_nil, h0, h9, h100, hA, hB, hC,
    decide_True, decide_False, if_true, if_false, List.map_cons, List.map_nil]
  rfl

/-- C11 (as stated) fails at `eraserOverBoxProps`: the tool is the eraser, the
stroke `dotStroke` of the layer is not eraser-typed and at distance 0 < 9 from
the pointer position, but the pointer-down lands on a box element and the
erase callback is not invoked. -/
theorem eraser_over_box_counterexample :
    eraserOverBoxProps.tool = some .eraser ∧
      screenToCanvas eraserOverBoxProps originEvent.clientX originEvent.clientY = ⟨0, 0⟩ ∧
      dotStroke ∈ eraserOverBoxProps.drawingLayer ∧ dotStroke.type ≠ StrokeType.eraser ∧
      distToStroke Real.sqrt 0 0 dotStroke
        < ((3 * eraserOverBoxProps.brushSize : ℝ) : WithTop ℝ) ∧
      erasedIds (handlePointerDown Real.sqrt eraserOverBoxProps idleState originEvent).2
        = [] := by
  have hpos : screenToCanvas eraserOverBoxProps originEvent.clientX originEvent.clientY
      = ⟨0, 0⟩ := by
    norm_num [screenToCanvas, eraserOverBoxProps, eraserProps, baseProps, originEvent, panX,
      panY, jsOr]
  have hhit : hitTestTextLayer eraserOverBoxProps.textLayer (⟨0, 0⟩ : Point ℝ)
      = some coverBox := by
    norm_num [hitTestTextLayer, eraserOverBoxProps, hitsElement, coverBox, jsOr]
  refine ⟨rfl, hpos, ?_, ?_, ?_, ?_⟩
  · simp [eraserOverBoxProps, eraserProps]
  · simp [dotStroke]
  · rw [eraserProps_eval.2.1]
    norm_num [eraserOverBoxProps, eraserProps, baseProps]
  · exact handlePointerDown_on_box Real.sqrt eraserOverBoxProps idleState originEvent coverBox
      rfl (by rw [hpos, hhit]) rfl

/-! ### Lasso selection -/

/-- A stroke is inside the lasso exactly when it has a point that
`pointInPolygon` accepts. -/
theorem strokeInsideLasso_iff (s : Stroke α) (polygon : List (Point α)) :
    strokeInsideLasso s polygon = true
      ↔ ∃ pts, s.points = some pts ∧ ∃ p ∈ pts, pointInPolygon p.x p.y polygon = true := by
  unfold strokeInsideLasso
  cases h : s.points with
  | none => simp
  | some pts =>
    cases pts with
    | nil => simp
    | cons a t => simp

/-- The lasso branch of `handlePointerUp` with a polygon of at least 4 points. -/
theorem handlePointerUp_lasso (sqrt : α → α) (pi : α) (props : CanvasProps α)
    (st : CanvasState α) (e : PointerEvent α) (polygon : List (Point α))
    (hen : props.disabled = false) (htool : props.tool = some .lasso)
    (hdrag : st.draggingElement = none) (hgroup : st.templateGroupDrag = none)
    (hdraw : st.isDrawing = true) (hsel : st.isDraggingSelection = false)
    (hpath : st.lassoPath = some polygon) (hlen : 4 ≤ polygon.length) :
    (handlePointerUp sqrt pi props st e).1.selectedIds = lassoInside props.drawingLayer polygon ∧
    (lassoInside props.drawingLayer polygon ≠ [] →
      (handlePointerUp sqrt pi props st e).1.selectionBounds
        = some (selectionBoundsOf props.drawingLayer
            (lassoInside props.drawingLayer polygon))) := by
  have hl : polygon.length > 3 := by omega
  constructor
  · by_cases hin : (lassoInside props.drawingLayer polygon).length > 0
    · simp [handlePointerUp, hen, htool, hdrag, hgroup, hdraw, hsel, hpath, hl, hin]
    · simp [handlePointerUp, hen, htool, hdrag, hgroup, hdraw, hsel, hpath, hl, hin]
  · intro hne
    have hin : (lassoInside props.drawingLayer polygon).length > 0 :=
      List.length_pos.mpr hne
    simp [handlePointerUp, hen, htool, hdrag, hgroup, hdraw, hsel, hpath, hl, hin]

/-- C12: on pointer-up of a lasso gesture (not a selection drag) whose polygon
has at least 4 points, the new selection is the list of ids, in layer order, of
the strokes of the drawing layer that `strokeInsideLasso` accepts, and those
are exactly the strokes with at least one point inside the polygon; a stroke
with no point inside, or with no points, is not selected. -/
theorem lasso_selection (sqrt : α → α) (pi : α) (props : CanvasProps α)
    (st : CanvasState α) (e : PointerEvent α) (polygon : List (Point α))
    (hen : props.disabled = false) (htool : props.tool = some .lasso)
    (hdrag : st.draggingElement = none) (hgroup : st.templateGroupDrag = none)
    (hdraw : st.isDrawing = true) (hsel : st.isDraggingSelection = false)
    (hpath : st.lassoPath = some polygon) (hlen : 4 ≤ polygon.length) :
    (handlePointerUp sqrt pi props st e).1.selectedIds
        = (props.drawingLayer.filter fun s => strokeInsideLasso s polygon).map (fun s => s.id) ∧
    (∀ s : Stroke α, strokeInsideLasso s polygon = true
      ↔ ∃ pts, s.points = some pts ∧ ∃ p ∈ pts, pointInPolygon p.x p.y polygon = true) ∧
    (∀ s : Stroke α, (s.points = none ∨ s.points = some []) →
      strokeInsideLasso s polygon = false) :=
  ⟨(handlePointerUp_lasso sqrt pi props st e polygon hen htool hdrag hgroup hdraw hsel hpath
      hlen).1,
    fun s => strokeInsideLasso_iff s polygon,
    fun s h => by rcases h with h | h <;> simp [strokeInsideLasso, h]⟩

omit [LinearOrderedField α] in
theorem foldl_min_attained {β : Type} [LinearOrder β] (f : Point α → β) (l : List (Point α))
    (m : β) :
    l.foldl (fun a p => min a (f p)) m = m ∨ ∃ p ∈ l, l.foldl (fun a p => min a (f p)) m = f p := by
  induction l generalizing m with
  | nil => exact Or.inl rfl
  | cons a t ih =>
    rcases ih (min m (f a)) with h | ⟨p, hp, h⟩
    · rcases min_choice m (f a) with hm | hm
      · left; rw [List.foldl_cons, h, hm]
      · right; exact ⟨a, List.mem_cons_self a t, by rw [List.foldl_cons, h, hm]⟩
    · right; exact ⟨p, List.mem_cons_of_mem a hp, by rw [List.foldl_cons, h]⟩

/-- On a non-empty list `minX` is the x coordinate of one of the points. -/
theorem minX_attained (points : List (Point α)) (hne : points ≠ []) :
    ∃ p ∈ points, p.x = minX points := by
  rcases points with _ | ⟨a, t⟩
  · exact absurd rfl hne
  rcases foldl_min_attained (fun q => q.x) (a :: t) a.x with h | ⟨p, hp, h⟩
  · exact ⟨a, List.mem_cons_self a t, h.symm⟩
  · exact ⟨p, hp, h.symm⟩

/-- On a non-empty list `minY` is the y coordinate of one of the points. -/
theorem minY_attained (points : List (Point α)) (hne : points ≠ []) :
    ∃ p ∈ points, p.y = minY points := by
  rcases points with _ | ⟨a, t⟩
  · exact absurd rfl hne
  rcases foldl_min_attained (fun q => q.y) (a :: t) a.y with h | ⟨p, hp, h⟩
  · exact ⟨a, List.mem_cons_self a t, h.symm⟩
  · exact ⟨p, hp, h.symm⟩

/-- On a non-empty list `maxX` is the x coordinate of one of the points. -/
theorem maxX_attained (points : List (Point α)) (hne : points ≠ []) :
    ∃ p ∈ points, p.x = maxX points := by
  rcases points with _ | ⟨a, t⟩
  · exact absurd rfl hne
  rcases foldl_max_attained (fun q => q.x) (a :: t) a.x with h | ⟨p, hp, h⟩
  · exact ⟨a, List.mem_cons_self a t, h.symm⟩
  · exact ⟨p, hp, h.symm⟩

/-- On a non-empty list `maxY` is the y coordinate of one of the points. -/
theorem maxY_attained (points : List (Point α)) (hne : points ≠ []) :
    ∃ p ∈ points, p.y = maxY points := by
  rcases points with _ | ⟨a, t⟩
  · exact absurd rfl hne
  rcases foldl_max_attained (fun q => q.y) (a :: t) a.y with h | ⟨p, hp, h⟩
  · exact ⟨a, List.mem_cons_self a t, h.symm⟩
  · exact ⟨p, hp, h.symm⟩

omit [LinearOrderedField α] in
theorem contains_iff_mem_ids (l : List String) (a : String) :
    l.contains a = true ↔ a ∈ l := by
  simp

/-- With distinct ids in the layer, the points the bounds loop visits are the
points of the strokes with a point inside the polygon. -/
theorem mem_selectionPoints (drawingLayer : List (Stroke α)) (polygon : List (Point α))
    (hnodup : (drawingLayer.map fun s => s.id).Nodup) (p : Point α) :
    p ∈ selectionPoints drawingLayer (lassoInside drawingLayer polygon)
      ↔ IsSelectedPoint drawingLayer polygon p := by
  unfold selectionPoints IsSelectedPoint lassoInside
  simp only [List.mem_flatMap, List.mem_filter, contains_iff_mem_ids, List.mem_map]
  constructor
  · rintro ⟨s, ⟨hs, s', ⟨hs', hin⟩, hid⟩, hp⟩
    have heq : s' = s := List.inj_on_of_nodup_map hnodup hs' hs hid
    subst heq
    cases hpts : s'.points with
    | none => simp [hpts] at hp
    | some pts => exact ⟨s', hs, hin, pts, hpts, by simpa [hpts] using hp⟩
  · rintro ⟨s, hs, hin, pts, hpts, hp⟩
    exact ⟨s, ⟨hs, s, ⟨hs, hin⟩, rfl⟩, by simpa [hpts] using hp⟩

/-- When the selection is not empty the bounds loop visits at least one point
(the minima and maxima do not stay at `Infinity` and `-Infinity`). -/
theorem selectionPoints_ne_nil (drawingLayer : List (Stroke α)) (polygon : List (Point α))
    (hne : lassoInside drawingLayer polygon ≠ []) :
    selectionPoints drawingLayer (lassoInside drawingLayer polygon) ≠ [] := by
  obtain ⟨i, hi⟩ := List.exists_mem_of_ne_nil _ hne
  have hi' := hi
  unfold lassoInside at hi'
  simp only [List.mem_map, List.mem_filter] at hi'
  obtain ⟨s, ⟨hs, hin⟩, hid⟩ := hi'
  obtain ⟨pts, hpts, p, hp, -⟩ := (strokeInsideLasso_iff s polygon).mp hin
  have hmem : p ∈ selectionPoints drawingLayer (lassoInside drawingLayer polygon) := by
    unfold selectionPoints
    simp only [List.mem_flatMap, List.mem_filter, contains_iff_mem_ids]
    exact ⟨s, ⟨hs, by rw [hid]; exact hi⟩, by simpa [hpts] using hp⟩
  exact List.ne_nil_of_mem hmem

/-- C13 (amended): over exact arithmetic, on pointer-up of a lasso gesture that
selects at least one stroke, in a layer with distinct stroke ids, the selection bounds `{x, y, w, h}` are the
tight bounding box of the points of the selected strokes: every such point
lies in `[x, x+w] x [y, y+h]`, and each of the four sides `x`, `x+w`, `y`,
`y+h` is the coordinate of one such point. -/
theorem lasso_selection_bounds (sqrt : α → α) (pi : α) (props : CanvasProps α)
    (st : CanvasState α) (e : PointerEvent α) (polygon : List (Point α))
    (hen : props.disabled = false) (htool : props.tool = some .lasso)
    (hdrag : st.draggingElement = none) (hgroup : st.templateGroupDrag = none)
    (hdraw : st.isDrawing = true) (hsel : st.isDraggingSelection = false)
    (hpath : st.lassoPath = some polygon) (hlen : 4 ≤ polygon.length)
    (hne : (props.drawingLayer.filter fun s => strokeInsideLasso s polygon) ≠ [])
    (hnodup : (props.drawingLayer.map fun s => s.id).Nodup) :
    ∃ b : Bounds α, (handlePointerUp sqrt pi props st e).1.selectionBounds = some b ∧
      (∀ p, IsSelectedPoint props.drawingLayer polygon p →
        b.x ≤ p.x ∧ p.x ≤ b.x + b.w ∧ b.y ≤ p.y ∧ p.y ≤ b.y + b.h) ∧
      (∃ p, IsSelectedPoint props.drawingLayer polygon p ∧ p.x = b.x) ∧
      (∃ p, IsSelectedPoint props.drawingLayer polygon p ∧ p.x = b.x + b.w) ∧
      (∃ p, IsSelectedPoint props.drawingLayer polygon p ∧ p.y = b.y) ∧
      (∃ p, IsSelectedPoint props.drawingLayer polygon p ∧ p.y = b.y + b.h) := by
  have hne' : lassoInside props.drawingLayer polygon ≠ [] := by
    unfold lassoInside
    simpa using hne
  have hpts := selectionPoints_ne_nil props.drawingLayer polygon hne'
  have hmem := mem_selectionPoints props.drawingLayer polygon hnodup
  refine ⟨selectionBoundsOf props.drawingLayer (lassoInside props.drawingLayer polygon),
    (handlePointerUp_lasso sqrt pi props st e polygon hen htool hdrag hgroup hdraw hsel hpath
      hlen).2 hne', ?_, ?_, ?_, ?_, ?_⟩
  · intro p hp
    have hp' := (hmem p).mpr hp
    simp only [selectionBoundsOf]
    refine ⟨minX_le _ p hp', ?_, minY_le _ p hp', ?_⟩
    · have := le_maxX _ p hp'; linarith
    · have := le_maxY _ p hp'; linarith
  · obtain ⟨p, hp, h⟩ := minX_attained _ hpts
    exact ⟨p, (hmem p).mp hp, h⟩
  · obtain ⟨p, hp, h⟩ := maxX_attained _ hpts
    exact ⟨p, (hmem p).mp hp, by simp only [selectionBoundsOf]; rw [h]; ring⟩
  · obtain ⟨p, hp, h⟩ := minY_attained _ hpts
    exact ⟨p, (hmem p).mp hp, h⟩
  · obtain ⟨p, hp, h⟩ := maxY_attained _ hpts
    exact ⟨p, (hmem p).mp hp, by simp only [selectionBoundsOf]; rw [h]; ring⟩

/-- The strokes of `lassoLayer` that `lassoSquare` selects are `a`, `b` and `c`. -/
theorem lassoLayer_inside : lassoInside lassoLayer lassoSquare = ["a", "b", "c"] := by
  norm_num [lassoInside, lassoLayer, lassoSquare, strokeInsideLasso, pointInPolygon, pipLoop,
    edgeCrosses]

/-- C12 at the scenario `lassoProps`, `lassoState`: the square lasso selects the
three strokes with a point inside it and not the fourth. -/
theorem lasso_selection_witness :
    (handlePointerUp Real.sqrt Real.pi lassoProps lassoState originEvent).1.selectedIds
      = ["a", "b", "c"] := by
  rw [(lasso_selection Real.sqrt Real.pi lassoProps lassoState originEvent lassoSquare
    rfl rfl rfl rfl rfl rfl rfl (by simp [lassoSquare])).1]
  exact lassoLayer_inside

/-- C13 at the scenario `lassoProps`, `lassoState`: the selection bounds are
`{x: 10, y: 10, w: 240, h: 290}`, the extent of the three selected strokes. -/
theorem lasso_selection_bounds_witness :
    (handlePointerUp Real.sqrt Real.pi lassoProps lassoState originEvent).1.selectionBounds
      = some ⟨10, 10, 240, 290⟩ := by
  have hne : (lassoProps.drawingLayer.filter fun s => strokeInsideLasso s lassoSquare) ≠ [] := by
    intro h
    have h2 := lassoLayer_inside
    unfold lassoInside at h2
    have h3 : lassoProps.drawingLayer = lassoLayer := rfl
    rw [h3] at h
    rw [h] at h2
    simp at h2
  obtain ⟨b, hb, -⟩ := lasso_selection_bounds Real.sqrt Real.pi lassoProps lassoState
    originEvent lassoSquare rfl rfl rfl rfl rfl rfl rfl (by simp [lassoSquare]) hne
    (by simp [lassoProps, lassoLayer])
  have hb2 := (handlePointerUp_lasso Real.sqrt Real.pi lassoProps lassoState originEvent
    lassoSquare rfl rfl rfl rfl rfl rfl rfl (by simp [lassoSquare])).2
    (by rw [show lassoProps.drawingLayer = lassoLayer from rfl, lassoLayer_inside]; simp)
  rw [hb2, show lassoProps.drawingLayer = lassoLayer from rfl, lassoLayer_inside]
  simp [selectionBoundsOf, selectionPoints, lassoLayer, minX, minY, maxX, maxY, firstPoint]
  norm_num

/-! ### Ink gestures -/

omit [LinearOrderedField α] in
theorem committed_append (a b : List (Effect α)) :
    committed (a ++ b) = committed a ++ committed b := by
  simp [committed, List.filterMap_append]

/-- The ink part of `handlePointerUp`: the state after it and the strokes it
commits. -/
theorem handlePointerUp_ink (sqrt : α → α) (pi : α) (props : CanvasProps α)
    (st : CanvasState α) (e : PointerEvent α) (tool : Tool) (s : Stroke α)
    (hen : props.disabled = false) (htool : props.tool = some tool) (hink : tool.isInk = true)
    (hdrag : st.draggingElement = none) (hgroup : st.templateGroupDrag = none)
    (hdraw : st.isDrawing = true) (hs : st.currentStroke = some s) :
    (handlePointerUp sqrt pi props st e).1.currentStroke = none ∧
    (∀ pts, s.points = some pts → 2 ≤ pts.length →
      committed (handlePointerUp sqrt pi props st e).2 = [finalizeStroke sqrt pi s pts]) ∧
    (∀ pts, s.points = some pts → pts.length ≤ 1 →
      committed (handlePointerUp sqrt pi props st e).2 = []) ∧
    (s.points = none → committed (handlePointerUp sqrt pi props st e).2 = []) := by
  have h1 : tool ≠ .pan := by rintro rfl; simp [Tool.isInk] at hink
  have h2 : tool ≠ .eraser := by rintro rfl; simp [Tool.isInk] at hink
  have h3 : tool ≠ .laser := by rintro rfl; simp [Tool.isInk] at hink
  have h4 : tool ≠ .lasso := by rintro rfl; simp [Tool.isInk] at hink
  refine ⟨?_, ?_, ?_, ?_⟩
  · cases hp : s.points with
    | none => simp [handlePointerUp, hen, htool, hdrag, hgroup, hdraw, hs, h1, h2, h3, h4, hp]
    | some pts =>
      by_cases hl : pts.length > 1 <;>
        simp [handlePointerUp, hen, htool, hdrag, hgroup, hdraw, hs, h1, h2, h3, h4, hp, hl]
  · intro pts hp hl
    have hl' : pts.length > 1 := by omega
    simp [handlePointerUp, hen, htool, hdrag, hgroup, hdraw, hs, h1, h2, h3, h4, hp, hl',
      committed]
  · intro pts hp hl
    have hl' : ¬ pts.length > 1 := by omega
    simp [handlePointerUp, hen, htool, hdrag, hgroup, hdraw, hs, h1, h2, h3, h4, hp, hl',
      committed]
  · intro hp
    simp [handlePointerUp, hen, htool, hdrag, hgroup, hdraw, hs, h1, h2, h3, h4, hp, committed]

/-- The type, points and id of a finalized stroke. -/
theorem finalizeStroke_fields (sqrt : α → α) (pi : α) (s : Stroke α) (pts : List (Point α)) :
    (finalizeStroke sqrt pi s pts).points = s.points ∧
    (finalizeStroke sqrt pi s pts).id = s.id ∧
    (s.type ≠ .shape → finalizeStroke sqrt pi s pts = s) ∧
    (s.type = .shape → recognizeShape sqrt pi pts = none → finalizeStroke sqrt pi s pts = s) ∧
    (∀ shape, s.type = .shape → recognizeShape sqrt pi pts = some shape →
      finalizeStroke sqrt pi s pts
        = { s with recognizedShape := some shape, type := .recognizedShape }) := by
  unfold finalizeStroke
  refine ⟨?_, ?_, ?_, ?_, ?_⟩
  · split_ifs
    · split <;> rfl
    · rfl
  · split_ifs
    · split <;> rfl
    · rfl
  · intro h; simp [h]
  · intro h hr; simp [h, hr]
  · intro shape h hr; simp [h, hr]

/-- C17: on pointer-up of an ink gesture (input enabled, tool pencil,
highlighter or shape, a gesture active with no element or group drag, and an
in-progress stroke), the in-progress stroke is cleared; it is handed to the
commit callback exactly once (one call, with the same id and points) when it
has at least 2 points, and not at all when it has 0 or 1 points. -/
theorem pointerUp_commits_once (sqrt : α → α) (pi : α) (props : CanvasProps α)
    (st : CanvasState α) (e : PointerEvent α) (s : Stroke α) (pts : List (Point α))
    (hen : props.disabled = false)
    (htool : props.tool = some .pencil ∨ props.tool = some .highlighter ∨
      props.tool = some .shape)
    (hdrag : st.draggingElement = none) (hgroup : st.templateGroupDrag = none)
    (hdraw : st.isDrawing = true) (hs : st.currentStroke = some s)
    (hpts : s.points = some pts) :
    (handlePointerUp sqrt pi props st e).1.currentStroke = none ∧
    (2 ≤ pts.length →
      ∃ f, committed (handlePointerUp sqrt pi props st e).2 = [f] ∧ f.id = s.id ∧
        f.points = some pts) ∧
    (pts.length ≤ 1 → committed (handlePointerUp sqrt pi props st e).2 = []) := by
  obtain ⟨tool, ht, hink⟩ : ∃ tool, props.tool = some tool ∧ tool.isInk = true := by
    rcases htool with h | h | h
    · exact ⟨_, h, rfl⟩
    · exact ⟨_, h, rfl⟩
    · exact ⟨_, h, rfl⟩
  obtain ⟨h1, h2, h3, -⟩ := handlePointerUp_ink sqrt pi props st e tool s hen ht hink hdrag
    hgroup hdraw hs
  refine ⟨h1, fun hl => ⟨finalizeStroke sqrt pi s pts, h2 pts hpts hl, ?_, ?_⟩,
    fun hl => h3 pts hpts hl⟩
  · exact (finalizeStroke_fields sqrt pi s pts).2.1
  · rw [(finalizeStroke_fields sqrt pi s pts).1, hpts]

/-- C17 at `pencilState` (in-progress stroke `sampleStroke`, 3 points) with the
pencil tool: one stroke is committed, with the id and the points of the
in-progress stroke. -/
theorem pointerUp_commits_once_witness :
    ∃ f, committed (handlePointerUp Real.sqrt Real.pi baseProps pencilState originEvent).2 = [f] ∧
      f.id = sampleStroke.id ∧ f.points = some [⟨0, 0⟩, ⟨10, 0⟩, ⟨20, 0⟩] :=
  (pointerUp_commits_once Real.sqrt Real.pi baseProps pencilState originEvent sampleStroke
    [⟨0, 0⟩, ⟨10, 0⟩, ⟨20, 0⟩] rfl (Or.inl rfl) rfl rfl rfl rfl rfl).2.1 (by simp)

/-- The ink branch of `handlePointerDown`: with an ink tool and no box under the
pointer a new one-point stroke becomes the in-progress stroke. -/
theorem handlePointerDown_ink (sqrt : α → α) (props : CanvasProps α) (st : CanvasState α)
    (e : PointerEvent α) (tool : Tool) (hen : props.disabled = false)
    (htool : props.tool = some tool) (hink : tool.isInk = true)
    (hbox : ∀ el, hitTestTextLayer props.textLayer (screenToCanvas props e.clientX e.clientY)
      = some el → el.type ≠ .box) :
    (handlePointerDown sqrt props st e).1
      = { st with isDrawing := true
                  currentStroke := some (newStroke props tool
                    (screenToCanvas props e.clientX e.clientY) e) } ∧
    committed (handlePointerDown sqrt props st e).2 = [] := by
  have h1 : tool ≠ .pan := by rintro rfl; simp [Tool.isInk] at hink
  have h2 : tool ≠ .eraser := by rintro rfl; simp [Tool.isInk] at hink
  have h3 : tool ≠ .laser := by rintro rfl; simp [Tool.isInk] at hink
  have h4 : tool ≠ .lasso := by rintro rfl; simp [Tool.isInk] at hink
  have h5 : tool ≠ .text := by rintro rfl; simp [Tool.isInk] at hink
  have hf : (hitTestTextLayer props.textLayer (screenToCanvas props e.clientX e.clientY)).filter
      (fun el => el.type = .box) = none := by
    cases h : hitTestTextLayer props.textLayer (screenToCanvas props e.clientX e.clientY) with
    | none => rfl
    | some el => simp [Option.filter, hbox el h]
  constructor
  · simp [handlePointerDown, hen, htool, h1, h2, h3, h4, h5, hf]
  · by_cases hsock : props.socket = true <;>
      simp [handlePointerDown, hen, htool, h1, h2, h3, h4, h5, hf, hsock, committed]

/-- The ink branch of `handlePointerMove`: the pointer position is appended to
the in-progress stroke and nothing is committed. -/
theorem handlePointerMove_ink (sqrt : α → α) (props : CanvasProps α) (st : CanvasState α)
    (e : PointerEvent α) (tool : Tool) (s : Stroke α) (pts : List (Point α))
    (hen : props.disabled = false) (htool : props.tool = some tool) (hink : tool.isInk = true)
    (hdrag : st.draggingElement = none) (hgroup : st.templateGroupDrag = none)
    (hdraw : st.isDrawing = true) (hs : st.currentStroke = some s)
    (hpts : s.points = some pts) :
    (handlePointerMove sqrt props st e).1.draggingElement = none ∧
    (handlePointerMove sqrt props st e).1.templateGroupDrag = none ∧
    (handlePointerMove sqrt props st e).1.isDrawing = true ∧
    (handlePointerMove sqrt props st e).1.currentStroke
      = some { s with points := some (pts ++ [screenToCanvas props e.clientX e.clientY]) } ∧
    committed (handlePointerMove sqrt props st e).2 = [] := by
  have h1 : tool ≠ .pan := by rintro rfl; simp [Tool.isInk] at hink
  have h2 : tool ≠ .eraser := by rintro rfl; simp [Tool.isInk] at hink
  have h3 : tool ≠ .laser := by rintro rfl; simp [Tool.isInk] at hink
  have h4 : tool ≠ .lasso := by rintro rfl; simp [Tool.isInk] at hink
  by_cases hth : e.now - st.lastThrottle > 24 <;> by_cases hsock : props.socket = true <;>
    simp [handlePointerMove, hen, htool, h1, h2, h3, h4, hdrag, hgroup, hdraw, hs, hpts, hth,
      hsock, committed]

/-- A sequence of pointer-moves of an ink gesture appends the pointer positions
to the in-progress stroke, in order, and commits nothing. -/
theorem runMoves_ink (sqrt : α → α) (props : CanvasProps α) (tool : Tool)
    (hen : props.disabled = false) (htool : props.tool = some tool) (hink : tool.isInk = true)
    (moves : List (PointerEvent α)) :
    ∀ (st : CanvasState α) (s : Stroke α) (pts : List (Point α)),
      st.draggingElement = none → st.templateGroupDrag = none → st.isDrawing = true →
      st.currentStroke = some s → s.points = some pts →
      (runMoves sqrt props st moves).1.draggingElement = none ∧
      (runMoves sqrt props st moves).1.templateGroupDrag = none ∧
      (runMoves sqrt props st moves).1.isDrawing = true ∧
      (runMoves sqrt props st moves).1.currentStroke
        = some { s with points := some (pts ++ eventPositions props moves) } ∧
      committed (runMoves sqrt props st moves).2 = [] := by
  induction moves with
  | nil =>
    intro st s pts hdrag hgroup hdraw hs hpts
    refine ⟨hdrag, hgroup, hdraw, ?_, rfl⟩
    simp only [runMoves, eventPositions, List.map_nil, List.append_nil]
    rw [hs, ← hpts]
  | cons e rest ih =>
    intro st s pts hdrag hgroup hdraw hs hpts
    obtain ⟨m1, m2, m3, m4, m5⟩ := handlePointerMove_ink sqrt props st e tool s pts hen htool
      hink hdrag hgroup hdraw hs hpts
    obtain ⟨r1, r2, r3, r4, r5⟩ := ih (handlePointerMove sqrt props st e).1
      { s with points := some (pts ++ [screenToCanvas props e.clientX e.clientY]) }
      (pts ++ [screenToCanvas props e.clientX e.clientY]) m1 m2 m3 m4 rfl
    refine ⟨r1, r2, r3, ?_, ?_⟩
    · simp only [runMoves]
      rw [r4]
      simp [eventPositions]
    · simp only [runMoves]
      rw [committed_append, m5, r5]
      rfl

/-- An ink gesture (input enabled, ink tool, no element or group drag in
progress, pointer-down not on a box) with at least one pointer-move commits
exactly the finalized in-progress stroke, whose points are the positions of
the pointer-down and of the pointer-moves. -/
theorem runGesture_ink (sqrt : α → α) (pi : α) (props : CanvasProps α) (st : CanvasState α)
    (down : PointerEvent α) (moves : List (PointerEvent α)) (up : PointerEvent α) (tool : Tool)
    (hen : props.disabled = false) (htool : props.tool = some tool) (hink : tool.isInk = true)
    (hdrag : st.draggingElement = none) (hgroup : st.templateGroupDrag = none)
    (hbox : ∀ el, hitTestTextLayer props.textLayer
      (screenToCanvas props down.clientX down.clientY) = some el → el.type ≠ .box) :
    (runMoves sqrt props (handlePointerDown sqrt props st down).1 moves).1.currentStroke
      = some (inkStroke props tool down moves) ∧
    (moves ≠ [] → committed (runGesture sqrt pi props st down moves up).2
      = [finalizeStroke sqrt pi (inkStroke props tool down moves)
          (eventPositions props (down :: moves))]) ∧
    (moves = [] → committed (runGesture sqrt pi props st down moves up).2 = []) := by
  obtain ⟨d1, d2⟩ := handlePointerDown_ink sqrt props st down tool hen htool hink hbox
  have hst : (handlePointerDown sqrt props st down).1.draggingElement = none := by
    rw [d1]; exact hdrag
  have hst2 : (handlePointerDown sqrt props st down).1.templateGroupDrag = none := by
    rw [d1]; exact hgroup
  have hst3 : (handlePointerDown sqrt props st down).1.isDrawing = true := by rw [d1]
  have hst4 : (handlePointerDown sqrt props st down).1.currentStroke
      = some (newStroke props tool (screenToCanvas props down.clientX down.clientY) down) := by
    rw [d1]
  obtain ⟨r1, r2, r3, r4, r5⟩ := runMoves_ink sqrt props tool hen htool hink moves
    (handlePointerDown sqrt props st down).1 _
    [screenToCanvas props down.clientX down.clientY] hst hst2 hst3 hst4 rfl
  have hcur : (runMoves sqrt props (handlePointerDown sqrt props st down).1 moves).1.currentStroke
      = some (inkStroke props tool down moves) := by
    rw [r4]; rfl
  obtain ⟨-, u2, u3, -⟩ := handlePointerUp_ink sqrt pi props
    (runMoves sqrt props (handlePointerDown sqrt props st down).1 moves).1 up tool
    (inkStroke props tool down moves) hen htool hink r1 r2 r3 hcur
  have hp : (inkStroke props tool down moves).points
      = some (eventPositions props (down :: moves)) := rfl
  refine ⟨hcur, fun hne => ?_, fun he => ?_⟩
  · have hl : 2 ≤ (eventPositions props (down :: moves)).length := by
      cases moves with
      | nil => exact absurd rfl hne
      | cons a t => simp [eventPositions]
    simp only [runGesture]
    rw [committed_append, committed_append, d2, r5, u2 _ hp hl]
    rfl
  · have hl : (eventPositions props (down :: moves)).length ≤ 1 := by
      subst he; simp [eventPositions]
    simp only [runGesture]
    rw [committed_append, committed_append, d2, r5, u3 _ hp hl]
    rfl

/-- The type of the stroke an ink gesture builds is fixed by the tool. -/
theorem inkStroke_fields (props : CanvasProps α) (tool : Tool) (down : PointerEvent α)
    (moves : List (PointerEvent α)) :
    (inkStroke props tool down moves).points = some (eventPositions props (down :: moves)) ∧
    (inkStroke props tool down moves).recognizedShape = none ∧
    (inkStroke props tool down moves).brushSize = props.brushSize ∧
    (inkStroke props tool down moves).id = down.newId ∧
    (tool = .pencil → (inkStroke props tool down moves).type = .pencil) ∧
    (tool = .highlighter → (inkStroke props tool down moves).type = .highlighter) ∧
    (tool = .shape → (inkStroke props tool down moves).type = .shape) := by
  refine ⟨rfl, rfl, rfl, rfl, ?_, ?_, ?_⟩
  · rintro rfl; simp [inkStroke, newStroke]
  · rintro rfl; simp [inkStroke, newStroke]
  · rintro rfl; simp [inkStroke, newStroke]

/-- C18: a gesture with the pencil or the highlighter tool (input enabled, no
element or group drag in progress, pointer-down not on a box, at least one
pointer-move) commits exactly the in-progress stroke, unchanged: its type is
the tool's type, its points are the pointer positions in order, and no
recognized shape is attached, whatever the points are. -/
theorem pencil_gesture_unchanged (sqrt : α → α) (pi : α) (props : CanvasProps α)
    (st : CanvasState α) (down : PointerEvent α) (moves : List (PointerEvent α))
    (up : PointerEvent α) (tool : Tool) (hen : props.disabled = false)
    (htool : props.tool = some tool) (hink : tool = .pencil ∨ tool = .highlighter)
    (hdrag : st.draggingElement = none) (hgroup : st.templateGroupDrag = none)
    (hbox : ∀ el, hitTestTextLayer props.textLayer
      (screenToCanvas props down.clientX down.clientY) = some el → el.type ≠ .box)
    (hmoves : moves ≠ []) :
    ∃ s : Stroke α,
      (runMoves sqrt props (handlePointerDown sqrt props st down).1 moves).1.currentStroke
        = some s ∧
      committed (runGesture sqrt pi props st down moves up).2 = [s] ∧
      s.points = some (eventPositions props (down :: moves)) ∧
      s.recognizedShape = none ∧
      (tool = .pencil → s.type = .pencil) ∧ (tool = .highlighter → s.type = .highlighter) ∧
      s.brushSize = props.brushSize ∧ s.id = down.newId := by
  have hi : tool.isInk = true := by rcases hink with rfl | rfl <;> rfl
  obtain ⟨g1, g2, -⟩ := runGesture_ink sqrt pi props st down moves up tool hen htool hi hdrag
    hgroup hbox
  obtain ⟨f1, f2, f3, f4, f5, f6, -⟩ := inkStroke_fields props tool down moves
  have hty : (inkStroke props tool down moves).type ≠ .shape := by
    rcases hink with h | h
    · rw [f5 h]; simp
    · rw [f6 h]; simp
  refine ⟨inkStroke props tool down moves, g1, ?_, f1, f2, f5, f6, f3, f4⟩
  rw [g2 hmoves, (finalizeStroke_fields sqrt pi _ _).2.2.1 hty]

/-- The logical positions of the scenario events under `baseProps`. -/
theorem baseProps_positions :
    eventPositions baseProps [eventAt 0 0, eventAt 10 0, eventAt 20 0]
      = [⟨0, 0⟩, ⟨10, 0⟩, ⟨20, 0⟩] := by
  norm_num [eventPositions, screenToCanvas, baseProps, eventAt, panX, panY, jsOr]

/-- C18 at the scenario: a pencil gesture through (0,0), (10,0), (20,0) with
brush size 3 commits one stroke of type pencil with those three points and no
recognized shape. -/
theorem pencil_gesture_unchanged_witness :
    ∃ s : Stroke ℝ,
      committed (runGesture Real.sqrt Real.pi baseProps idleState (eventAt 0 0)
        [eventAt 10 0, eventAt 20 0] (eventAt 20 0)).2 = [s] ∧
      s.type = .pencil ∧ s.points = some [⟨0, 0⟩, ⟨10, 0⟩, ⟨20, 0⟩] ∧
      s.recognizedShape = none ∧ s.brushSize = 3 := by
  obtain ⟨s, -, h2, h3, h4, h5, -, h7, -⟩ := pencil_gesture_unchanged Real.sqrt Real.pi baseProps
    idleState (eventAt 0 0) [eventAt 10 0, eventAt 20 0] (eventAt 20 0) .pencil rfl rfl
    (Or.inl rfl) rfl rfl
    (by intro el hel; simp [hitTestTextLayer, baseProps] at hel) (by simp)
  exact ⟨s, h2, h5 rfl, by rw [h3, baseProps_positions], h4, h7⟩

/-- C19 (amended): every stroke an ink gesture hands to the commit callback has
the type `pencil` (pencil tool), `highlighter` (highlighter tool), and for the
shape tool `recognized-shape` when `recognizeShape` classifies its points and
`shape` when it does not; it never has the type `eraser`. -/
theorem ink_gesture_commit_type (sqrt : α → α) (pi : α) (props : CanvasProps α)
    (st : CanvasState α) (down : PointerEvent α) (moves : List (PointerEvent α))
    (up : PointerEvent α) (tool : Tool) (s : Stroke α) (hen : props.disabled = false)
    (htool : props.tool = some tool) (hink : tool.isInk = true)
    (hdrag : st.draggingElement = none) (hgroup : st.templateGroupDrag = none)
    (hbox : ∀ el, hitTestTextLayer props.textLayer
      (screenToCanvas props down.clientX down.clientY) = some el → el.type ≠ .box)
    (hs : s ∈ committed (runGesture sqrt pi props st down moves up).2) :
    (tool = .pencil → s.type = .pencil) ∧ (tool = .highlighter → s.type = .highlighter) ∧
    (tool = .shape → recognizeShape sqrt pi (eventPositions props (down :: moves)) = none →
      s.type = .shape) ∧
    (tool = .shape → recognizeShape sqrt pi (eventPositions props (down :: moves)) ≠ none →
      s.type = .recognizedShape) ∧
    s.type ≠ .eraser := by
  obtain ⟨-, g2, g3⟩ := runGesture_ink sqrt pi props st down moves up tool hen htool hink hdrag
    hgroup hbox
  obtain ⟨-, -, -, -, f5, f6, f7⟩ := inkStroke_fields props tool down moves
  obtain ⟨-, -, k3, k4, k5⟩ := finalizeStroke_fields sqrt pi (inkStroke props tool down moves)
    (eventPositions props (down :: moves))
  by_cases hm : moves = []
  · rw [g3 hm] at hs; cases hs
  rw [g2 hm, List.mem_singleton] at hs
  have hcases : tool = .pencil ∨ tool = .highlighter ∨ tool = .shape := by
    cases tool <;> simp [Tool.isInk] at hink ⊢
  rcases hcases with h | h | h
  · have e : s = inkStroke props tool down moves := by
      rw [hs]; exact k3 (by rw [f5 h]; simp)
    subst h
    refine ⟨fun _ => by rw [e]; exact f5 rfl, by simp, by simp, by simp, ?_⟩
    rw [e, f5 rfl]; simp
  · have e : s = inkStroke props tool down moves := by
      rw [hs]; exact k3 (by rw [f6 h]; simp)
    subst h
    refine ⟨by simp, fun _ => by rw [e]; exact f6 rfl, by simp, by simp, ?_⟩
    rw [e, f6 rfl]; simp
  · subst h
    cases hr : recognizeShape sqrt pi (eventPositions props (down :: moves)) with
    | none =>
      have e : s = inkStroke props .shape down moves := by rw [hs]; exact k4 (f7 rfl) hr
      refine ⟨by simp, by simp, fun _ _ => by rw [e]; exact f7 rfl, fun _ h => absurd rfl h, ?_⟩
      rw [e, f7 rfl]; simp
    | some shape =>
      have e := k5 shape (f7 rfl) hr
      rw [← hs] at e
      refine ⟨by simp, by simp, fun _ h => by simp at h, fun _ _ => by rw [e], ?_⟩
      rw [e]; simp

/-- The stroke a two-point gesture with the shape tool commits has the type
`shape`. -/
theorem shape_gesture_two_points :
    committed (runGesture Real.sqrt Real.pi shapeProps idleState (eventAt 0 0) [eventAt 10 0]
      (eventAt 10 0)).2 = [inkStroke shapeProps .shape (eventAt 0 0) [eventAt 10 0]] := by
  obtain ⟨-, g2, -⟩ := runGesture_ink Real.sqrt Real.pi shapeProps idleState (eventAt 0 0)
    [eventAt 10 0] (eventAt 10 0) .shape rfl rfl rfl rfl rfl
    (by intro el hel; simp [hitTestTextLayer, shapeProps, baseProps] at hel)
  rw [g2 (by simp), (finalizeStroke_fields Real.sqrt Real.pi _ _).2.2.2.1 rfl
    (by simp [recognizeShape, eventPositions])]

/-- C19 (as stated) fails for a two-point gesture with the shape tool: the
committed stroke has the type `shape`, which is none of `pencil`,
`highlighter`, `eraser`, `recognized-shape`. -/
theorem shape_gesture_type_counterexample :
    ∃ s ∈ committed (runGesture Real.sqrt Real.pi shapeProps idleState (eventAt 0 0)
        [eventAt 10 0] (eventAt 10 0)).2,
      s.type ≠ .pencil ∧ s.type ≠ .highlighter ∧ s.type ≠ .eraser ∧
        s.type ≠ .recognizedShape := by
  refine ⟨inkStroke shapeProps .shape (eventAt 0 0) [eventAt 10 0], ?_, ?_⟩
  · rw [shape_gesture_two_points]; exact List.mem_singleton.mpr rfl
  · have h : (inkStroke shapeProps .shape (eventAt 0 0) [eventAt 10 0]).type = .shape := rfl
    rw [h]; simp

/-- C19 (amended) at the two-point gesture with the shape tool: the committed
stroke has the type `shape`. -/
theorem ink_gesture_commit_type_witness :
    (inkStroke shapeProps .shape (eventAt 0 0) [eventAt 10 0]).type = .shape :=
  (ink_gesture_commit_type Real.sqrt Real.pi shapeProps idleState (eventAt 0 0) [eventAt 10 0]
    (eventAt 10 0) .shape (inkStroke shapeProps .shape (eventAt 0 0) [eventAt 10 0]) rfl rfl
    rfl rfl rfl (by intro el hel; simp [hitTestTextLayer, shapeProps, baseProps] at hel)
    (by rw [shape_gesture_two_points]; exact List.mem_singleton.mpr rfl)).2.2.1 rfl
    (by simp [recognizeShape, eventPositions])

/-! ### Circle scenario -/

/-- The closed branch of `recognizeShape` when the circle test passes. -/
theorem recognizeShape_of_circleTest (sqrt : α → α) (pi : α) (points : List (Point α))
    (hlen : 5 ≤ points.length) (hclosed : isClosed sqrt points)
    (hcircle : circleTest sqrt pi points) :
    recognizeShape sqrt pi points
      = some (.circle (centreX points) (centreY points) (avgR points)) := by
  have h1 : ¬ points.length < 5 := by omega
  rw [recognizeShape, if_neg h1, if_pos hclosed, if_pos hcircle]

/-- The path length of a polyline whose segments all have length `c`. -/
theorem pathLenLoop_const (sqrt : α → α) (c : α) (l : List (Point α)) :
    ∀ (prev : Point α) (acc : α),
      List.Chain (fun p q => hypot sqrt (q.x - p.x) (q.y - p.y) = c) prev l →
      pathLenLoop sqrt prev l acc = acc + (l.length : α) * c := by
  induction l with
  | nil => intro prev acc _; simp [pathLenLoop]
  | cons q rest ih =>
    intro prev acc h
    rw [List.chain_cons] at h
    rw [pathLenLoop, ih q _ h.2, h.1]
    simp only [List.length_cons, Nat.cast_add, Nat.cast_one]
    ring

/-- The squared chord between two points of a circle of radius 50. -/
theorem circle_chord_sq (a b : ℝ) :
    (50 * Real.cos b - 50 * Real.cos a) * (50 * Real.cos b - 50 * Real.cos a)
      + (50 * Real.sin b - 50 * Real.sin a) * (50 * Real.sin b - 50 * Real.sin a)
      = 2500 * (2 - 2 * Real.cos (b - a)) := by
  rw [Real.cos_sub]
  linear_combination 2500 * Real.sin_sq_add_cos_sq a + 2500 * Real.sin_sq_add_cos_sq b

/-- The chord between two samples of the circle scenario. -/
theorem circlePoint_chord (j k : ℕ) :
    hypot Real.sqrt
        ((circlePoint Real.cos Real.sin Real.pi k).x - (circlePoint Real.cos Real.sin Real.pi j).x)
        ((circlePoint Real.cos Real.sin Real.pi k).y - (circlePoint Real.cos Real.sin Real.pi j).y)
      = Real.sqrt (2500 * (2 - 2 * Real.cos ((k : ℝ) * Real.pi / 18 - (j : ℝ) * Real.pi / 18))) := by
  unfold hypot circlePoint
  congr 1
  rw [← circle_chord_sq]
  ring

/-- Bounds on the squared length of one segment of the circle scenario. -/
theorem circle_segment_sq_bounds :
    64 < 2500 * (2 - 2 * Real.cos (Real.pi / 18)) ∧
      2500 * (2 - 2 * Real.cos (Real.pi / 18)) < 81 := by
  have h1 := Real.pi_gt_d2
  have h2 := Real.pi_lt_d2
  have hx1 : (0.174 : ℝ) < Real.pi / 18 := by linarith
  have hx2 : Real.pi / 18 < 0.175 := by linarith
  have hpos : (0 : ℝ) < Real.pi / 18 := by linarith
  have hb := Real.cos_bound (x := Real.pi / 18) (by rw [abs_of_pos hpos]; linarith)
  rw [abs_of_pos hpos, abs_le] at hb
  have hu1 : (0.030276 : ℝ) < (Real.pi / 18) ^ 2 := by nlinarith
  have hu2 : (Real.pi / 18) ^ 2 < 0.030625 := by nlinarith
  have hq : (Real.pi / 18) ^ 4 < 0.00094 := by
    have e : (Real.pi / 18) ^ 4 = (Real.pi / 18) ^ 2 * (Real.pi / 18) ^ 2 := by ring
    rw [e]
    nlinarith
  have hq0 : (0 : ℝ) ≤ (Real.pi / 18) ^ 4 := by positivity
  constructor <;> nlinarith [hb.1, hb.2]

/-- The length of one segment of the circle scenario lies between 8 and 9. -/
theorem circle_segment_bounds :
    8 < Real.sqrt (2500 * (2 - 2 * Real.cos (Real.pi / 18))) ∧
      Real.sqrt (2500 * (2 - 2 * Real.cos (Real.pi / 18))) < 9 := by
  obtain ⟨h1, h2⟩ := circle_segment_sq_bounds
  constructor
  · rw [Real.lt_sqrt (by norm_num)]; linarith
  · rw [Real.sqrt_lt' (by norm_num)]; linarith

/-- The samples of the circle scenario lie in the box `[50,150] x [50,150]`. -/
theorem circlePoints_box (p : Point ℝ) (hp : p ∈ circlePoints Real.cos Real.sin Real.pi) :
    50 ≤ p.x ∧ p.x ≤ 150 ∧ 50 ≤ p.y ∧ p.y ≤ 150 := by
  unfold circlePoints at hp
  rw [List.mem_map] at hp
  obtain ⟨k, -, rfl⟩ := hp
  simp only [circlePoint]
  have c1 := Real.neg_one_le_cos ((k : ℝ) * Real.pi / 18)
  have c2 := Real.cos_le_one ((k : ℝ) * Real.pi / 18)
  have s1 := Real.neg_one_le_sin ((k : ℝ) * Real.pi / 18)
  have s2 := Real.sin_le_one ((k : ℝ) * Real.pi / 18)
  refine ⟨by linarith, by linarith, by linarith, by linarith⟩

theorem circlePoint_mem (k : ℕ) (hk : k < 36) :
    circlePoint Real.cos Real.sin Real.pi k ∈ circlePoints Real.cos Real.sin Real.pi := by
  unfold circlePoints
  exact List.mem_map.mpr ⟨k, List.mem_range.mpr hk, rfl⟩

/-- The bounding box of the circle scenario is `[50,150] x [50,150]`. -/
theorem circlePoints_bbox :
    minX (circlePoints Real.cos Real.sin Real.pi) = 50 ∧
      maxX (circlePoints Real.cos Real.sin Real.pi) = 150 ∧
      minY (circlePoints Real.cos Real.sin Real.pi) = 50 ∧
      maxY (circlePoints Real.cos Real.sin Real.pi) = 150 := by
  have hne : circlePoints Real.cos Real.sin Real.pi ≠ [] :=
    List.ne_nil_of_mem (circlePoint_mem 0 (by norm_num))
  have p0 : (circlePoint Real.cos Real.sin Real.pi 0).x = 150 := by
    simp [circlePoint]; norm_num
  have p18 : (circlePoint Real.cos Real.sin Real.pi 18).x = 50 := by
    have e : ((18 : ℕ) : ℝ) * Real.pi / 18 = Real.pi := by push_cast; ring
    simp only [circlePoint, e, Real.cos_pi]; norm_num
  have p9 : (circlePoint Real.cos Real.sin Real.pi 9).y = 150 := by
    have e : ((9 : ℕ) : ℝ) * Real.pi / 18 = Real.pi / 2 := by push_cast; ring
    simp only [circlePoint, e, Real.sin_pi_div_two]; norm_num
  have p27 : (circlePoint Real.cos Real.sin Real.pi 27).y = 50 := by
    have e : ((27 : ℕ) : ℝ) * Real.pi / 18 = Real.pi / 2 + Real.pi := by push_cast; ring
    simp only [circlePoint, e, Real.sin_add_pi, Real.sin_pi_div_two]; norm_num
  refine ⟨le_antisymm ?_ ?_, le_antisymm ?_ ?_, le_antisymm ?_ ?_, le_antisymm ?_ ?_⟩
  · rw [← p18]; exact minX_le _ _ (circlePoint_mem 18 (by norm_num))
  · obtain ⟨p, hp, h⟩ := minX_attained _ hne
    rw [← h]; exact (circlePoints_box p hp).1
  · obtain ⟨p, hp, h⟩ := maxX_attained _ hne
    rw [← h]; exact (circlePoints_box p hp).2.1
  · rw [← p0]; exact le_maxX _ _ (circlePoint_mem 0 (by norm_num))
  · rw [← p27]; exact minY_le _ _ (circlePoint_mem 27 (by norm_num))
  · obtain ⟨p, hp, h⟩ := minY_attained _ hne
    rw [← h]; exact (circlePoints_box p hp).2.2.1
  · obtain ⟨p, hp, h⟩ := maxY_attained _ hne
    rw [← h]; exact (circlePoints_box p hp).2.2.2
  · rw [← p9]; exact le_maxY _ _ (circlePoint_mem 9 (by norm_num))

/-- The closure distance and the path length of the circle scenario, in terms of
the length of one segment. -/
theorem circlePoints_lengths :
    closureDist Real.sqrt (circlePoints Real.cos Real.sin Real.pi)
        = Real.sqrt (2500 * (2 - 2 * Real.cos (Real.pi / 18))) ∧
      pathLen Real.sqrt (circlePoints Real.cos Real.sin Real.pi)
        = 35 * Real.sqrt (2500 * (2 - 2 * Real.cos (Real.pi / 18))) := by
  constructor
  · have hf : firstPoint (circlePoints Real.cos Real.sin Real.pi)
        = circlePoint Real.cos Real.sin Real.pi 0 := rfl
    have hl : lastPoint (circlePoints Real.cos Real.sin Real.pi)
        = circlePoint Real.cos Real.sin Real.pi 35 := rfl
    have e := circlePoint_chord 0 35
    unfold hypot at e
    unfold closureDist hypot
    rw [hf, hl, e]
    congr 2
    have e2 : ((35 : ℕ) : ℝ) * Real.pi / 18 - ((0 : ℕ) : ℝ) * Real.pi / 18
        = 2 * Real.pi - Real.pi / 18 := by push_cast; ring
    rw [e2, Real.cos_two_pi_sub]
  · have hc : List.Chain' (fun p q : Point ℝ => hypot Real.sqrt (q.x - p.x) (q.y - p.y)
        = Real.sqrt (2500 * (2 - 2 * Real.cos (Real.pi / 18))))
        (circlePoints Real.cos Real.sin Real.pi) := by
      unfold circlePoints
      rw [List.chain'_map, List.chain'_range_succ]
      intro m _
      rw [circlePoint_chord m m.succ]
      have e : ((m.succ : ℕ) : ℝ) * Real.pi / 18 - (m : ℝ) * Real.pi / 18 = Real.pi / 18 := by
        push_cast
        ring
      rw [e]
    have hcons : circlePoints Real.cos Real.sin Real.pi
        = circlePoint Real.cos Real.sin Real.pi 0
          :: (circlePoints Real.cos Real.sin Real.pi).tail := rfl
    have hlen : (circlePoints Real.cos Real.sin Real.pi).tail.length = 35 := by
      simp [circlePoints]
    rw [hcons] at hc ⊢
    rw [pathLen, pathLenLoop_const Real.sqrt _ _ _ 0 hc, hlen]
    norm_num

/-- The classification of the circle scenario by `recognizeShape`. -/
theorem circlePoints_recognized :
    recognizeShape Real.sqrt Real.pi (circlePoints Real.cos Real.sin Real.pi)
      = some (.circle 100 100 50) := by
  obtain ⟨hminX, hmaxX, hminY, hmaxY⟩ := circlePoints_bbox
  obtain ⟨hdist, hpath⟩ := circlePoints_lengths
  obtain ⟨hc8, hc9⟩ := circle_segment_bounds
  have hw : bboxW (circlePoints Real.cos Real.sin Real.pi) = 100 := by
    rw [bboxW, hminX, hmaxX]; norm_num
  have hh : bboxH (circlePoints Real.cos Real.sin Real.pi) = 100 := by
    rw [bboxH, hminY, hmaxY]; norm_num
  have hR : avgR (circlePoints Real.cos Real.sin Real.pi) = 50 := by
    rw [avgR, hw, hh]; norm_num
  have h3 := Real.pi_gt_d2
  have h4 := Real.pi_lt_d2
  have hclosed : isClosed Real.sqrt (circlePoints Real.cos Real.sin Real.pi) := by
    have hd : (100 : ℝ) ≤ Real.sqrt (100 * 100 + 100 * 100) := by
      rw [Real.le_sqrt (by norm_num) (by norm_num)]; norm_num
    rw [isClosed, hdist, diagonal, hw, hh, hypot]
    calc Real.sqrt (2500 * (2 - 2 * Real.cos (Real.pi / 18))) < 9 := hc9
      _ ≤ 100 * 0.25 := by norm_num
      _ ≤ Real.sqrt (100 * 100 + 100 * 100) * 0.25 :=
        mul_le_mul_of_nonneg_right hd (by norm_num)
  have hcircle : circleTest Real.sqrt Real.pi (circlePoints Real.cos Real.sin Real.pi) := by
    refine ⟨?_, ?_, ?_⟩
    · rw [circleRatio, hpath, hR, gt_iff_lt, lt_div_iff₀ (by positivity)]
      linarith
    · rw [circleRatio, hpath, hR, div_lt_iff₀ (by positivity)]
      linarith
    · rw [aspectImbalance, hw, hh]; norm_num
  rw [recognizeShape_of_circleTest Real.sqrt Real.pi _ (by simp [circlePoints]) hclosed hcircle,
    centreX, centreY, hR, hminX, hmaxX, hminY, hmaxY]
  norm_num

/-- Under `shapeProps` (canvas at the origin, zoom 1, no pan) the logical
positions of events at the client positions of a point list are the points. -/
theorem shapeProps_positions (l : List (Point ℝ)) :
    eventPositions shapeProps (l.map fun p => eventAt p.x p.y) = l := by
  induction l with
  | nil => rfl
  | cons p t ih =>
    have hp : screenToCanvas shapeProps (eventAt p.x p.y).clientX (eventAt p.x p.y).clientY
        = p := by
      cases p with
      | mk px py =>
        simp [screenToCanvas, shapeProps, baseProps, eventAt, panX, panY, jsOr]
    unfold eventPositions at ih ⊢
    rw [List.map_cons, List.map_cons, hp, ih]

/-- C20: `recognizeShape` classifies the 36 samples of the circle of radius 50
about (100,100) as the circle with `cx = 100`, `cy = 100`, `radius = 50`, and
a gesture with the shape tool through these samples commits one stroke of
type `recognized-shape` that carries this classification and the unchanged
point list. -/
theorem circle_scenario :
    recognizeShape Real.sqrt Real.pi (circlePoints Real.cos Real.sin Real.pi)
      = some (.circle 100 100 50) ∧
    ∃ s : Stroke ℝ,
      committed (runGesture Real.sqrt Real.pi shapeProps idleState
        (eventAt (circlePoint Real.cos Real.sin Real.pi 0).x
          (circlePoint Real.cos Real.sin Real.pi 0).y)
        ((circlePoints Real.cos Real.sin Real.pi).tail.map fun p => eventAt p.x p.y)
        (eventAt 0 0)).2 = [s] ∧
      s.type = .recognizedShape ∧ s.recognizedShape = some (.circle 100 100 50) ∧
      s.points = some (circlePoints Real.cos Real.sin Real.pi) := by
  refine ⟨circlePoints_recognized, ?_⟩
  have hpos : eventPositions shapeProps
      (eventAt (circlePoint Real.cos Real.sin Real.pi 0).x
          (circlePoint Real.cos Real.sin Real.pi 0).y
        :: (circlePoints Real.cos Real.sin Real.pi).tail.map fun p => eventAt p.x p.y)
      = circlePoints Real.cos Real.sin Real.pi :=
    shapeProps_positions (circlePoints Real.cos Real.sin Real.pi)
  obtain ⟨-, g2, -⟩ := runGesture_ink Real.sqrt Real.pi shapeProps idleState
    (eventAt (circlePoint Real.cos Real.sin Real.pi 0).x
      (circlePoint Real.cos Real.sin Real.pi 0).y)
    ((circlePoints Real.cos Real.sin Real.pi).tail.map fun p => eventAt p.x p.y)
    (eventAt 0 0) .shape rfl rfl rfl rfl rfl
    (by intro el hel; simp [hitTestTextLayer, shapeProps, baseProps] at hel)
  have hne : ((circlePoints Real.cos Real.sin Real.pi).tail.map fun p => eventAt p.x p.y)
      ≠ [] := by
    intro h
    have := congrArg List.length h
    simp [circlePoints] at this
  obtain ⟨f1, -, -, -, -, -, f7⟩ := inkStroke_fields shapeProps .shape
    (eventAt (circlePoint Real.cos Real.sin Real.pi 0).x
      (circlePoint Real.cos Real.sin Real.pi 0).y)
    ((circlePoints Real.cos Real.sin Real.pi).tail.map fun p => eventAt p.x p.y)
  have hfin := (finalizeStroke_fields Real.sqrt Real.pi
    (inkStroke shapeProps .shape
      (eventAt (circlePoint Real.cos Real.sin Real.pi 0).x
        (circlePoint Real.cos Real.sin Real.pi 0).y)
      ((circlePoints Real.cos Real.sin Real.pi).tail.map fun p => eventAt p.x p.y))
    (circlePoints Real.cos Real.sin Real.pi)).2.2.2.2 (.circle 100 100 50) (f7 rfl)
    circlePoints_recognized
  rw [hpos] at g2 f1
  refine ⟨_, g2 hne, ?_, ?_, ?_⟩
  · rw [hfin]
  · rw [hfin]
  · rw [hfin]; exact f1

/-! ### Drawing layer operations -/

omit [LinearOrderedField α] in
/-- C30: undo removes the last stroke of the layer and pushes it on the undo
stack, redo pops the top of the undo stack and appends it to the layer, and
undo followed by redo on a non-empty layer restores the layer and the undo
stack; undo on an empty layer and redo on an empty stack change nothing;
committing a stroke empties the undo stack. -/
theorem undo_redo_identity (b : BoardState α) :
    (b.drawingLayer ≠ [] → handleRedo (handleUndo b) = b) ∧
    (∀ init last, b.drawingLayer = init ++ [last] →
      handleUndo b = { drawingLayer := init, undoStack := b.undoStack ++ [last] }) ∧
    (∀ rest top, b.undoStack = rest ++ [top] →
      handleRedo b = { drawingLayer := b.drawingLayer ++ [top], undoStack := rest }) ∧
    (b.drawingLayer = [] → handleUndo b = b) ∧
    (b.undoStack = [] → handleRedo b = b) ∧
    (∀ s, (handleStrokeEnd b s).undoStack = [] ∧
      (handleStrokeEnd b s).drawingLayer = b.drawingLayer ++ [s]) := by
  have hundo : ∀ init last, b.drawingLayer = init ++ [last] →
      handleUndo b = { drawingLayer := init, undoStack := b.undoStack ++ [last] } := by
    intro init last h
    simp [handleUndo, h]
  refine ⟨?_, hundo, ?_, ?_, ?_, ?_⟩
  · intro hne
    rcases List.eq_nil_or_concat b.drawingLayer with h | ⟨init, last, h⟩
    · exact absurd h hne
    · have h' : b.drawingLayer = init ++ [last] := by simpa using h
      rw [hundo init last h']
      cases b with
      | mk layer stack =>
        simp only at h'
        simp [handleRedo, h']
  · intro rest top h
    simp [handleRedo, h]
  · intro h
    simp [handleUndo, h]
  · intro h
    simp [handleRedo, h]
  · intro s
    exact ⟨rfl, rfl⟩

omit [LinearOrderedField α] in
/-- A translated stroke keeps its id and the length of its point list. -/
theorem translateStroke_id_length (add : α → α → α) (dx dy : α) (s s' : Stroke α)
    (h : translateStroke add dx dy s = some s') :
    s'.id = s.id ∧ s'.points.map List.length = s.points.map List.length := by
  unfold translateStroke at h
  cases hp : s.points with
  | none => simp [hp] at h
  | some pts =>
    simp only [hp, Option.some.injEq] at h
    subst h
    simp

omit [LinearOrderedField α] in
/-- The translation of a stroke throws exactly when the stroke has no points
list. -/
theorem translateStroke_eq_none (add : α → α → α) (dx dy : α) (s : Stroke α) :
    translateStroke add dx dy s = none ↔ s.points = none := by
  unfold translateStroke
  cases s.points <;> simp

omit [LinearOrderedField α] in
/-- The layer map of `handleMoveStrokes` throws exactly when a stroke whose id is
among `ids` has no points list. -/
theorem moveAll_eq_none (add : α → α → α) (ids : List String) (dx dy : α)
    (l : List (Stroke α)) :
    moveAll add ids dx dy l = none ↔ ∃ s ∈ l, ids.contains s.id = true ∧ s.points = none := by
  induction l with
  | nil => simp [moveAll]
  | cons a t ih =>
    by_cases hc : ids.contains a.id = true
    · cases ht : translateStroke add dx dy a with
      | none =>
        have hp := (translateStroke_eq_none add dx dy a).mp ht
        simp only [moveAll, if_pos hc, ht, true_iff]
        exact ⟨a, List.mem_cons_self _ _, hc, hp⟩
      | some a' =>
        have hp : a.points ≠ none := fun h =>
          by rw [(translateStroke_eq_none add dx dy a).mpr h] at ht; cases ht
        simp only [moveAll, if_pos hc, ht]
        cases hm : moveAll add ids dx dy t with
        | none =>
          simp only [true_iff]
          obtain ⟨s, hs, h1, h2⟩ := ih.mp hm
          exact ⟨s, List.mem_cons_of_mem _ hs, h1, h2⟩
        | some moved =>
          constructor
          · intro h; cases h
          · rintro ⟨s, hs, h1, h2⟩
            rcases List.mem_cons.mp hs with rfl | hs'
            · exact absurd h2 hp
            · have := ih.mpr ⟨s, hs', h1, h2⟩
              rw [hm] at this
              cases this
    · simp only [moveAll, if_neg hc]
      cases hm : moveAll add ids dx dy t with
      | none =>
        simp only [true_iff]
        obtain ⟨s, hs, h1, h2⟩ := ih.mp hm
        exact ⟨s, List.mem_cons_of_mem _ hs, h1, h2⟩
      | some moved =>
        constructor
        · intro h; cases h
        · rintro ⟨s, hs, h1, h2⟩
          rcases List.mem_cons.mp hs with rfl | hs'
          · exact absurd h1 hc
          · have := ih.mpr ⟨s, hs', h1, h2⟩
            rw [hm] at this
            cases this

omit [LinearOrderedField α] in
/-- Every stroke of the layer map of `handleMoveStrokes` has the id and the
point-list length of a stroke of the layer before. -/
theorem moveAll_mem (add : α → α → α) (ids : List String) (dx dy : α) (l : List (Stroke α)) :
    ∀ l', moveAll add ids dx dy l = some l' →
      ∀ s' ∈ l', ∃ s ∈ l, s'.id = s.id ∧
        s'.points.map List.length = s.points.map List.length := by
  induction l with
  | nil =>
    intro l' h s' hs'
    simp only [moveAll, Option.some.injEq] at h
    subst h
    simp at hs'
  | cons a t ih =>
    intro l' h s' hs'
    simp only [moveAll] at h
    cases ha : (if ids.contains a.id = true then translateStroke add dx dy a else some a) with
    | none => rw [ha] at h; cases h
    | some a' =>
      rw [ha] at h
      cases hm : moveAll add ids dx dy t with
      | none => rw [hm] at h; cases h
      | some moved =>
        rw [hm] at h
        simp only [Option.some.injEq] at h
        subst h
        rcases List.mem_cons.mp hs' with rfl | hs''
        · refine ⟨a, List.mem_cons_self _ _, ?_⟩
          by_cases hc : ids.contains a.id = true
          · rw [if_pos hc] at ha
            exact translateStroke_id_length add dx dy a _ ha
          · rw [if_neg hc, Option.some.injEq] at ha
            subst ha
            exact ⟨rfl, rfl⟩
        · obtain ⟨s, hs, h1, h2⟩ := ih moved hm s' hs''
          exact ⟨s, List.mem_cons_of_mem _ hs, h1, h2⟩

/-- C25: each drawing-layer operation (commit, erase by id, delete by ids,
translate by ids, undo, redo) returns a layer, except a translate that selects a
stroke without a points list (the handler throws).  Every stroke of the layer
after the operation is the newly added stroke (the committed stroke, or for
redo the top of the undo stack) or has the id and the point-list length of a
stroke that was in the layer before, whatever the addition of the host's
numbers; after erase, delete and undo the layer is a sublist of the layer
before (whole strokes are removed, the others are kept as they are). -/
theorem layer_strokes_preserved (add : α → α → α) (b : BoardState α) (op : BoardOp α) :
    (applyBoardOp add b op = none ↔
      ∃ ids dx dy, op = .translate ids dx dy ∧
        ∃ s ∈ b.drawingLayer, ids.contains s.id = true ∧ s.points = none) ∧
    (∀ b', applyBoardOp add b op = some b' →
      (∀ s' ∈ b'.drawingLayer,
        (∃ s, op = .commit s ∧ s' = s) ∨
        (op = .redo ∧ b.undoStack.getLast? = some s') ∨
        ∃ s ∈ b.drawingLayer, s'.id = s.id ∧
          s'.points.map List.length = s.points.map List.length) ∧
      ((op = .undo ∨ (∃ id, op = .erase id) ∨ ∃ ids, op = .delete ids) →
        b'.drawingLayer.Sublist b.drawingLayer)) := by
  refine ⟨?_, ?_⟩
  · cases op with
    | translate ids dx dy =>
      simp only [applyBoardOp, handleMoveStrokes, Option.map_eq_none', moveAll_eq_none]
      constructor
      · intro h
        exact ⟨ids, dx, dy, rfl, h⟩
      · rintro ⟨ids', dx', dy', h, hs⟩
        cases h
        exact hs
    | commit s => simp [applyBoardOp]
    | erase id => simp [applyBoardOp]
    | delete ids => simp [applyBoardOp]
    | undo => simp [applyBoardOp]
    | redo => simp [applyBoardOp]
  · intro b' hb'
    refine ⟨?_, ?_⟩
    · intro s' hs'
      cases op with
      | commit s =>
        simp only [applyBoardOp, Option.some.injEq] at hb'
        subst hb'
        simp only [handleStrokeEnd, List.mem_append, List.mem_singleton] at hs'
        rcases hs' with h | h
        · exact Or.inr (Or.inr ⟨s', h, rfl, rfl⟩)
        · exact Or.inl ⟨s, rfl, h⟩
      | erase id =>
        simp only [applyBoardOp, Option.some.injEq] at hb'
        subst hb'
        simp only [handleEraseStroke, List.mem_filter] at hs'
        exact Or.inr (Or.inr ⟨s', hs'.1, rfl, rfl⟩)
      | delete ids =>
        simp only [applyBoardOp, Option.some.injEq] at hb'
        subst hb'
        simp only [handleDeleteStrokes, List.mem_filter] at hs'
        exact Or.inr (Or.inr ⟨s', hs'.1, rfl, rfl⟩)
      | translate ids dx dy =>
        simp only [applyBoardOp, handleMoveStrokes] at hb'
        cases hm : moveAll add ids dx dy b.drawingLayer with
        | none => rw [hm] at hb'; cases hb'
        | some moved =>
          rw [hm] at hb'
          simp only [Option.map_some', Option.some.injEq] at hb'
          subst hb'
          exact Or.inr (Or.inr (moveAll_mem add ids dx dy b.drawingLayer moved hm s' hs'))
      | undo =>
        simp only [applyBoardOp, Option.some.injEq] at hb'
        subst hb'
        simp only [handleUndo] at hs'
        cases h : b.drawingLayer.getLast? with
        | none => rw [h] at hs'; exact Or.inr (Or.inr ⟨s', hs', rfl, rfl⟩)
        | some last =>
          rw [h] at hs'
          exact Or.inr (Or.inr ⟨s', List.mem_of_mem_dropLast hs', rfl, rfl⟩)
      | redo =>
        simp only [applyBoardOp, Option.some.injEq] at hb'
        subst hb'
        simp only [handleRedo] at hs'
        cases h : b.undoStack.getLast? with
        | none => rw [h] at hs'; exact Or.inr (Or.inr ⟨s', hs', rfl, rfl⟩)
        | some last =>
          rw [h] at hs'
          simp only [List.mem_append, List.mem_singleton] at hs'
          rcases hs' with h' | h'
          · exact Or.inr (Or.inr ⟨s', h', rfl, rfl⟩)
          · exact Or.inr (Or.inl ⟨rfl, by rw [h']⟩)
    · rintro (h | ⟨id, h⟩ | ⟨ids, h⟩)
      · subst h
        simp only [applyBoardOp, Option.some.injEq] at hb'
        subst hb'
        simp only [handleUndo]
        cases h : b.drawingLayer.getLast? with
        | none => exact List.Sublist.refl _
        | some last => exact List.dropLast_sublist _
      · subst h
        simp only [applyBoardOp, Option.some.injEq] at hb'
        subst hb'
        exact List.filter_sublist _
      · subst h
        simp only [applyBoardOp, Option.some.injEq] at hb'
        subst hb'
        exact List.filter_sublist _

/-! ### Translation invariance of recognizeShape -/

theorem foldl_min_x_shift (dx dy : α) (l : List (Point α)) (m : α) :
    (l.map (shiftPoint dx dy)).foldl (fun a p => min a p.x) (m + dx)
      = l.foldl (fun a p => min a p.x) m + dx := by
  induction l generalizing m with
  | nil => rfl
  | cons a t ih =>
    simp only [List.map_cons, List.foldl_cons, shiftPoint]
    rw [min_add_add_right]
    exact ih (min m a.x)

theorem foldl_min_y_shift (dx dy : α) (l : List (Point α)) (m : α) :
    (l.map (shiftPoint dx dy)).foldl (fun a p => min a p.y) (m + dy)
      = l.foldl (fun a p => min a p.y) m + dy := by
  induction l generalizing m with
  | nil => rfl
  | cons a t ih =>
    simp only [List.map_cons, List.foldl_cons, shiftPoint]
    rw [min_add_add_right]
    exact ih (min m a.y)

theorem foldl_max_x_shift (dx dy : α) (l : List (Point α)) (m : α) :
    (l.map (shiftPoint dx dy)).foldl (fun a p => max a p.x) (m + dx)
      = l.foldl (fun a p => max a p.x) m + dx := by
  induction l generalizing m with
  | nil => rfl
  | cons a t ih =>
    simp only [List.map_cons, List.foldl_cons, shiftPoint]
    rw [max_add_add_right]
    exact ih (max m a.x)

theorem foldl_max_y_shift (dx dy : α) (l : List (Point α)) (m : α) :
    (l.map (shiftPoint dx dy)).foldl (fun a p => max a p.y) (m + dy)
      = l.foldl (fun a p => max a p.y) m + dy := by
  induction l generalizing m with
  | nil => rfl
  | cons a t ih =>
    simp only [List.map_cons, List.foldl_cons, shiftPoint]
    rw [max_add_add_right]
    exact ih (max m a.y)

theorem firstPoint_shift (dx dy : α) (l : List (Point α)) (hne : l ≠ []) :
    firstPoint (l.map (shiftPoint dx dy)) = shiftPoint dx dy (firstPoint l) := by
  cases l with
  | nil => exact absurd rfl hne
  | cons a t => rfl

omit [LinearOrderedField α] in
theorem getLastD_map_point (f : Point α → Point α) (t : List (Point α)) (a : Point α) :
    (t.map f).getLastD (f a) = f (t.getLastD a) := by
  induction t generalizing a with
  | nil => rfl
  | cons b u ih =>
    simp only [List.map_cons, List.getLastD_cons]
    exact ih b

theorem lastPoint_shift (dx dy : α) (l : List (Point α)) (hne : l ≠ []) :
    lastPoint (l.map (shiftPoint dx dy)) = shiftPoint dx dy (lastPoint l) := by
  cases l with
  | nil => exact absurd rfl hne
  | cons a t =>
    simp only [lastPoint, List.map_cons, List.getLastD_cons]
    exact getLastD_map_point (shiftPoint dx dy) t a

/-- The bounding box of a shifted polyline is the shifted bounding box. -/
theorem bbox_shift (dx dy : α) (l : List (Point α)) (hne : l ≠ []) :
    minX (l.map (shiftPoint dx dy)) = minX l + dx ∧
    maxX (l.map (shiftPoint dx dy)) = maxX l + dx ∧
    minY (l.map (shiftPoint dx dy)) = minY l + dy ∧
    maxY (l.map (shiftPoint dx dy)) = maxY l + dy := by
  have hf := firstPoint_shift dx dy l hne
  refine ⟨?_, ?_, ?_, ?_⟩
  · rw [minX, hf]; exact foldl_min_x_shift dx dy l _
  · rw [maxX, hf]; exact foldl_max_x_shift dx dy l _
  · rw [minY, hf]; exact foldl_min_y_shift dx dy l _
  · rw [maxY, hf]; exact foldl_max_y_shift dx dy l _

theorem pathLenLoop_shift (sqrt : α → α) (dx dy : α) (l : List (Point α)) (prev : Point α)
    (acc : α) :
    pathLenLoop sqrt (shiftPoint dx dy prev) (l.map (shiftPoint dx dy)) acc
      = pathLenLoop sqrt prev l acc := by
  induction l generalizing prev acc with
  | nil => rfl
  | cons q rest ih =>
    simp only [List.map_cons, pathLenLoop]
    rw [ih]
    congr 1
    simp only [shiftPoint, hypot]
    congr 2
    ring

/-- The scalar quantities `recognizeShape` computes do not change under a shift. -/
theorem measures_shift (sqrt : α → α) (dx dy : α) (l : List (Point α)) (hne : l ≠ []) :
    bboxW (l.map (shiftPoint dx dy)) = bboxW l ∧
    bboxH (l.map (shiftPoint dx dy)) = bboxH l ∧
    closureDist sqrt (l.map (shiftPoint dx dy)) = closureDist sqrt l ∧
    lineLen sqrt (l.map (shiftPoint dx dy)) = lineLen sqrt l ∧
    pathLen sqrt (l.map (shiftPoint dx dy)) = pathLen sqrt l := by
  obtain ⟨h1, h2, h3, h4⟩ := bbox_shift dx dy l hne
  have hf := firstPoint_shift dx dy l hne
  have hl := lastPoint_shift dx dy l hne
  have hd : hypot sqrt
      ((shiftPoint dx dy (lastPoint l)).x - (shiftPoint dx dy (firstPoint l)).x)
      ((shiftPoint dx dy (lastPoint l)).y - (shiftPoint dx dy (firstPoint l)).y)
      = hypot sqrt ((lastPoint l).x - (firstPoint l).x) ((lastPoint l).y - (firstPoint l).y) := by
    simp only [shiftPoint]
    congr 1 <;> ring
  refine ⟨?_, ?_, ?_, ?_, ?_⟩
  · rw [bboxW, h1, h2, bboxW]; ring
  · rw [bboxH, h3, h4, bboxH]; ring
  · rw [closureDist, hf, hl, hd, closureDist]
  · rw [lineLen, hf, hl, hd, lineLen]
  · cases l with
    | nil => exact absurd rfl hne
    | cons a t =>
      simp only [List.map_cons, pathLen]
      exact pathLenLoop_shift sqrt dx dy t a 0

theorem deviation_shift (sqrt : α → α) (dx dy : α) (l : List (Point α)) (hne : l ≠ [])
    (p : Point α) :
    deviation sqrt (l.map (shiftPoint dx dy)) (shiftPoint dx dy p) = deviation sqrt l p := by
  rw [deviation, (measures_shift sqrt dx dy l hne).2.2.2.1, firstPoint_shift dx dy l hne,
    lastPoint_shift dx dy l hne, deviation]
  congr 2
  simp only [shiftPoint]
  ring

theorem nearEdge_shift (dx dy : α) (l : List (Point α)) (hne : l ≠ []) (p : Point α) :
    nearEdge (l.map (shiftPoint dx dy)) (shiftPoint dx dy p) = nearEdge l p := by
  obtain ⟨h1, h2, h3, h4⟩ := bbox_shift dx dy l hne
  obtain ⟨hw, hh, -⟩ := measures_shift (fun x => x) dx dy l hne
  have e1 : (shiftPoint dx dy p).x - (minX l + dx) = p.x - minX l := by
    simp only [shiftPoint]; ring
  have e2 : (shiftPoint dx dy p).x - (maxX l + dx) = p.x - maxX l := by
    simp only [shiftPoint]; ring
  have e3 : (shiftPoint dx dy p).y - (minY l + dy) = p.y - minY l := by
    simp only [shiftPoint]; ring
  have e4 : (shiftPoint dx dy p).y - (maxY l + dy) = p.y - maxY l := by
    simp only [shiftPoint]; ring
  simp only [nearEdge, edgeMargin, h1, h2, h3, h4, hw, hh, e1, e2, e3, e4]

theorem onEdge_shift (dx dy : α) (l : List (Point α)) (hne : l ≠ []) :
    onEdge (l.map (shiftPoint dx dy)) = onEdge l := by
  have key : ∀ (t : List (Point α)) (n : Nat),
      (t.map (shiftPoint dx dy)).foldl
          (fun n p => if nearEdge (l.map (shiftPoint dx dy)) p then n + 1 else n) n
        = t.foldl (fun n p => if nearEdge l p then n + 1 else n) n := by
    intro t
    induction t with
    | nil => intro n; rfl
    | cons a u ih =>
      intro n
      simp only [List.map_cons, List.foldl_cons, nearEdge_shift dx dy l hne a]
      exact ih _
  exact key l 0

theorem maxDev_shift (sqrt : α → α) (dx dy : α) (l : List (Point α)) (hne : l ≠ []) :
    maxDev sqrt (l.map (shiftPoint dx dy)) = maxDev sqrt l := by
  have key : ∀ (t : List (Point α)) (m : α),
      (t.map (shiftPoint dx dy)).foldl
          (fun m p => max m (deviation sqrt (l.map (shiftPoint dx dy)) p)) m
        = t.foldl (fun m p => max m (deviation sqrt l p)) m := by
    intro t
    induction t with
    | nil => intro m; rfl
    | cons a u ih =>
      intro m
      simp only [List.map_cons, List.foldl_cons, deviation_shift sqrt dx dy l hne a]
      exact ih _
  exact key l 0

/-- C29: `recognizeShape` is translation-invariant: on the polyline shifted by
`(dx, dy)` it returns the classification of the original polyline with its
position parameters shifted by `(dx, dy)` and `radius`, `width`, `height`
unchanged (and no classification when the original has none). -/
theorem recognizeShape_translate (sqrt : α → α) (pi : α) (dx dy : α)
    (points : List (Point α)) :
    recognizeShape sqrt pi (points.map (shiftPoint dx dy))
      = (recognizeShape sqrt pi points).map (Shape.translate dx dy) := by
  by_cases hlen : points.length < 5
  · simp [recognizeShape, hlen]
  have hne : points ≠ [] := by
    intro h; rw [h] at hlen; simp at hlen
  obtain ⟨h1, h2, h3, h4⟩ := bbox_shift dx dy points hne
  obtain ⟨hw, hh, hcd, hll, hpl⟩ := measures_shift sqrt dx dy points hne
  have hf := firstPoint_shift dx dy points hne
  have hl := lastPoint_shift dx dy points hne
  have hclosed : isClosed sqrt (points.map (shiftPoint dx dy)) = isClosed sqrt points := by
    simp only [isClosed, diagonal, hcd, hw, hh]
  have hR : avgR (points.map (shiftPoint dx dy)) = avgR points := by
    simp only [avgR, hw, hh]
  have hcircle : circleTest sqrt pi (points.map (shiftPoint dx dy))
      = circleTest sqrt pi points := by
    simp only [circleTest, circleRatio, aspectImbalance, hpl, hR, hw, hh]
  have hrect : rectTest (points.map (shiftPoint dx dy)) = rectTest points := by
    simp only [rectTest, onEdge_shift dx dy points hne, List.length_map]
  have hchord : chordClassify sqrt (points.map (shiftPoint dx dy))
      = (chordClassify sqrt points).map (Shape.translate dx dy) := by
    simp only [chordClassify, hll, maxDev_shift sqrt dx dy points hne, hf, hl]
    split_ifs <;> rfl
  have hlen' : ¬ (points.map (shiftPoint dx dy)).length < 5 := by
    rw [List.length_map]; exact hlen
  rw [recognizeShape, if_neg hlen', recognizeShape, if_neg hlen]
  simp only [hclosed, hcircle, hrect, hchord, centreX, centreY, hR, h1, h2, h3, h4, hw, hh]
  split_ifs
  · simp only [Option.map_some', Shape.translate]
    congr 2 <;> ring
  · rfl
  · rfl
  · rfl

/-! ### Remote stroke buffer -/

omit [LinearOrderedField α] in
theorem lookup_cons_ne {β : Type} (k' : String) (a : String × β) (t : List (String × β))
    (h : k' ≠ a.1) : (a :: t).lookup k' = t.lookup k' := by
  obtain ⟨a1, a2⟩ := a
  have h1 : (k' == a1) = false := by simpa using h
  simp [List.lookup, h1]

omit [LinearOrderedField α] in
theorem lookup_cons_self {β : Type} (a : String × β) (t : List (String × β)) :
    (a :: t).lookup a.1 = some a.2 := by
  obtain ⟨a1, a2⟩ := a
  simp [List.lookup]

omit [LinearOrderedField α] in
theorem lookup_map_replace {β : Type} (k k' : String) (v : β) (hne : k' ≠ k)
    (f : String × β → String × β) (hf1 : ∀ e, e.1 = k → f e = (k, v))
    (hf2 : ∀ e, e.1 ≠ k → f e = e) (t : List (String × β)) :
    (t.map f).lookup k' = t.lookup k' := by
  induction t with
  | nil => rfl
  | cons a u ih =>
    rw [List.map_cons]
    by_cases h : a.1 = k
    · rw [hf1 a h, lookup_cons_ne k' (k, v) _ hne, ih,
        lookup_cons_ne k' a u (by rw [h]; exact hne)]
    · rw [hf2 a h]
      by_cases h2 : k' = a.1
      · rw [h2, lookup_cons_self, lookup_cons_self]
      · rw [lookup_cons_ne k' a _ h2, lookup_cons_ne k' a _ h2, ih]

omit [LinearOrderedField α] in
theorem mapSet_cons_eq {β : Type} (a : String × β) (t : List (String × β)) (k : String) (v : β)
    (h : a.1 = k) :
    mapSet (a :: t) k v = (k, v) :: t.map fun e => if e.1 == k then (k, v) else e := by
  have h1 : (a.1 == k) = true := by simpa using h
  have hany : ((a :: t).any fun e => e.1 == k) = true := by
    rw [List.any_cons, h1]; rfl
  unfold mapSet
  rw [if_pos hany, List.map_cons, if_pos h1]

omit [LinearOrderedField α] in
theorem mapSet_cons_ne {β : Type} (a : String × β) (t : List (String × β)) (k : String) (v : β)
    (h : a.1 ≠ k) : mapSet (a :: t) k v = a :: mapSet t k v := by
  have h1 : (a.1 == k) = false := by simpa using h
  have h1' : ¬ (a.1 == k) = true := by rw [h1]; simp
  have hany : ((a :: t).any fun e => e.1 == k) = (t.any fun e => e.1 == k) := by
    rw [List.any_cons, h1]; rfl
  unfold mapSet
  rw [hany]
  by_cases ht : (t.any fun e => e.1 == k) = true
  · rw [if_pos ht, if_pos ht, List.map_cons, if_neg h1']
  · rw [if_neg ht, if_neg ht, List.cons_append]

omit [LinearOrderedField α] in
/-- Reading the map after `set(k, v)`. -/
theorem lookup_mapSet {β : Type} (m : List (String × β)) (k k' : String) (v : β) :
    (mapSet m k v).lookup k' = if k' = k then some v else m.lookup k' := by
  induction m with
  | nil =>
    have hm : mapSet ([] : List (String × β)) k v = [(k, v)] := rfl
    rw [hm]
    by_cases h : k' = k
    · rw [if_pos h, h]; exact lookup_cons_self (k, v) []
    · rw [if_neg h, lookup_cons_ne k' (k, v) [] h]
  | cons a t ih =>
    by_cases ha : a.1 = k
    · rw [mapSet_cons_eq a t k v ha]
      by_cases h : k' = k
      · rw [if_pos h, h]; exact lookup_cons_self (k, v) _
      · rw [if_neg h, lookup_cons_ne k' (k, v) _ h, lookup_cons_ne k' a t (by rw [ha]; exact h)]
        apply lookup_map_replace k k' v h
        · intro e he
          have : (e.1 == k) = true := by simpa using he
          rw [if_pos this]
        · intro e he
          have : ¬ (e.1 == k) = true := by simpa using he
          rw [if_neg this]
    · rw [mapSet_cons_ne a t k v ha]
      by_cases h2 : k' = a.1
      · have hk : ¬ k' = k := by rw [h2]; exact ha
        rw [if_neg hk, h2, lookup_cons_self, lookup_cons_self]
      · rw [lookup_cons_ne k' a _ h2, lookup_cons_ne k' a _ h2, ih]

omit [LinearOrderedField α] in
/-- An event of another user does not change the entry of user `u`. -/
theorem lookup_applyRemoteEvent_ne (buffer : List (String × Stroke α)) (e : RemoteEvent α)
    (u : String) (hne : e.user ≠ u) :
    (applyRemoteEvent buffer e).lookup u = buffer.lookup u := by
  cases e with
  | start data =>
    have h : u ≠ data.userId := fun h => hne h.symm
    simp [applyRemoteEvent, handleRemoteStart, lookup_mapSet, h]
  | move w point =>
    have h : u ≠ w := fun h => hne h.symm
    simp only [applyRemoteEvent, handleRemoteMove]
    split
    · simp [lookup_mapSet, h]
    · rfl

omit [LinearOrderedField α] in
/-- A move event of user `u` on a buffer with an entry for `u`. -/
theorem lookup_handleRemoteMove_self (buffer : List (String × Stroke α)) (u : String)
    (point : Option (Point α)) (entry : Stroke α) (pts : List (Point α))
    (h : buffer.lookup u = some entry) (hpts : entry.points = some pts) :
    ∃ entry', (handleRemoteMove buffer u point).lookup u = some entry' ∧
      entry'.points = some (pts ++ point.toList) := by
  cases point with
  | none => exact ⟨entry, by simp [handleRemoteMove, h], by simp [hpts]⟩
  | some p =>
    exact ⟨{ entry with points := some (entry.points.getD [] ++ [p]) },
      by simp [handleRemoteMove, h, lookup_mapSet], by simp [hpts]⟩

omit [LinearOrderedField α] in
/-- After events none of which is a start of `u`, the entry of `u` has the
points of the moves of `u` appended. -/
theorem lookup_foldl_moves (u : String) (post : List (RemoteEvent α)) :
    ∀ (buffer : List (String × Stroke α)) (entry : Stroke α) (pts : List (Point α)),
      buffer.lookup u = some entry → entry.points = some pts →
      (∀ e ∈ post, e.isStartOf u = false) →
      ∃ entry', (post.foldl applyRemoteEvent buffer).lookup u = some entry' ∧
        entry'.points = some (pts ++ movePointsOf u post) := by
  induction post with
  | nil =>
    intro buffer entry pts h hpts _
    exact ⟨entry, h, by simp [movePointsOf, hpts]⟩
  | cons e rest ih =>
    intro buffer entry pts h hpts hno
    have hrest : ∀ e' ∈ rest, e'.isStartOf u = false :=
      fun e' he' => hno e' (List.mem_cons_of_mem e he')
    have he := hno e (List.mem_cons_self e rest)
    rw [List.foldl_cons]
    by_cases hu : e.user = u
    · cases e with
      | start data =>
        simp only [RemoteEvent.user] at hu
        simp [RemoteEvent.isStartOf, hu] at he
      | move w point =>
        simp only [RemoteEvent.user] at hu
        subst hu
        obtain ⟨entry1, h1, hp1⟩ := lookup_handleRemoteMove_self buffer w point entry pts h hpts
        obtain ⟨entry2, h2, hp2⟩ := ih (applyRemoteEvent buffer (.move w point)) entry1
          (pts ++ point.toList) h1 hp1 hrest
        refine ⟨entry2, h2, ?_⟩
        rw [hp2]
        cases point with
        | none => simp [movePointsOf]
        | some p => simp [movePointsOf]
    · have h1 : (applyRemoteEvent buffer e).lookup u = some entry := by
        rw [lookup_applyRemoteEvent_ne buffer e u hu]; exact h
      obtain ⟨entry2, h2, hp2⟩ := ih (applyRemoteEvent buffer e) entry pts h1 hpts hrest
      refine ⟨entry2, h2, ?_⟩
      rw [hp2]
      cases e with
      | start data => simp [movePointsOf]
      | move w point =>
        have hw : w ≠ u := hu
        cases point with
        | none => simp [movePointsOf]
        | some p => simp [movePointsOf, hw]

omit [LinearOrderedField α] in
/-- The buffer has no entry for `u` exactly when it had none and no start of `u`
was received. -/
theorem lookup_foldl_none (u : String) (events : List (RemoteEvent α)) :
    ∀ buffer : List (String × Stroke α),
      (events.foldl applyRemoteEvent buffer).lookup u = none
        ↔ buffer.lookup u = none ∧ ∀ e ∈ events, e.isStartOf u = false := by
  induction events with
  | nil => intro buffer; simp
  | cons e rest ih =>
    intro buffer
    rw [List.foldl_cons, ih]
    cases e with
    | start data =>
      by_cases hu : data.userId = u
      · simp [applyRemoteEvent, handleRemoteStart, lookup_mapSet, hu, RemoteEvent.isStartOf]
      · have hu' : u ≠ data.userId := fun h => hu h.symm
        simp [applyRemoteEvent, handleRemoteStart, lookup_mapSet, hu, hu',
          RemoteEvent.isStartOf]
    | move w point =>
      have hl : (applyRemoteEvent buffer (.move w point)).lookup u = none
          ↔ buffer.lookup u = none := by
        by_cases hu : w = u
        · subst hu
          cases hb : buffer.lookup w with
          | none => simp [applyRemoteEvent, handleRemoteMove, hb]
          | some ex =>
            cases point with
            | none => simp [applyRemoteEvent, handleRemoteMove, hb]
            | some p => simp [applyRemoteEvent, handleRemoteMove, hb, lookup_mapSet]
        · rw [lookup_applyRemoteEvent_ne buffer (.move w point) u hu]
      simp [hl, RemoteEvent.isStartOf]

omit [LinearOrderedField α] in
/-- C27: after any sequence of remote `drawing:start` and `drawing:move` events
the buffer has an entry for `u` iff a start of `u` was received; the entry's
points are the initial points of the most recent start of `u` followed by the
points of the later moves of `u`, in receipt order; a move for a user without
entry, or without a point, leaves the buffer unchanged; and an event of one
user does not change the entry of another user. -/
theorem remote_buffer_entries (events : List (RemoteEvent α)) (u : String) :
    ((runRemote events).lookup u = none ↔ ∀ e ∈ events, e.isStartOf u = false) ∧
    (∀ pre data post, events = pre ++ [.start data] ++ post → data.userId = u →
      (∀ e ∈ post, e.isStartOf u = false) →
      ∃ entry, (runRemote events).lookup u = some entry ∧
        entry.points = some (data.points.getD [] ++ movePointsOf u post)) ∧
    (∀ (buffer : List (String × Stroke α)) (point : Option (Point α)),
      buffer.lookup u = none → handleRemoteMove buffer u point = buffer) ∧
    (∀ buffer : List (String × Stroke α), handleRemoteMove buffer u none = buffer) ∧
    (∀ (buffer : List (String × Stroke α)) (e : RemoteEvent α), e.user ≠ u →
      (applyRemoteEvent buffer e).lookup u = buffer.lookup u) := by
  refine ⟨?_, ?_, ?_, ?_, ?_⟩
  · unfold runRemote
    rw [lookup_foldl_none]
    simp
  · intro pre data post hev hu hno
    unfold runRemote
    rw [hev, List.foldl_append, List.foldl_append]
    simp only [List.foldl_cons, List.foldl_nil]
    apply lookup_foldl_moves u post _ { data with points := some (data.points.getD []) }
      (data.points.getD []) _ rfl hno
    simp [applyRemoteEvent, handleRemoteStart, lookup_mapSet, hu]
  · intro buffer point h
    simp [handleRemoteMove, h]
  · intro buffer
    unfold handleRemoteMove
    split
    · rename_i h1 h2; cases h2
    · rfl
  · intro buffer e hne
    exact lookup_applyRemoteEvent_ne buffer e u hne

/-! ### Stroke renderer -/

/-- The calls of the pressure loop: one per segment, each with the alpha of the
stroke and the width `bw * pf` of its segment. -/
theorem smoothLoop_spec (sqrt : α → α) (stroke : Stroke α) (pen : PenProfile α)
    (rest : List (Point α)) :
    ∀ (pp : Option (Point α)) (prev : Point α),
      (smoothLoop sqrt stroke pen pp prev rest).length = rest.length ∧
      (∀ call ∈ smoothLoop sqrt stroke pen pp prev rest,
        call.globalAlpha = strokeAlpha stroke pen) ∧
      (∀ i, ∀ h : i + 1 < (prev :: rest).length,
        ∀ h' : i < (smoothLoop sqrt stroke pen pp prev rest).length,
        ((smoothLoop sqrt stroke pen pp prev rest)[i]).lineWidth
          = baseWidth stroke pen * pressureFactor pen
              (hypot sqrt (((prev :: rest)[i + 1]).x - ((prev :: rest)[i]).x)
                (((prev :: rest)[i + 1]).y - ((prev :: rest)[i]).y))) := by
  induction rest with
  | nil =>
    intro pp prev
    refine ⟨rfl, ?_, ?_⟩
    · intro call h; simp [smoothLoop] at h
    · intro i h; simp at h
  | cons curr rest ih =>
    intro pp prev
    obtain ⟨l1, l2, l3⟩ := ih (some prev) curr
    refine ⟨?_, ?_, ?_⟩
    · simp [smoothLoop, l1]
    · intro call h
      simp only [smoothLoop, List.mem_cons] at h
      rcases h with h | h
      · rw [h]
      · exact l2 call h
    · intro i h h'
      cases i with
      | zero => simp [smoothLoop]
      | succ k =>
        simp only [smoothLoop, List.getElem_cons_succ]
        exact l3 k (by simpa using h) (by simpa [smoothLoop] using h')

/-- The pen type `"ballpoint"` selects the ballpoint profile. -/
theorem penProfileOf_ballpoint :
    (penProfileOf "ballpoint" : PenProfile α) = penBallpoint := by
  unfold penProfileOf
  rw [if_neg (by decide), if_pos rfl]

/-- The calls of `drawSmoothStroke` on a stroke of at least 3 points that is not
an eraser stroke. -/
theorem drawSmoothStroke_long (sqrt : α → α) (stroke : Stroke α) (p0 : Point α)
    (rest : List (Point α)) (hpts : stroke.points = some (p0 :: rest))
    (hlen : 2 ≤ rest.length) (hty : stroke.type ≠ .eraser) :
    drawSmoothStroke sqrt stroke
      = smoothLoop sqrt stroke (penProfileOf stroke.penType) none p0 rest := by
  have h1 : ¬ (p0 :: rest).length < 2 := by simp only [List.length_cons]; omega
  have h2 : (p0 :: rest).length ≥ 3 := by simp only [List.length_cons]; omega
  simp only [drawSmoothStroke, hpts, if_neg h1, if_neg hty, if_pos h2]

/-- C26 (amended): a highlighter stroke with at least 2 points is rendered with
opacity 0.3 in every call; with exactly 2 points it is one call of line width
`brushSize*3`; with 3 or more points it is one call per segment, the `i`-th of
line width `brushSize*3*pf` with the pressure factor
`pf = max(pressureMin, min(pressureMax, 1 - speed/200))` of the stroke's pen
profile and `speed` the length of the `i`-th segment. -/
theorem highlighter_rendering (sqrt : α → α) (stroke : Stroke α) (pts : List (Point α))
    (hty : stroke.type = .highlighter) (hpts : stroke.points = some pts)
    (hlen : 2 ≤ pts.length) :
    (∀ call ∈ drawSmoothStroke sqrt stroke, call.globalAlpha = 0.3) ∧
    (pts.length = 2 →
      (drawSmoothStroke sqrt stroke).map (fun c => c.lineWidth) = [stroke.brushSize * 3]) ∧
    (3 ≤ pts.length →
      (drawSmoothStroke sqrt stroke).length = pts.length - 1 ∧
      ∀ i, ∀ h : i + 1 < pts.length, ∀ h' : i < (drawSmoothStroke sqrt stroke).length,
        ((drawSmoothStroke sqrt stroke)[i]).lineWidth
          = stroke.brushSize * 3 * pressureFactor (penProfileOf stroke.penType)
              (hypot sqrt ((pts[i + 1]).x - (pts[i]).x) ((pts[i + 1]).y - (pts[i]).y))) := by
  have hne : stroke.type ≠ .eraser := by rw [hty]; simp
  have halpha : strokeAlpha stroke (penProfileOf stroke.penType) = 0.3 := by
    simp [strokeAlpha, hty]
  have hbw : baseWidth stroke (penProfileOf stroke.penType) = stroke.brushSize * 3 := by
    simp [baseWidth, hty]
  rcases pts with _ | ⟨p0, _ | ⟨p1, _ | ⟨p2, rest⟩⟩⟩
  · simp at hlen
  · simp at hlen
  · refine ⟨?_, ?_, ?_⟩
    · intro call h
      simp [drawSmoothStroke, hpts, hty, strokeAlpha] at h
      rw [h]
    · intro _
      simp [drawSmoothStroke, hpts, hty]
    · intro h; simp at h
  · have hd := drawSmoothStroke_long sqrt stroke p0 (p1 :: p2 :: rest) hpts
      (by simp) hne
    obtain ⟨s1, s2, s3⟩ := smoothLoop_spec sqrt stroke (penProfileOf stroke.penType)
      (p1 :: p2 :: rest) none p0
    refine ⟨?_, ?_, ?_⟩
    · intro call h
      rw [hd] at h
      rw [s2 call h, halpha]
    · intro h; simp at h
    · intro _
      refine ⟨by rw [hd, s1]; simp, ?_⟩
      intro i h h'
      have h'' : i < (smoothLoop sqrt stroke (penProfileOf stroke.penType) none p0
          (p1 :: p2 :: rest)).length := by rw [← hd]; exact h'
      have e := s3 i h h''
      rw [hbw] at e
      rw [← e]
      congr 1
      simp only [hd]

/-- C26 (amended) at `hlStroke`: the two segments are drawn with line width
`9 * 0.6 = 5.4`. -/
theorem highlighter_rendering_witness :
    (drawSmoothStroke Real.sqrt hlStroke).map (fun c => c.lineWidth) = [5.4, 5.4] := by
  have e : Real.sqrt 10000 = 100 := real_sqrt_of_sq (by norm_num) (by norm_num)
  obtain ⟨-, -, h3⟩ := highlighter_rendering Real.sqrt hlStroke
    [⟨0, 0⟩, ⟨100, 0⟩, ⟨200, 0⟩] rfl rfl (by simp)
  obtain ⟨hl, hw⟩ := h3 (by simp)
  have hl2 : (drawSmoothStroke Real.sqrt hlStroke).length = 2 := by simpa using hl
  have w0 := hw 0 (by simp) (by omega)
  have w1 := hw 1 (by simp) (by omega)
  have hp : (penProfileOf hlStroke.penType : PenProfile ℝ) = penBallpoint :=
    penProfileOf_ballpoint
  have hpf : pressureFactor (penProfileOf hlStroke.penType : PenProfile ℝ) 100 = 0.6 := by
    rw [hp]
    norm_num [pressureFactor, penBallpoint]
  norm_num [hypot, e, hpf] at w0 w1
  have hb : hlStroke.brushSize = 3 := rfl
  rw [hb] at w0 w1
  match hd : drawSmoothStroke Real.sqrt hlStroke, hl2 with
  | [a, b], _ =>
    simp only [hd, List.getElem_cons_zero, List.getElem_cons_succ] at w0 w1
    simp only [List.map_cons, List.map_nil, w0, w1]
    norm_num

/-- C26 (as stated) fails at `hlStroke`: the stroke is a highlighter stroke of 3
points with brush size 3, and its segments are drawn with line width 5.4, not
`brushSize*3 = 9`. -/
theorem highlighter_width_counterexample :
    hlStroke.type = .highlighter ∧ hlStroke.brushSize * 3 = 9 ∧
      ∃ call ∈ drawSmoothStroke Real.sqrt hlStroke, call.lineWidth = 5.4 := by
  have e : Real.sqrt 10000 = 100 := real_sqrt_of_sq (by norm_num) (by norm_num)
  have hpf : pressureFactor (penBallpoint : PenProfile ℝ) 100 = 0.6 := by
    norm_num [pressureFactor, penBallpoint]
  refine ⟨rfl, by norm_num [hlStroke], ?_⟩
  have hd := drawSmoothStroke_long Real.sqrt hlStroke ⟨0, 0⟩ [⟨100, 0⟩, ⟨200, 0⟩] rfl
    (by simp) (by simp [hlStroke])
  rw [hd]
  refine ⟨_, List.mem_cons_self _ _, ?_⟩
  have hp : (penProfileOf hlStroke.penType : PenProfile ℝ) = penBallpoint :=
    penProfileOf_ballpoint
  simp only [hp, baseWidth]
  norm_num [hlStroke, hypot, e, hpf]

/-- Every pen type selects one of the five entries of `PEN_PROFILES`. -/
theorem penProfileOf_mem (penType : String) :
    (penProfileOf penType : PenProfile α) ∈ penProfiles := by
  unfold penProfileOf penProfiles
  split_ifs <;> simp

/-- Each of the five profiles has `pressureMin ≤ 1 ≤ pressureMax` and a
non-negative width multiplier. -/
theorem penProfiles_range (pen : PenProfile α) (h : pen ∈ penProfiles) :
    pen.pressureMin ≤ 1 ∧ 1 ≤ pen.pressureMax ∧ 0 ≤ pen.widthMult := by
  simp only [penProfiles, List.mem_cons, List.mem_singleton, List.not_mem_nil, or_false] at h
  rcases h with h | h | h | h | h <;> rw [h] <;>
    norm_num [penFine, penBallpoint, penFountain, penCalligraphy, penMarker]

/-- With `pressureMin ≤ 1 ≤ pressureMax` and a non-negative speed the pressure
factor lies in `[pressureMin, 1]`. -/
theorem pressureFactor_range (pen : PenProfile α) (speed : α)
    (h1 : pen.pressureMin ≤ 1) (hs : 0 ≤ speed) :
    pen.pressureMin ≤ pressureFactor pen speed ∧ pressureFactor pen speed ≤ 1 := by
  unfold pressureFactor
  refine ⟨le_max_left _ _, max_le h1 (le_trans (min_le_right _ _) ?_)⟩
  have : speed / 200 ≥ 0 := div_nonneg hs (by norm_num)
  norm_num
  linarith

/-- The speed of a segment, computed with the real square root, is not negative. -/
theorem hypot_real_nonneg (dx dy : ℝ) : 0 ≤ hypot Real.sqrt dx dy := by
  unfold hypot
  exact Real.sqrt_nonneg _

/-- C28: for each of the five pen profiles and every speed `≥ 0` the pressure
factor `max(pressureMin, min(pressureMax, 1 - speed/200))` lies in
`[pressureMin, 1]`, so a `pressureMax` above 1 is not attained. For a stroke of
3 or more points that is not a highlighter stroke, the pen profile is one of the
five, the speed of every segment is `≥ 0`, the `i`-th call has line width
`brushSize*widthMult*pf` of the `i`-th segment, and with `brushSize ≥ 0` no call
has a line width above `brushSize*widthMult`. -/
theorem pressure_factor_bounds (stroke : Stroke ℝ) (pts : List (Point ℝ))
    (hpts : stroke.points = some pts) (hlen : 3 ≤ pts.length)
    (hty : stroke.type ≠ .highlighter) (hb : 0 ≤ stroke.brushSize) :
    (∀ pen ∈ (penProfiles : List (PenProfile ℝ)), ∀ speed : ℝ, 0 ≤ speed →
      pen.pressureMin ≤ pressureFactor pen speed ∧ pressureFactor pen speed ≤ 1 ∧
      (1 < pen.pressureMax → pressureFactor pen speed ≠ pen.pressureMax)) ∧
    (penProfileOf stroke.penType : PenProfile ℝ) ∈ penProfiles ∧
    (∀ i, ∀ h : i + 1 < pts.length,
      0 ≤ hypot Real.sqrt ((pts[i + 1]).x - (pts[i]).x) ((pts[i + 1]).y - (pts[i]).y)) ∧
    (∀ i, ∀ h : i + 1 < pts.length, ∀ h' : i < (drawSmoothStroke Real.sqrt stroke).length,
      ((drawSmoothStroke Real.sqrt stroke)[i]).lineWidth
        = stroke.brushSize * (penProfileOf stroke.penType).widthMult
          * pressureFactor (penProfileOf stroke.penType)
              (hypot Real.sqrt ((pts[i + 1]).x - (pts[i]).x) ((pts[i + 1]).y - (pts[i]).y))) ∧
    (∀ call ∈ drawSmoothStroke Real.sqrt stroke,
      call.lineWidth ≤ stroke.brushSize * (penProfileOf stroke.penType).widthMult) := by
  have hmem : (penProfileOf stroke.penType : PenProfile ℝ) ∈ penProfiles :=
    penProfileOf_mem stroke.penType
  obtain ⟨r1, -, r3⟩ := penProfiles_range _ hmem
  have hbw : baseWidth stroke (penProfileOf stroke.penType)
      = stroke.brushSize * (penProfileOf stroke.penType).widthMult := by
    simp [baseWidth, hty]
  have hidx : ∀ i, ∀ h : i + 1 < pts.length,
      ∀ h' : i < (drawSmoothStroke Real.sqrt stroke).length,
      ((drawSmoothStroke Real.sqrt stroke)[i]).lineWidth
        = stroke.brushSize * (penProfileOf stroke.penType).widthMult
          * pressureFactor (penProfileOf stroke.penType)
              (hypot Real.sqrt ((pts[i + 1]).x - (pts[i]).x)
                ((pts[i + 1]).y - (pts[i]).y)) := by
    intro i h h'
    by_cases he : stroke.type = .eraser
    · have : drawSmoothStroke Real.sqrt stroke = [] := by
        simp [drawSmoothStroke, hpts, he]
      rw [this] at h'
      simp at h'
    · rcases pts with _ | ⟨p0, rest⟩
      · simp at hlen
      · have hd := drawSmoothStroke_long Real.sqrt stroke p0 rest hpts
          (by simp only [List.length_cons] at hlen; omega) he
        obtain ⟨-, -, s3⟩ := smoothLoop_spec Real.sqrt stroke (penProfileOf stroke.penType)
          rest none p0
        have h'' : i < (smoothLoop Real.sqrt stroke (penProfileOf stroke.penType) none p0
            rest).length := by rw [← hd]; exact h'
        have e := s3 i h h''
        rw [hbw] at e
        rw [← e]
        congr 1
        simp only [hd]
  refine ⟨?_, hmem, fun i h => hypot_real_nonneg _ _, hidx, ?_⟩
  · intro pen hp speed hs
    obtain ⟨q1, -, -⟩ := penProfiles_range pen hp
    obtain ⟨a, b⟩ := pressureFactor_range pen speed q1 hs
    exact ⟨a, b, fun h1 h2 => by rw [h2] at b; exact absurd b (not_le.mpr h1)⟩
  · intro call hc
    obtain ⟨i, hi, rfl⟩ := List.getElem_of_mem hc
    have hlen2 : (drawSmoothStroke Real.sqrt stroke).length + 1 ≤ pts.length := by
      by_cases he : stroke.type = .eraser
      · have : drawSmoothStroke Real.sqrt stroke = [] := by
          simp [drawSmoothStroke, hpts, he]
        rw [this]; simp; omega
      · rcases pts with _ | ⟨p0, rest⟩
        · simp at hlen
        · have hd := drawSmoothStroke_long Real.sqrt stroke p0 rest hpts
            (by simp only [List.length_cons] at hlen; omega) he
          rw [hd, (smoothLoop_spec Real.sqrt stroke _ rest none p0).1]
          simp
    have hi1 : i + 1 < pts.length := by omega
    rw [hidx i hi1 hi]
    have hp := (pressureFactor_range (penProfileOf stroke.penType)
      (hypot Real.sqrt ((pts[i + 1]).x - (pts[i]).x) ((pts[i + 1]).y - (pts[i]).y))
      r1 (hypot_real_nonneg _ _)).2
    have hnn : 0 ≤ stroke.brushSize * (penProfileOf stroke.penType).widthMult :=
      mul_nonneg hb r3
    calc stroke.brushSize * (penProfileOf stroke.penType).widthMult * _
        ≤ stroke.brushSize * (penProfileOf stroke.penType).widthMult * 1 :=
          mul_le_mul_of_nonneg_left hp hnn
      _ = _ := mul_one _

/-- C28 at `penStroke` (ballpoint, brush size 3, segments of length 100): both
calls have line width `3 * 1.0 * 0.6 = 1.8 ≤ 3`. -/
theorem pressure_factor_bounds_witness :
    penStroke.points = some [⟨0, 0⟩, ⟨100, 0⟩, ⟨200, 0⟩] ∧
    (penProfileOf penStroke.penType : PenProfile ℝ) ∈ penProfiles ∧
    ∀ call ∈ drawSmoothStroke Real.sqrt penStroke,
      call.lineWidth ≤ penStroke.brushSize * (penProfileOf penStroke.penType).widthMult :=
  have h := pressure_factor_bounds penStroke [⟨0, 0⟩, ⟨100, 0⟩, ⟨200, 0⟩] rfl (by simp)
    (by simp [penStroke]) (by norm_num [penStroke])
  ⟨rfl, h.2.1, h.2.2.2.2⟩

/-! ### Disabled flag, tool switch, keyboard shortcuts -/

/-- The Delete or Backspace key with a non-empty selection: the delete callback
gets the selected ids and the selection is cleared. -/
theorem handleKey_delete (props : CanvasProps α) (st : CanvasState α) (e : KeyEvent)
    (hsel : st.selectedIds ≠ []) (hk : e.key = "Delete" ∨ e.key = "Backspace") :
    handleKey props st e
      = ({ st with selectedIds := [], selectionBounds := none },
          if props.onDeleteStrokes = true then [.deleteStrokes st.selectedIds] else []) := by
  have hlen : ¬ st.selectedIds.length = 0 := by
    intro h; exact hsel (List.length_eq_zero.mp h)
  have hd : ¬ (e.key = "d" ∧ (e.ctrlKey = true ∨ e.metaKey = true)) := by
    rintro ⟨h, -⟩
    rcases hk with h' | h' <;> rw [h'] at h <;> exact absurd h (by decide)
  unfold handleKey
  rw [if_neg hlen]
  simp only [if_neg hd, if_pos hk, hk, true_and, if_true]

/-- With the disabled flag set the three pointer handlers return at once. -/
theorem pointer_handlers_disabled (sqrt : α → α) (pi : α) (props : CanvasProps α)
    (st : CanvasState α) (e : PointerEvent α) (hd : props.disabled = true) :
    handlePointerDown sqrt props st e = (st, []) ∧
    handlePointerMove sqrt props st e = (st, []) ∧
    handlePointerUp sqrt pi props st e = (st, []) := by
  refine ⟨?_, ?_, ?_⟩
  · unfold handlePointerDown; rw [if_pos hd]
  · unfold handlePointerMove; rw [if_pos hd]
  · unfold handlePointerUp; rw [if_pos hd]

/-- C23: the code at the failing input `replayProps` (the props of the canvas
during replay, `disabled = true`): the Delete key with the strokes `"a"` and
`"b"` selected invokes the delete callback with the selection and clears it,
and a wheel event with the control key invokes the zoom-change callback with
1.5, while the three pointer handlers return at once and change nothing
(`pointer_handlers_disabled`). -/
theorem disabled_key_wheel_still_fire :
    replayProps.disabled = true ∧
    Effect.zoomChange 1.5 ∈ handleWheel replayProps zoomWheel ∧
    Effect.deleteStrokes ["a", "b"] ∈ (handleKey replayProps selectedState deleteKey).2 ∧
    (handleKey replayProps selectedState deleteKey).1.selectedIds = [] ∧
    handlePointerDown Real.sqrt replayProps selectedState originEvent = (selectedState, []) := by
  have hk := handleKey_delete replayProps selectedState deleteKey
    (by simp [selectedState]) (Or.inl rfl)
  refine ⟨rfl, ?_, ?_, ?_,
    (pointer_handlers_disabled Real.sqrt Real.pi replayProps selectedState originEvent rfl).1⟩
  · simp only [handleWheel, replayProps, lassoProps, baseProps, zoomWheel, jsOr]
    norm_num
  · rw [hk]
    simp [replayProps, lassoProps, baseProps, selectedState]
  · rw [hk]

/-- C22 (amended): a tool switch changes the `tool` prop and nothing else: the
selected ids and the selection bounds after it are those before it. The
selection is cleared by a pointer-down of the lasso tool outside the padded
selection bounds, and by the Delete or Backspace key with a non-empty
selection. -/
theorem tool_switch_keeps_selection :
    (∀ (props : CanvasProps α) (st : CanvasState α) (tool : Option Tool),
      (switchTool props st tool).1.tool = tool ∧
      (switchTool props st tool).2.selectedIds = st.selectedIds ∧
      (switchTool props st tool).2.selectionBounds = st.selectionBounds) ∧
    (∀ (sqrt : α → α) (props : CanvasProps α) (st : CanvasState α)
      (e : PointerEvent α),
      props.disabled = false → props.tool = some .lasso →
      inSelectionBounds st (screenToCanvas props e.clientX e.clientY) = false →
      (handlePointerDown sqrt props st e).1.selectedIds = [] ∧
      (handlePointerDown sqrt props st e).1.selectionBounds = none) ∧
    (∀ (props : CanvasProps α) (st : CanvasState α) (e : KeyEvent),
      st.selectedIds ≠ [] → (e.key = "Delete" ∨ e.key = "Backspace") →
      (handleKey props st e).1.selectedIds = [] ∧
      (handleKey props st e).1.selectionBounds = none) := by
  refine ⟨fun props st tool => ⟨rfl, rfl, rfl⟩, ?_, ?_⟩
  · intro sqrt props st e hd ht hb
    simp [handlePointerDown, hd, ht, hb]
  · intro props st e hsel hk
    rw [handleKey_delete props st e hsel hk]
    exact ⟨rfl, rfl⟩

/-- C22 (as stated) fails at `selectedState`: after a switch from the lasso tool
to the pencil the two strokes are still selected and the bounds still present. -/
theorem tool_switch_selection_counterexample :
    (switchTool lassoProps selectedState (some .pencil)).1.tool = some .pencil ∧
    (switchTool lassoProps selectedState (some .pencil)).2.selectedIds = ["a", "b"] ∧
    ((switchTool lassoProps selectedState (some .pencil)).2.selectionBounds).isSome = true :=
  ⟨rfl, rfl, rfl⟩

omit [LinearOrderedField α] in
/-- The commit callback receives exactly the strokes of a list of commit effects. -/
theorem committed_map_strokeEnd (l : List (Stroke α)) :
    committed (l.map fun d => (Effect.strokeEnd d : Effect α)) = l := by
  induction l with
  | nil => rfl
  | cons a t ih =>
    simp only [committed, List.map_cons, List.filterMap_cons] at ih ⊢
    rw [ih]

omit [LinearOrderedField α] in
/-- Commit effects applied to the board append their strokes to the layer. -/
theorem applyBoardEffects_strokeEnd (add : α → α → α) (l : List (Stroke α)) :
    ∀ b : BoardState α,
      (applyBoardEffects add b (l.map fun d => (Effect.strokeEnd d : Effect α))).map
        (fun b => b.drawingLayer) = some (b.drawingLayer ++ l) := by
  induction l with
  | nil => intro b; simp [applyBoardEffects]
  | cons a t ih =>
    intro b
    simp only [List.map_cons, applyBoardEffects, applyBoardEffect]
    rw [ih]
    simp [handleStrokeEnd]

/-- When every stroke of the list has a points list, `cloneAll` returns one
clone per stroke, in order, the `i`-th with the id `freshId (k+i)`. -/
theorem cloneAll_spec (freshId : Nat → String) (l : List (Stroke α)) :
    ∀ k, (∀ s ∈ l, s.points ≠ none) →
      ∃ clones, cloneAll freshId k l = some clones ∧ clones.length = l.length ∧
        ∀ i, ∀ h : i < l.length, ∀ h' : i < clones.length,
          ∃ pts, (l[i]).points = some pts ∧
            clones[i] = cloneStroke (l[i]) (freshId (k + i)) pts := by
  induction l with
  | nil =>
    intro k _
    exact ⟨[], rfl, rfl, fun i h => by simp at h⟩
  | cons s rest ih =>
    intro k hp
    obtain ⟨clones, hc, hl, hi⟩ := ih (k + 1) (fun t ht => hp t (List.mem_cons_of_mem _ ht))
    cases hs : s.points with
    | none => exact absurd hs (hp s (List.mem_cons_self _ _))
    | some pts =>
      refine ⟨cloneStroke s (freshId k) pts :: clones, ?_, by simp [hl], ?_⟩
      · simp only [cloneAll, hs, hc]
      · intro i h h'
        cases i with
        | zero => exact ⟨pts, hs, rfl⟩
        | succ j =>
          obtain ⟨q, hq, hq'⟩ := hi j (by simpa using h) (by simpa using h')
          refine ⟨q, hq, ?_⟩
          simp only [List.getElem_cons_succ]
          rw [hq']
          congr 2
          omega

/-- C21: with a non-empty selection, the duplicate shortcut (the key `d` with
Ctrl or Meta) on a layer whose selected strokes have a points list commits
exactly one clone per layer stroke whose id is selected, in layer order; the
`i`-th clone is the `i`-th selected stroke with the newly generated id
`freshId i` and its points, in the same order, shifted by (+20, +20), every
other field as in the original; after the commits (whatever the
addition of the host's numbers) the layer is the old layer, unmodified,
followed by the clones; and the selection is the list of the clones'
ids. -/
theorem duplicate_shortcut (props : CanvasProps α) (st : CanvasState α) (e : KeyEvent)
    (undo : List (Stroke α)) (add : α → α → α)
    (hsel : st.selectedIds ≠ []) (hk : e.key = "d")
    (hmod : e.ctrlKey = true ∨ e.metaKey = true)
    (hpts : ∀ s ∈ props.drawingLayer, st.selectedIds.contains s.id = true → s.points ≠ none) :
    ∃ clones : List (Stroke α),
      committed (handleKey props st e).2 = clones ∧
      clones.length = (props.drawingLayer.filter fun s => st.selectedIds.contains s.id).length ∧
      (∀ i, ∀ h : i < (props.drawingLayer.filter fun s => st.selectedIds.contains s.id).length,
        ∀ h' : i < clones.length,
        ∃ pts, ((props.drawingLayer.filter fun s => st.selectedIds.contains s.id)[i]).points
            = some pts ∧
          clones[i] = { (props.drawingLayer.filter fun s => st.selectedIds.contains s.id)[i] with
            id := e.freshId i, points := some (pts.map fun p => ⟨p.x + 20, p.y + 20⟩) }) ∧
      (applyBoardEffects add ⟨props.drawingLayer, undo⟩ (handleKey props st e).2).map
          (fun b => b.drawingLayer) = some (props.drawingLayer ++ clones) ∧
      (handleKey props st e).1.selectedIds = clones.map fun d => d.id := by
  have hlen : ¬ st.selectedIds.length = 0 := by
    intro h; exact hsel (List.length_eq_zero.mp h)
  have hdel : ¬ (e.key = "Delete" ∨ e.key = "Backspace") := by
    rw [hk]; decide
  have hdel2 : ¬ ((e.key = "Delete" ∨ e.key = "Backspace") ∧ props.onDeleteStrokes = true) :=
    fun h => hdel h.1
  obtain ⟨clones, hc, hl, hi⟩ := cloneAll_spec e.freshId
    (props.drawingLayer.filter fun s => st.selectedIds.contains s.id) 0
    (fun s hs => hpts s (List.mem_filter.mp hs).1 (List.mem_filter.mp hs).2)
  have hkey : handleKey props st e
      = ({ st with selectedIds := clones.map fun d => d.id },
          [.preventDefault] ++ clones.map fun d => Effect.strokeEnd d) := by
    unfold handleKey
    rw [if_neg hlen]
    simp only [if_neg hdel, if_neg hdel2, if_pos (And.intro hk hmod), hc, List.nil_append]
  refine ⟨clones, ?_, hl, ?_, ?_, ?_⟩
  · rw [hkey]
    show committed ([Effect.preventDefault] ++ clones.map fun d => Effect.strokeEnd d) = clones
    rw [committed_append, committed_map_strokeEnd]
    rfl
  · intro i h h'
    obtain ⟨pts, h1, h2⟩ := hi i h h'
    refine ⟨pts, h1, ?_⟩
    rw [h2, Nat.zero_add]
    rfl
  · rw [hkey]
    show (applyBoardEffects add ⟨props.drawingLayer, undo⟩
      (Effect.preventDefault :: clones.map fun d => Effect.strokeEnd d)).map
        (fun b => b.drawingLayer) = some (props.drawingLayer ++ clones)
    simp only [applyBoardEffects, applyBoardEffect]
    exact applyBoardEffects_strokeEnd add clones _
  · rw [hkey]

/-- C21 at the scenario: with the strokes `"a"` and `"b"` of `lassoLayer`
selected, Ctrl+D commits two clones and leaves the four strokes of the layer
in place before them. -/
theorem duplicate_shortcut_witness :
    selectedState.selectedIds ≠ [] ∧ duplicateKey.key = "d" ∧
    ∃ clones : List (Stroke ℝ),
      committed (handleKey lassoProps selectedState duplicateKey).2 = clones ∧
      clones.length
        = (lassoProps.drawingLayer.filter fun s => selectedState.selectedIds.contains s.id).length ∧
      (applyBoardEffects (fun a b => a + b) ⟨lassoProps.drawingLayer, []⟩
          (handleKey lassoProps selectedState duplicateKey).2).map (fun b => b.drawingLayer)
        = some (lassoProps.drawingLayer ++ clones) ∧
      (handleKey lassoProps selectedState duplicateKey).1.selectedIds
        = clones.map fun d => d.id := by
  have hs : selectedState.selectedIds ≠ [] := by simp [selectedState]
  obtain ⟨clones, h1, h2, -, h4, h5⟩ := duplicate_shortcut lassoProps selectedState
    duplicateKey [] (fun a b => a + b) hs rfl (Or.inl rfl)
    (by
      intro s hs _
      simp only [lassoProps, lassoLayer, List.mem_cons, List.mem_singleton,
        List.not_mem_nil, or_false] at hs
      rcases hs with h | h | h | h <;> rw [h] <;> simp)
  exact ⟨hs, rfl, clones, h1, h2, h4, h5⟩

/-! ### Selection drag -/

omit [LinearOrderedField α] in
/-- The calls of the move callback of two effect lists one after the other. -/
theorem moveCalls_append (a b : List (Effect α)) :
    moveCalls (a ++ b) = moveCalls a ++ moveCalls b := by
  simp [moveCalls, List.filterMap_append]

omit [LinearOrderedField α] in
/-- The effects of two lists applied one after the other. -/
theorem applyBoardEffects_append (add : α → α → α) (l1 l2 : List (Effect α)) :
    ∀ b : BoardState α,
      applyBoardEffects add b (l1 ++ l2)
        = (applyBoardEffects add b l1).bind fun b' => applyBoardEffects add b' l2 := by
  induction l1 with
  | nil => intro b; rfl
  | cons e t ih =>
    intro b
    simp only [List.cons_append, applyBoardEffects]
    cases applyBoardEffect add b e with
    | none => rfl
    | some b' => exact ih b'

/-- Two shifts of a stroke one after the other are one shift by the sum. -/
theorem shiftStroke_add (s : Stroke α) (a b c d : α) :
    shiftStroke c d (shiftStroke a b s) = shiftStroke (a + c) (b + d) s := by
  unfold shiftStroke
  cases hp : s.points with
  | none => simp [hp]
  | some pts =>
    simp only [hp, Option.map_some', List.map_map]
    congr 3
    funext p
    simp only [Function.comp, add_assoc]

/-- A shift by zero leaves a stroke as it is. -/
theorem shiftStroke_zero (s : Stroke α) (a b : α) (ha : a = 0) (hb : b = 0) :
    shiftStroke a b s = s := by
  subst ha hb
  unfold shiftStroke
  cases s with
  | mk id type penType points color brushSize pageId recognizedShape userId layer timestamp =>
    cases points with
    | none => rfl
    | some pts =>
      simp only [Option.map_some', add_zero]
      congr 2
      exact List.map_id _

/-- With the exact addition, the translation of a stroke with a points list is
the stroke with every point shifted. -/
theorem translateStroke_exact (dx dy : α) (s : Stroke α) (h : s.points ≠ none) :
    translateStroke (fun a b => a + b) dx dy s = some (shiftStroke dx dy s) := by
  unfold translateStroke shiftStroke
  cases hp : s.points with
  | none => exact absurd hp h
  | some pts => simp

/-- With the exact addition, the layer map of `handleMoveStrokes` on a layer
whose selected strokes have a points list shifts the selected strokes and keeps
the others. -/
theorem moveAll_exact (ids : List String) (dx dy : α) (l : List (Stroke α))
    (h : ∀ s ∈ l, ids.contains s.id = true → s.points ≠ none) :
    moveAll (fun a b => a + b) ids dx dy l
      = some (l.map fun s => if ids.contains s.id then shiftStroke dx dy s else s) := by
  induction l with
  | nil => rfl
  | cons a t ih =>
    have iht := ih (fun s hs => h s (List.mem_cons_of_mem _ hs))
    by_cases hc : ids.contains a.id = true
    · simp only [moveAll, if_pos hc,
        translateStroke_exact dx dy a (h a (List.mem_cons_self _ _) hc), iht, List.map_cons]
    · simp only [moveAll, if_neg hc, iht, List.map_cons]

/-- Two moves of the same selection one after the other are one move by the
sum. -/
theorem layer_move_move (l : List (Stroke α)) (ids : List String) (a b c d : α) :
    (l.map fun s => if ids.contains s.id then shiftStroke a b s else s).map
        (fun s => if ids.contains s.id then shiftStroke c d s else s)
      = l.map fun s => if ids.contains s.id then shiftStroke (a + c) (b + d) s else s := by
  rw [List.map_map]
  apply List.map_congr_left
  intro s _
  simp only [Function.comp]
  by_cases h : ids.contains s.id = true
  · have h' : ids.contains (shiftStroke a b s).id = true := h
    simp only [if_pos h, if_pos h', shiftStroke_add]
  · simp only [if_neg h]

/-- One pointer-move of a selection drag. -/
theorem handlePointerMove_drag (sqrt : α → α) (props : CanvasProps α) (st : CanvasState α)
    (e : PointerEvent α) (hen : props.disabled = false) (htool : props.tool = some .lasso)
    (hcb : props.onMoveStrokes = true) (hdraw : st.isDrawing = true)
    (hdrag : st.isDraggingSelection = true) (hgroup : st.templateGroupDrag = none) :
    handlePointerMove sqrt props st e
      = ({ st with dragStart := screenToCanvas props e.clientX e.clientY,
                   selectionBounds := shiftBounds st.selectionBounds
                     ((screenToCanvas props e.clientX e.clientY).x - st.dragStart.x)
                     ((screenToCanvas props e.clientX e.clientY).y - st.dragStart.y) },
          [.preventDefault,
            .moveStrokes st.selectedIds
              ((screenToCanvas props e.clientX e.clientY).x - st.dragStart.x)
              ((screenToCanvas props e.clientX e.clientY).y - st.dragStart.y)]) := by
  simp [handlePointerMove, hen, htool, hcb, hdraw, hdrag, hgroup]

/-- Shifting bounds twice is shifting them by the sum. -/
theorem shiftBounds_add (b : Option (Bounds α)) (a c a' c' : α) :
    shiftBounds (shiftBounds b a c) a' c' = shiftBounds b (a + a') (c + c') := by
  cases b with
  | none => rfl
  | some b => simp [shiftBounds, add_assoc]

/-- The moves of a selection drag from a state that is dragging: the selection
is kept, the bounds are shifted by the total displacement, the move callback
gets the incremental deltas, and the calls applied (with the exact addition) to
a layer whose selected strokes have a points list shift the selected strokes by
the total displacement. -/
theorem runMoves_drag (sqrt : α → α) (props : CanvasProps α)
    (hen : props.disabled = false) (htool : props.tool = some .lasso)
    (hcb : props.onMoveStrokes = true) (moves : List (PointerEvent α)) :
    ∀ (st : CanvasState α) (b : BoardState α),
      st.isDrawing = true → st.isDraggingSelection = true → st.templateGroupDrag = none →
      (∀ s ∈ b.drawingLayer, st.selectedIds.contains s.id = true → s.points ≠ none) →
      (runMoves sqrt props st moves).1.selectedIds = st.selectedIds ∧
      (runMoves sqrt props st moves).1.selectionBounds
        = shiftBounds st.selectionBounds
            (((eventPositions props moves).getLastD st.dragStart).x - st.dragStart.x)
            (((eventPositions props moves).getLastD st.dragStart).y - st.dragStart.y) ∧
      moveCalls (runMoves sqrt props st moves).2
        = (deltas st.dragStart (eventPositions props moves)).map
            (fun d => (st.selectedIds, d)) ∧
      applyBoardEffects (fun a b => a + b) b (runMoves sqrt props st moves).2
        = some { b with drawingLayer := b.drawingLayer.map (fun s =>
            if st.selectedIds.contains s.id then
              (shiftStroke
                (((eventPositions props moves).getLastD st.dragStart).x - st.dragStart.x)
                (((eventPositions props moves).getLastD st.dragStart).y - st.dragStart.y) s)
            else s) } := by
  induction moves with
  | nil =>
    intro st b _ _ _ _
    refine ⟨rfl, ?_, rfl, ?_⟩
    · simp only [runMoves, eventPositions, List.map_nil, List.getLastD_nil, sub_self]
      cases st.selectionBounds <;> simp [shiftBounds]
    · simp only [runMoves, eventPositions, List.map_nil, List.getLastD_nil, applyBoardEffects]
      congr 1
      have hmap : (b.drawingLayer.map fun s =>
          if st.selectedIds.contains s.id then
            shiftStroke (st.dragStart.x - st.dragStart.x) (st.dragStart.y - st.dragStart.y) s
          else s) = b.drawingLayer := by
        conv_rhs => rw [← List.map_id b.drawingLayer]
        apply List.map_congr_left
        intro s _
        split_ifs
        · exact shiftStroke_zero s _ _ (sub_self _) (sub_self _)
        · rfl
      rw [hmap]
  | cons e rest ih =>
    intro st b hdraw hdrag hgroup hpts
    have hstep := handlePointerMove_drag sqrt props st e hen htool hcb hdraw hdrag hgroup
    have hsel : (handlePointerMove sqrt props st e).1.selectedIds = st.selectedIds := by
      rw [hstep]
    have hpts' : ∀ s ∈ (b.drawingLayer.map fun s =>
          if st.selectedIds.contains s.id then
            shiftStroke ((screenToCanvas props e.clientX e.clientY).x - st.dragStart.x)
              ((screenToCanvas props e.clientX e.clientY).y - st.dragStart.y) s
          else s),
        (handlePointerMove sqrt props st e).1.selectedIds.contains s.id = true →
          s.points ≠ none := by
      intro s hs hc
      rw [hsel] at hc
      obtain ⟨s0, hs0, rfl⟩ := List.mem_map.mp hs
      by_cases hc0 : st.selectedIds.contains s0.id = true
      · have hp := hpts s0 hs0 hc0
        rw [if_pos hc0]
        unfold shiftStroke
        cases hq : s0.points with
        | none => exact absurd hq hp
        | some pts => simp
      · rw [if_neg hc0] at hc ⊢
        exact absurd hc hc0
    obtain ⟨i1, i2, i3, i4⟩ := ih (handlePointerMove sqrt props st e).1
      { b with drawingLayer := b.drawingLayer.map (fun s =>
          if st.selectedIds.contains s.id then
            (shiftStroke ((screenToCanvas props e.clientX e.clientY).x - st.dragStart.x)
              ((screenToCanvas props e.clientX e.clientY).y - st.dragStart.y) s)
          else s) }
      (by rw [hstep]; exact hdraw) (by rw [hstep]; exact hdrag) (by rw [hstep]; exact hgroup)
      hpts'
    have hds : (handlePointerMove sqrt props st e).1.dragStart
        = screenToCanvas props e.clientX e.clientY := by rw [hstep]
    have hbd : (handlePointerMove sqrt props st e).1.selectionBounds
        = shiftBounds st.selectionBounds
            ((screenToCanvas props e.clientX e.clientY).x - st.dragStart.x)
            ((screenToCanvas props e.clientX e.clientY).y - st.dragStart.y) := by rw [hstep]
    have heff : (handlePointerMove sqrt props st e).2
        = [.preventDefault,
            .moveStrokes st.selectedIds
              ((screenToCanvas props e.clientX e.clientY).x - st.dragStart.x)
              ((screenToCanvas props e.clientX e.clientY).y - st.dragStart.y)] := by rw [hstep]
    have hlast : (eventPositions props (e :: rest)).getLastD st.dragStart
        = (eventPositions props rest).getLastD (screenToCanvas props e.clientX e.clientY) := by
      simp only [eventPositions, List.map_cons, List.getLastD_cons]
    rw [hsel] at i1 i3 i4
    rw [hds] at i3 i4
    rw [hds, hbd] at i2
    refine ⟨?_, ?_, ?_, ?_⟩
    · simp only [runMoves]
      exact i1
    · simp only [runMoves]
      rw [i2, shiftBounds_add, hlast]
      congr 1 <;> ring
    · simp only [runMoves]
      rw [moveCalls_append, i3, heff]
      simp [moveCalls, eventPositions, deltas]
    · simp only [runMoves]
      rw [applyBoardEffects_append, heff]
      simp only [applyBoardEffects, applyBoardEffect, handleMoveStrokes,
        moveAll_exact st.selectedIds _ _ b.drawingLayer hpts, Option.map_some',
        Option.some_bind]
      rw [i4]
      simp only [layer_move_move]
      rw [hlast]
      congr 2
      apply List.map_congr_left
      intro s _
      split_ifs
      · congr 1 <;> ring
      · rfl

/-- C24 (amended): over exact arithmetic, a drag of the lasso tool that starts at
the logical position `p0` inside the padded selection bounds and receives moves
at `p1..pn` invokes the move callback with the selected ids and the incremental
deltas `p_i - p_(i-1)`; applying these calls to a drawing layer whose selected
strokes have a points list translates every point of every selected stroke by
`pn - p0` and leaves every other stroke unchanged; the selection is kept and
its bounds are translated by `pn - p0` with the same width and height. -/
theorem selection_drag (sqrt : α → α) (props : CanvasProps α) (st : CanvasState α)
    (down : PointerEvent α) (moves : List (PointerEvent α)) (b : BoardState α)
    (hen : props.disabled = false) (htool : props.tool = some .lasso)
    (hcb : props.onMoveStrokes = true) (hgroup : st.templateGroupDrag = none)
    (hin : inSelectionBounds st (screenToCanvas props down.clientX down.clientY) = true)
    (hpts : ∀ s ∈ b.drawingLayer, st.selectedIds.contains s.id = true → s.points ≠ none) :
    moveCalls ((handlePointerDown sqrt props st down).2
        ++ (runMoves sqrt props (handlePointerDown sqrt props st down).1 moves).2)
      = (deltas (screenToCanvas props down.clientX down.clientY)
          (eventPositions props moves)).map (fun d => (st.selectedIds, d)) ∧
    applyBoardEffects (fun a b => a + b) b ((handlePointerDown sqrt props st down).2
        ++ (runMoves sqrt props (handlePointerDown sqrt props st down).1 moves).2)
      = some { b with drawingLayer := b.drawingLayer.map (fun s =>
          if st.selectedIds.contains s.id then
            { s with points := s.points.map fun pts => pts.map fun p =>
                ⟨p.x + (((eventPositions props moves).getLastD
                    (screenToCanvas props down.clientX down.clientY)).x
                  - (screenToCanvas props down.clientX down.clientY).x),
                 p.y + (((eventPositions props moves).getLastD
                    (screenToCanvas props down.clientX down.clientY)).y
                  - (screenToCanvas props down.clientX down.clientY).y)⟩ }
          else s) } ∧
    (runMoves sqrt props (handlePointerDown sqrt props st down).1 moves).1.selectedIds
      = st.selectedIds ∧
    ∃ b0 b1 : Bounds α, st.selectionBounds = some b0 ∧
      (runMoves sqrt props (handlePointerDown sqrt props st down).1 moves).1.selectionBounds
        = some b1 ∧
      b1.x = b0.x + (((eventPositions props moves).getLastD
              (screenToCanvas props down.clientX down.clientY)).x
            - (screenToCanvas props down.clientX down.clientY).x) ∧
      b1.y = b0.y + (((eventPositions props moves).getLastD
              (screenToCanvas props down.clientX down.clientY)).y
            - (screenToCanvas props down.clientX down.clientY).y) ∧
      b1.w = b0.w ∧ b1.h = b0.h := by
  have hdown : handlePointerDown sqrt props st down
      = ({ st with isDraggingSelection := true,
                   dragStart := screenToCanvas props down.clientX down.clientY,
                   isDrawing := true }, [.preventDefault]) := by
    simp [handlePointerDown, hen, htool, hin]
  have hsel : (handlePointerDown sqrt props st down).1.selectedIds = st.selectedIds := by
    rw [hdown]
  obtain ⟨i1, i2, i3, i4⟩ := runMoves_drag sqrt props hen htool hcb moves
    (handlePointerDown sqrt props st down).1 b (by rw [hdown]) (by rw [hdown])
    (by rw [hdown]; exact hgroup) (by rw [hsel]; exact hpts)
  have hds : (handlePointerDown sqrt props st down).1.dragStart
      = screenToCanvas props down.clientX down.clientY := by rw [hdown]
  have hbd : (handlePointerDown sqrt props st down).1.selectionBounds = st.selectionBounds := by
    rw [hdown]
  have heff : (handlePointerDown sqrt props st down).2 = [.preventDefault] := by rw [hdown]
  rw [hsel] at i1 i3 i4
  rw [hds] at i3 i4
  rw [hds, hbd] at i2
  refine ⟨?_, ?_, i1, ?_⟩
  · rw [moveCalls_append, i3, heff]
    rfl
  · rw [applyBoardEffects_append, heff]
    simp only [applyBoardEffects, applyBoardEffect, Option.some_bind]
    rw [i4]
    rfl
  · cases hb0 : st.selectionBounds with
    | none => simp [inSelectionBounds, hb0] at hin
    | some b0 =>
      rw [hb0] at i2
      exact ⟨b0, _, rfl, i2, rfl, rfl, rfl, rfl⟩

/-- C24 (amended) at the scenario: with `"a"` and `"b"` selected and the bounds
(10,10,40,50), a drag from (20,20) through (30,25) to (50,60) calls the move
callback with the deltas (10,5) and (20,35) and keeps the selection. -/
theorem selection_drag_witness :
    inSelectionBounds selectedState (screenToCanvas lassoProps 20 20) = true ∧
    moveCalls ((handlePointerDown Real.sqrt lassoProps selectedState (eventAt 20 20)).2
        ++ (runMoves Real.sqrt lassoProps
            (handlePointerDown Real.sqrt lassoProps selectedState (eventAt 20 20)).1
            [eventAt 30 25, eventAt 50 60]).2)
      = [(["a", "b"], 10, 5), (["a", "b"], 20, 35)] ∧
    (runMoves Real.sqrt lassoProps
        (handlePointerDown Real.sqrt lassoProps selectedState (eventAt 20 20)).1
        [eventAt 30 25, eventAt 50 60]).1.selectedIds = ["a", "b"] := by
  have hin : inSelectionBounds selectedState (screenToCanvas lassoProps 20 20) = true := by
    norm_num [inSelectionBounds, selectedState, idleState, screenToCanvas, lassoProps,
      baseProps, jsOr, panX, panY]
  have h := selection_drag Real.sqrt lassoProps selectedState (eventAt 20 20)
    [eventAt 30 25, eventAt 50 60] ⟨lassoLayer, []⟩ rfl rfl rfl rfl hin
    (by
      intro s hs _
      simp only [lassoLayer, List.mem_cons, List.mem_singleton, List.not_mem_nil,
        or_false] at hs
      rcases hs with h | h | h | h <;> rw [h] <;> simp)
  refine ⟨hin, ?_, h.2.2.1⟩
  rw [h.1]
  norm_num [deltas, eventPositions, screenToCanvas, lassoProps, baseProps, eventAt, jsOr,
    panX, panY, selectedState, idleState]

/-! ### Binary64 arithmetic: where the exact statements fail -/

/-- C6 (as stated) fails in binary64 arithmetic: the point
(0.9999999999999999, 0.8) lies left of the bounding box of the triangle
(1, 0.8), (1.6, 2.6), (1.6, 0.2) (`px < minX`), the triangle is not degenerate
(so it is convex), and `pointInPolygon` returns true. -/
theorem pointInPolygon_bbox_counterexample :
    belowOne < minX triangle64 ∧
    (∃ a b c : Point ℚ, triangle64 = [a, b, c] ∧
      (b.x - a.x) * (c.y - a.y) - (b.y - a.y) * (c.x - a.x) ≠ 0) ∧
    pointInPolygon64 belowOne (round64 (8 / 10)) triangle64 = true :=
  ⟨by decide!, ⟨_, _, _, rfl, by decide!⟩, by decide!⟩

/-- C7 (as stated) fails in binary64 arithmetic: on the polygon of the two
vertices (0, 0) and (1, 3), `pointInPolygon` returns true at the point
(0.3333333333333333, 1): the edge test holds in one direction of the edge and
not in the other. -/
theorem pointInPolygon_twoGon_counterexample :
    twoGon.length = 2 ∧
    edgeCrosses64 (round64 (1 / 3)) 1 ⟨0, 0⟩ ⟨1, 3⟩ = false ∧
    edgeCrosses64 (round64 (1 / 3)) 1 ⟨1, 3⟩ ⟨0, 0⟩ = true ∧
    pointInPolygon64 (round64 (1 / 3)) 1 twoGon = true := by
  decide!

/-- C8 (as stated) fails in binary64 arithmetic: for the segment from (-3, 0) to
(0.1, 0) and the point (0.1, 0), its second end point, the least distance to the
segment is 0 (at `t = 1`), and `distToSegment` returns `3 / 2^55`, about
8.3e-17. -/
theorem distToSegment_endpoint_counterexample :
    distToSegment64 (round64 (1 / 10)) 0 (-3) 0 (round64 (1 / 10)) 0
      = 3 / 36028797018963968 ∧
    (round64 (1 / 10) - (-3 + 1 * (round64 (1 / 10) - -3))) ^ 2
      + (0 - (0 + 1 * (0 - 0))) ^ 2 = (0 : ℚ) := by
  decide!

/-- C10 (as stated) fails in binary64 arithmetic: for the stroke with the points
(-3, 0) and (0.1, 0) and the point (0.1, 0), `distToStroke` returns `3 / 2^55`,
which is more than the distance 0 from the point to `points[1]`. -/
theorem distToStroke_point_counterexample :
    flatStroke64.points = some [⟨-3, 0⟩, ⟨round64 (1 / 10), 0⟩] ∧
    distToStroke64 (round64 (1 / 10)) 0 flatStroke64
      = ((3 / 36028797018963968 : ℚ) : WithTop ℚ) ∧
    hypot64 (sub64 (round64 (1 / 10)) (round64 (1 / 10))) (sub64 0 0) = 0 ∧
    ¬ distToStroke64 (round64 (1 / 10)) 0 flatStroke64
      ≤ ((hypot64 (sub64 (round64 (1 / 10)) (round64 (1 / 10))) (sub64 0 0) : ℚ) : WithTop ℚ) := by
  decide!

/-- C13 (as stated) fails in binary64 arithmetic: the lasso (0,0), (2,0), (2,2),
(0,2) selects the stroke with the points (0.2, 0.2) and (0.9, 0.9); the stored
bounds have `x = 0.2` and `w = 0.9 - 0.2` rounded, and `x + w` is less than 0.9
(as an exact sum and as the sum 0.8999999999999999 of the host), so the point
(0.9, 0.9) lies outside the box and the side `x + w` is not attained. -/
theorem lasso_bounds_counterexample :
    lassoInside64 diagonalLayer64 lassoSquare64 = ["s"] ∧
    (selectionBoundsOf64 diagonalLayer64 ["s"]).x = round64 (2 / 10) ∧
    (selectionBoundsOf64 diagonalLayer64 ["s"]).x + (selectionBoundsOf64 diagonalLayer64 ["s"]).w
      < round64 (9 / 10) ∧
    add64 (selectionBoundsOf64 diagonalLayer64 ["s"]).x
        (selectionBoundsOf64 diagonalLayer64 ["s"]).w
      < round64 (9 / 10) := by
  decide!

/-- C14 (as stated) fails in binary64 arithmetic: at zoom 1.2, pan (0, 0) and the
cursor at (100, 100), a wheel event with `deltaY = 20` reports the zoom
1.0999999999999999 and the pan (8.333333333333343, 8.333333333333343); the
logical point under the cursor does not map back to 100, neither by the exact
equation of the claim on the reported values nor by the transforms of the
host (100.00000000000001). -/
theorem wheel_anchor_counterexample :
    zoomCalls (handleWheel64 (props64 (round64 (12 / 10)) ⟨0, 0⟩ []) wheel64)
      = [4953959590107545 / 4503599627370496] ∧
    panCalls (handleWheel64 (props64 (round64 (12 / 10)) ⟨0, 0⟩ []) wheel64)
      = [⟨293203100740267 / 35184372088832, 293203100740267 / 35184372088832⟩] ∧
    ((100 - 0) / round64 (12 / 10)) * (4953959590107545 / 4503599627370496)
      + 293203100740267 / 35184372088832 ≠ (100 : ℚ) ∧
    canvasToScreen64
        (props64 (4953959590107545 / 4503599627370496)
          ⟨293203100740267 / 35184372088832, 293203100740267 / 35184372088832⟩ [])
        (screenToCanvas64 (props64 (round64 (12 / 10)) ⟨0, 0⟩ []) 100 100)
      = ⟨7036874417766401 / 70368744177664, 7036874417766401 / 70368744177664⟩ := by
  decide!

/-- C16 (as stated) fails in binary64 arithmetic: at zoom 1.2, pan (0, 0) and
canvas origin (0, 0) the pointer position (100, 100) mapped to logical
coordinates and back is (100.00000000000001, 100.00000000000001). -/
theorem screenToCanvas_roundtrip_counterexample :
    canvasToScreen64 (props64 (round64 (12 / 10)) ⟨0, 0⟩ [])
        (screenToCanvas64 (props64 (round64 (12 / 10)) ⟨0, 0⟩ []) 100 100)
      = ⟨7036874417766401 / 70368744177664, 7036874417766401 / 70368744177664⟩ ∧
    (7036874417766401 / 70368744177664 : ℚ) ≠ 100 - 0 := by
  decide!

/-- C24 (as stated) fails in binary64 arithmetic: with the stroke of the points
(10.1, 5) and (30, 30) selected, a pointer-down of the lasso tool at (20, 20),
inside the selection bounds, starts a selection drag; the moves to (30.3, 20)
and (50.7, 20) call the move callback with the deltas 10.3 and
20.400000000000002 of the host; applied to the layer they move the point
(10.1, 5) to `x = 40.8`, which is neither the exact translation
`10.1 + (50.7 - 20)` nor the translation 40.800000000000004 of the host by
`pn - p0`. -/
theorem selection_drag_counterexample :
    dragDown.1.isDraggingSelection = true ∧ dragDown.1.dragStart = ⟨20, 20⟩ ∧
    moveCalls (dragDown.2 ++ dragMove1.2 ++ dragMove2.2)
      = [(["s"], sub64 (round64 (303 / 10)) 20, 0),
         (["s"], sub64 (round64 (507 / 10)) (round64 (303 / 10)), 0)] ∧
    (applyBoardEffects add64 ⟨dragLayer64, []⟩ (dragDown.2 ++ dragMove1.2 ++ dragMove2.2)).map
        (fun b => layerPoints b.drawingLayer)
      = some [some [⟨2871044762448691 / 70368744177664, 5⟩,
          ⟨add64 (add64 30 (sub64 (round64 (303 / 10)) 20))
            (sub64 (round64 (507 / 10)) (round64 (303 / 10))), 30⟩]] ∧
    (2871044762448691 / 70368744177664 : ℚ)
      ≠ round64 (101 / 10) + (round64 (507 / 10) - 20) ∧
    (2871044762448691 / 70368744177664 : ℚ)
      ≠ add64 (round64 (101 / 10)) (sub64 (round64 (507 / 10)) 20) := by
  decide!

/-- When no edge test among the vertices holds, the loop of `pointInPolygon`
in binary64 arithmetic returns the value of `inside` it started with. -/
theorem pipLoop64_no_cross (px py : ℚ) (P : Point ℚ → Prop)
    (hP : ∀ u v, P u → P v → edgeCrosses64 px py u v = false) (l : List (Point ℚ)) :
    ∀ (pj : Point ℚ) (inside : Bool), P pj → (∀ q ∈ l, P q) →
      pipLoop64 px py pj l inside = inside := by
  induction l with
  | nil => intro pj inside _ _; rfl
  | cons c t ih =>
    intro pj inside hj hl
    have hc : P c := hl c (List.mem_cons_self _ _)
    simp only [pipLoop64, hP c pj hc hj]
    exact ih c inside hc (fun q hq => hl q (List.mem_cons_of_mem _ hq))

/-- What is left of C6 in binary64 arithmetic: for a point above or below the
bounding box (`py < minY` or `py > maxY`) `pointInPolygon` is false, because
the first operand of the edge test, which compares input values, fails on every
edge. -/
theorem pointInPolygon64_outside_vertical (px py : ℚ) (polygon : List (Point ℚ))
    (h : py < minY polygon ∨ maxY polygon < py) :
    pointInPolygon64 px py polygon = false := by
  unfold pointInPolygon64
  cases hl : polygon.getLast? with
  | none => rfl
  | some last =>
    have hmem : last ∈ polygon := List.mem_of_getLast?_eq_some hl
    rcases h with h | h
    · refine pipLoop64_no_cross px py (fun q => py < q.y) (fun u v hu hv => ?_) polygon last
        false (lt_of_lt_of_le h (minY_le polygon last hmem))
        (fun q hq => lt_of_lt_of_le h (minY_le polygon q hq))
      simp only [edgeCrosses64, gt_iff_lt]
      simp [show py < u.y from hu, show py < v.y from hv]
    · refine pipLoop64_no_cross px py (fun q => q.y < py) (fun u v hu hv => ?_) polygon last
        false (lt_of_le_of_lt (le_maxY polygon last hmem) h)
        (fun q hq => lt_of_le_of_lt (le_maxY polygon q hq) h)
      simp only [edgeCrosses64, gt_iff_lt]
      simp [not_lt.mpr (le_of_lt (show u.y < py from hu)),
        not_lt.mpr (le_of_lt (show v.y < py from hv))]

/-- What is left of C7 in binary64 arithmetic: on a polygon with fewer than 2
vertices `pointInPolygon` is false. -/
theorem pointInPolygon64_small (px py : ℚ) (polygon : List (Point ℚ))
    (h : polygon.length < 2) : pointInPolygon64 px py polygon = false := by
  rcases polygon with _ | ⟨a, _ | ⟨b, t⟩⟩
  · rfl
  · simp [pointInPolygon64, pipLoop64, edgeCrosses64]
  · simp only [List.length_cons] at h
    omega

end Theorems
end CollabBoard
